import Mathlib

/-!
# joinx: VCF entries, natural chromosome order and the sort buffer

A shallow embedding of `src/lib/fileformats/vcf/Entry.cpp`,
`src/lib/processors/SortBuffer.hpp`, `Bed::cmp` of `src/lib/bedutil/Bed.cpp`
and `src/lib/fileformats/WiggleReader.cpp`.

Conventions of the embedding

* `std::string` is a list of characters, one `Char` per byte (`Str`).
* Integers of the program are mathematical integers; every assignment to an
  `int64_t` is reduced to the signed 64-bit range by `toInt64`.
* A `throw` is the `Except.error` result.
-/

namespace Vcf

/-- Byte strings of the program (`std::string`), one character per byte. -/
abbrev Str := List Char

deriving instance DecidableEq for Except

/-- Conversion to `int64_t`: the representative of `x` modulo `2^64` in the
signed 64-bit range. -/
def toInt64 (x : Int) : Int :=
  (x + 9223372036854775808) % 18446744073709551616 - 9223372036854775808

/-! ## `strverscmp` of the C library

`Entry::cmp` calls `strverscmp` on the `c_str()` of both chromosome names.
The function is transcribed from the GNU C library (`string/strverscmp.c`):
a four-state automaton (`S_N` normal, `S_I` integral part, `S_F` fractional
part, `S_Z` leading zeroes) with two tables. -/

/-- View of a `std::string` through `c_str()`: the bytes before the first NUL. -/
def c_str (s : Str) : Str := s.takeWhile (fun c => c != '\x00')

/-- Dereference of a `const unsigned char*` into a NUL-terminated string whose
remaining bytes are `p`. -/
def peekChar (p : Str) : Char := p.headD '\x00'

/-- Test `isdigit` of the C locale. -/
def isdigit (c : Char) : Bool := decide (48 ≤ c.toNat) && decide (c.toNat ≤ 57)

/-- Symbol class `(c == '0') + (isdigit (c) != 0)`: 0 for other bytes, 1 for
the digits 1 to 9, 2 for the digit 0. -/
def symClass (c : Char) : Nat :=
  (if c = '0' then 1 else 0) + (if isdigit c then 1 else 0)

def S_N : Nat := 0
def S_I : Nat := 3
def S_F : Nat := 6
def S_Z : Nat := 9

/-- Result kind `CMP`: return the byte difference. -/
def CMP : Int := 2
/-- Result kind `LEN`: compare by the lengths of the digit runs. -/
def LEN : Int := 3

/-- Table `next_state`, indexed by `state + class`. -/
def next_state : List Nat :=
  [ S_N, S_I, S_Z,
    S_N, S_I, S_I,
    S_N, S_F, S_F,
    S_N, S_F, S_Z ]

/-- Table `result_type`, indexed by `state * 3 + class`, where `state`
already holds the class of the byte of the first string. -/
def result_type : List Int :=
  [ CMP, CMP, CMP, CMP, LEN, CMP, CMP, CMP, CMP,
    CMP, -1,  -1,  1,   LEN, LEN, 1,   LEN, LEN,
    CMP, CMP, CMP, CMP, CMP, CMP, CMP, CMP, CMP,
    CMP, 1,   1,   -1,  CMP, CMP, -1,  CMP, CMP ]

/-- Tail of `strverscmp` for the result kind `LEN`:
`while (isdigit (*p1++)) if (!isdigit (*p2++)) return 1;`
`return isdigit (*p2) ? -1 : diff;` -/
def lenLoop (diff : Int) : Str → Str → Int
  | [], p2 => if isdigit (peekChar p2) then -1 else diff
  | c1 :: p1, p2 =>
    if isdigit c1 then
      if isdigit (peekChar p2) then lenLoop diff p1 p2.tail else 1
    else
      if isdigit (peekChar p2) then -1 else diff

/-- Code after the comparison loop of `strverscmp`: `c1` and `c2` differ,
`p1` and `p2` are the bytes after them. -/
def verscmpResult (state : Nat) (c1 c2 : Char) (p1 p2 : Str) : Int :=
  let diff : Int := (c1.toNat : Int) - (c2.toNat : Int)
  let st := result_type.getD (state * 3 + symClass c2) CMP
  if st = CMP then diff
  else if st = LEN then lenLoop diff p1 p2
  else st

/-- Comparison loop of `strverscmp`; `state` already includes the class of
the first byte of `s1`. The strings hold no NUL byte (see `c_str`), so the end
of a list is the terminator. -/
def verscmpLoop (state : Nat) : Str → Str → Int
  | [], [] => 0
  | [], c2 :: p2 => verscmpResult state '\x00' c2 [] p2
  | c1 :: p1, [] => verscmpResult state c1 '\x00' p1 []
  | c1 :: p1, c2 :: p2 =>
    if c1 = c2 then
      verscmpLoop (next_state.getD state S_N + symClass (peekChar p1)) p1 p2
    else verscmpResult state c1 c2 p1 p2

/-- The C library function `strverscmp (s1.c_str(), s2.c_str())`. -/
def strverscmp (s1 s2 : Str) : Int :=
  verscmpLoop (S_N + symClass (peekChar (c_str s1))) (c_str s1) (c_str s2)

/-! ## Data model

`Entry.hpp`, `CustomType.hpp`, `CustomValue.hpp` and `Header.cpp` are not
among the sources; the types below carry what `Entry.cpp` and `Header.hpp`
use of them. -/

/-- Modelled from the spec: the kind of a declared field (`CustomType.hpp` is
not among the sources), "kind ∈ {Integer, Float, String, Character, Flag}". -/
inductive DataType where
  | INTEGER | FLOAT | CHAR | STRING | FLAG
  deriving DecidableEq

/-- Modelled from the spec: a declared field type (`CustomType.hpp` is not
among the sources): identifier, kind and multiplicity (`none` for a variable
number of values). -/
structure CustomType where
  id : Str
  type : DataType
  number : Option Nat
  deriving DecidableEq

/-- Modelled from the spec: one typed scalar of a `CustomValue`
(`CustomValue.hpp` is not among the sources). Doubles are represented by
their exact rational value. -/
inductive Scalar where
  | int (v : Int)
  | float (v : Rat)
  | char (v : Char)
  | string (v : Str)
  | flag (v : Bool)
  deriving DecidableEq

/-- Modelled from the spec: a schema-validated value (`CustomValue.hpp` is not
among the sources): the declared type and zero or more typed scalars; no
scalar is the "empty" state. -/
structure CustomValue where
  type : CustomType
  values : List Scalar
  deriving DecidableEq

/-- Modelled from the spec: member `CustomValue::empty()` (`CustomValue.cpp`
is not among the sources), "empty is a distinct state": no scalar. -/
def CustomValue.empty (v : CustomValue) : Bool := v.values.isEmpty

/-- Header of a VCF file (`Header.hpp`): the declared info and format types
(`std::map` keyed by id, in ascending key order), the raw meta-information
lines and the sample names. -/
structure Header where
  infoTypes : List (Str × CustomType)
  formatTypes : List (Str × CustomType)
  metaInfoLines : List (Str × Str)
  sampleNames : List Str
  deriving DecidableEq

/-- Modelled from the spec: member `Header::infoType` (`Header.cpp` is not
among the sources), declared with "infoType/formatType return NULL for
non-existing ids": the lookup in the map of info types. -/
def Header.infoType (h : Header) (id : Str) : Option CustomType :=
  (h.infoTypes.find? (fun kv => kv.1 == id)).map Prod.snd

/-- Modelled from the spec: member `Header::formatType` (`Header.cpp` is not
among the sources), declared with "infoType/formatType return NULL for
non-existing ids": the lookup in the map of format types. -/
def Header.formatType (h : Header) (id : Str) : Option CustomType :=
  (h.formatTypes.find? (fun kv => kv.1 == id)).map Prod.snd

/-- Constant `Entry::MISSING_QUALITY = numeric_limits<double>::min()`, the
smallest positive normalized double, `2^-1022` (the denominator is `2^1022`
written out). -/
def MISSING_QUALITY : Rat :=
  { num := 1,
    den := 44942328371557897693232629769725618340449424473557664318357520289433168951375240783177119330601884005280028469967848339414697442203604155623211857659868531094441973356216371319075554900311523529863270738021251442209537670585615720368478277635206809290837627671146574559986811484619929076208839082406056034304,
    den_nz := by decide,
    reduced := Nat.coprime_one_left _ }

/-- Members of `Vcf::Entry`, as `Entry.cpp` uses them (`Entry.hpp` is not
among the sources). `header` is the pointer `_header` (`none` is the null
pointer); `pos` is the value of the integer `_pos`; `qual` is the value of
the double `_qual`; `info` is the map `_info` (of the type `CustomValueMap`
that `Entry.hpp` declares), the list of its entries in iteration order (see
`mapInsert`). -/
structure Entry where
  header : Option Header
  chrom : Str
  pos : Int
  identifiers : List Str
  ref : Str
  alt : List Str
  qual : Rat
  failedFilters : List Str
  info : List (Str × CustomValue)
  formatDescription : List Str
  genotypeData : List (List CustomValue)
  start : Int
  stop : Int
  deriving DecidableEq

/-- Constructor `Entry::Entry()`. -/
def Entry.new : Entry :=
  { header := none, chrom := [], pos := 0, identifiers := [], ref := [], alt := [],
    qual := MISSING_QUALITY, failedFilters := [], info := [], formatDescription := [],
    genotypeData := [], start := 0, stop := 0 }

/-- Function `commonPrefix` of `Entry.cpp`: the loop
`while (p < a.size() && p < b.size() && a[p] == b[p]) ++p;`. -/
def commonPrefix : Str → Str → Nat
  | a :: as, b :: bs => if a = b then commonPrefix as bs + 1 else 0
  | _, _ => 0

/-- Member `Entry::cmp`. -/
def Entry.cmp (e rhs : Entry) : Int :=
  let rv := strverscmp e.chrom rhs.chrom
  if rv ≠ 0 then rv
  else if e.pos < rhs.pos then -1
  else if rhs.pos < e.pos then 1
  else 0

/-- Body of the loop of `Entry::setPositions` for one alternate allele up to
the update of `_start` and `_stop`: the local `start` and `stop`. -/
def altStartStop (pos : Int) (ref alt : Str) : Except String (Int × Int) :=
  let pfx := commonPrefix ref alt
  let start := toInt64 (pos - 1 + pfx)
  if alt.length = ref.length then
    .ok (start, toInt64 (start + alt.length - pfx))
  else if alt.length < ref.length then
    .ok (start, toInt64 (start + ref.length))
  else if alt.length > ref.length then
    .ok (toInt64 (start + 1), toInt64 (start + 1))
  else
    .error "Unknown variant type"

/-- Loop of `Entry::setPositions` over the alternate alleles not yet visited,
from the current `(_start, _stop)`. -/
def setPositionsLoop (pos : Int) (ref : Str) : List Str → Int × Int → Except String (Int × Int)
  | [], acc => .ok acc
  | alt :: rest, acc =>
    match altStartStop pos ref alt with
    | .error msg => .error msg
    | .ok (start, stop) => setPositionsLoop pos ref rest (min acc.1 start, max acc.2 stop)

/-- Member `Entry::setPositions`: `_start = _stop = _pos;` and the loop. -/
def Entry.setPositions (e : Entry) : Except String Entry :=
  match setPositionsLoop e.pos e.ref e.alt (toInt64 e.pos, toInt64 e.pos) with
  | .error msg => .error msg
  | .ok (start, stop) => .ok { e with start := start, stop := stop }

/-- Member `Entry::swap`: returns the new `(*this, other)`. -/
def Entry.swap (e other : Entry) : Entry × Entry :=
  ({ e with
      chrom := other.chrom, pos := other.pos, identifiers := other.identifiers,
      ref := other.ref, alt := other.alt, qual := other.qual,
      failedFilters := other.failedFilters, info := other.info,
      formatDescription := other.formatDescription,
      genotypeData := other.genotypeData, header := other.header },
   { other with
      chrom := e.chrom, pos := e.pos, identifiers := e.identifiers,
      ref := e.ref, alt := e.alt, qual := e.qual,
      failedFilters := e.failedFilters, info := e.info,
      formatDescription := e.formatDescription,
      genotypeData := e.genotypeData, header := e.header })

/-- Results of the accessors of `EntryMerger` that the constructor
`Entry::Entry(const EntryMerger&)` reads (`EntryMerger.hpp` is not among the
sources): `identifiers` and `failedFilters` are the elements of the
`std::set`s in iteration order, `info` is what `setInfo` stores, and `alt`,
`formatDescription`, `genotypeData` are what `setAltAndGenotypeData` stores. -/
structure EntryMerger where
  mergedHeader : Option Header
  chrom : Str
  pos : Int
  ref : Str
  qual : Rat
  identifiers : List Str
  failedFilters : List Str
  info : List (Str × CustomValue)
  alt : List Str
  formatDescription : List Str
  genotypeData : List (List CustomValue)

/-- Constructor `Entry::Entry(const EntryMerger&)`. -/
def Entry.ofMerger (m : EntryMerger) : Except String Entry :=
  Entry.setPositions
    { header := m.mergedHeader, chrom := m.chrom, pos := m.pos, ref := m.ref,
      qual := m.qual, start := 0, stop := 0,
      identifiers := m.identifiers, failedFilters := m.failedFilters,
      info := m.info, alt := m.alt, formatDescription := m.formatDescription,
      genotypeData := m.genotypeData }

/-- Span of one alternate allele in the words of the specification, with
`p` the length of the longest common prefix of `ref` and `alt`:
substitution `[pos-1+p, pos-1+p+(len(alt)-p))`, deletion
`[pos-1+p, pos-1+p+len(ref))`, insertion `[pos+p, pos+p)`. -/
def specSpan (pos : Int) (ref alt : Str) : Int × Int :=
  let p : Int := commonPrefix ref alt
  if ref.length = alt.length then (pos - 1 + p, pos - 1 + p + (alt.length - p))
  else if alt.length < ref.length then (pos - 1 + p, pos - 1 + p + ref.length)
  else (pos + p, pos + p)

/-- Positions and allele lengths for which no intermediate value of
`setPositions` leaves the signed 64-bit range. -/
def InRange (pos : Int) (ref : Str) (alts : List Str) : Prop :=
  -9223372036854775808 < pos ∧ pos < 9223372036854775808 ∧
  ∀ a ∈ alts, pos + ref.length + a.length < 9223372036854775808

/-- A record with the given position and alleles and nothing else. -/
def Entry.ofAlleles (pos : Int) (ref : Str) (alt : List Str) : Entry :=
  { Entry.new with pos := pos, ref := ref, alt := alt }

instance (pos : Int) (ref : Str) (alts : List Str) : Decidable (InRange pos ref alts) := by
  unfold InRange; infer_instance

/-- Starts of the spans of the specification, one per alternate allele. -/
def spanStarts (pos : Int) (ref : Str) (alts : List Str) : List Int :=
  alts.map (fun a => (specSpan pos ref a).1)

/-- Stops of the spans of the specification, one per alternate allele. -/
def spanStops (pos : Int) (ref : Str) (alts : List Str) : List Int :=
  alts.map (fun a => (specSpan pos ref a).2)

/-! ## Text of a record: `Entry::parse` and `operator<<`

The helpers these two functions call live in headers that are not among the
sources. The tokenizer and the list helpers are modelled from the
specification and from their uses in `Entry.cpp`; the text conversions of
doubles and of typed values are parameters (`TextConv`). -/

/-- Text conversions that `Entry.cpp` takes from elsewhere:
`lexical_cast<double>` (`none` when the cast throws), `operator<<` of a
double, the constructor `CustomValue(type, text)` (an error when it throws;
the type pointer may be null) and `CustomValue::toString` / `toStream`, which
write the same text. -/
structure TextConv where
  readDouble : Str → Option Rat
  showDouble : Rat → Str
  valueOfText : Option CustomType → Str → Except String CustomValue
  valueToString : CustomValue → Str

/-- Modelled from the spec: `Tokenizer<char>` (`Tokenizer.hpp` is not among
the sources), "split buffer on delimiter, yields tokens". The state is the
list of tokens not yet extracted; a text with `n` delimiters has `n + 1`
tokens, empty ones included. -/
structure Tokenizer where
  pending : List Str
  delim : Char

/-- Constructor `Tokenizer<char>(s, delim)`. -/
def Tokenizer.new (s : Str) (delim : Char) : Tokenizer :=
  { pending := s.splitOn delim, delim := delim }

/-- Member `Tokenizer::extract(std::string&)`: the next token and the advanced
tokenizer, `none` when no token is left (`extract` returns false). -/
def Tokenizer.extract (t : Tokenizer) : Option (Str × Tokenizer) :=
  match t.pending with
  | [] => none
  | x :: rest => some (x, { t with pending := rest })

/-- Member `Tokenizer::remaining`: the text not yet extracted. -/
def Tokenizer.remaining (t : Tokenizer) : Str :=
  [t.delim].intercalate t.pending

/-- Value of a string of decimal digits. -/
def natOfDigits (s : Str) : Nat :=
  s.foldl (fun v c => 10 * v + (c.toNat - 48)) 0

/-- Modelled from the spec: conversion of a token to the position, "1-based
position (integer)": a non-empty string of decimal digits below `2^64`. -/
def parsePos (s : Str) : Option Int :=
  if s ≠ [] ∧ s.all isdigit = true ∧ natOfDigits s < 18446744073709551616 then
    some (natOfDigits s)
  else none

/-- Member `Tokenizer::extract` into the integer `_pos`. -/
def Tokenizer.extractPos (t : Tokenizer) : Option (Int × Tokenizer) :=
  match t.extract with
  | none => none
  | some (x, t') => (parsePos x).map (fun n => (n, t'))

/-- Output `s << e.pos()`: the decimal digits, after a minus sign for a
negative value. -/
def showInt (x : Int) : Str :=
  if x < 0 then '-' :: Nat.toDigits 10 x.natAbs else Nat.toDigits 10 x.toNat

/-- Default delimiter of `extractList` and `printList` (the calls for
identifiers, filters and info name none). -/
def listDelim : Char := ';'

/-- Modelled from the spec: `extractList(v, s, delim)` (declared outside
`Entry.cpp`): `v` becomes the tokens of `s`; the text "." ("missing scalar")
is the empty list, as the serializer writes "." for empty lists and empty
info, and `parse` looks every non-empty info token up in the header. -/
def extractList (s : Str) (delim : Char) : List Str :=
  if s = ['.'] then [] else (Tokenizer.new s delim).pending

/-- Modelled from the spec: `Entry::printList(s, v, delim)` (declared outside
`Entry.cpp`): the elements joined by `delim`, "." for an empty list. -/
def printList (v : List Str) (delim : Char) : Str :=
  if v.isEmpty then ['.'] else [delim].intercalate v

/-- Plain lexicographic order of two strings, byte by byte (`operator<` of
`std::string`). -/
def strLess : Str → Str → Bool
  | [], [] => false
  | [], _ :: _ => true
  | _ :: _, [] => false
  | a :: as, b :: bs =>
    if a.toNat < b.toNat then true
    else if b.toNat < a.toNat then false
    else strLess as bs

/-- Modelled from the spec: member `insert` of `Entry::CustomValueMap` (the
typedef is in `Entry.hpp`, which is not among the sources), the "mapping
field-id→TypedValue for info scope" that is written with the "info fields in
the order they were parsed/inserted, not sorted". The map is the list of its
entries in iteration order; a new key goes to the end, and the result is
`none` when the key is present (`inserted.second` is false). -/
def mapInsert (k : Str) (v : CustomValue) (m : List (Str × CustomValue)) :
    Option (List (Str × CustomValue)) :=
  if m.any (fun kv => kv.1 == k) then none else some (m ++ [(k, v)])

/-- Loop over `infoStrings` in `Entry::parse`; `header` is the argument `h`. -/
def parseInfo (c : TextConv) (header : Option Header) :
    List Str → List (Str × CustomValue) → Except String (List (Str × CustomValue))
  | [], info => .ok info
  | i :: rest, info =>
    if i.isEmpty then parseInfo c header rest info
    else
      let kv := Tokenizer.new i '='
      let (key, value) := match kv.extract with
        | some (k, kv') => (k, kv'.remaining)
        | none => ([], kv.remaining)
      match header with
      | none => .error "Attempted to use Vcf Entry with no header!"
      | some hd =>
        match hd.infoType key with
        | none => .error "Failed to lookup type for info field"
        | some type =>
          match c.valueOfText (some type) value with
          | .error msg => .error msg
          | .ok v =>
            match mapInsert key v info with
            | none => .error "Duplicate value for info field"
            | some info' => parseInfo c header rest info'

/-- Check of the ids of the format description in `Entry::parse`. -/
def checkFormat (header : Option Header) : List Str → Except String Unit
  | [] => .ok ()
  | i :: rest =>
    if i.isEmpty then checkFormat header rest
    else
      match header with
      | none => .error "Attempted to use Vcf Entry with no header!"
      | some hd =>
        if (hd.formatType i).isNone then .error "Unknown id in FORMAT field"
        else checkFormat header rest

/-- Values of one sample column: `data[i]` is read with the type of
`_formatDescription[i]`; the caller has checked
`data.size() <= _formatDescription.size()`. -/
def parseSampleValues (c : TextConv) (header : Option Header) :
    List Str → List Str → Except String (List CustomValue)
  | _, [] => .ok []
  | [], _ :: _ => .ok []
  | f :: fs, d :: ds =>
    match header with
    | none => .error "Attempted to use Vcf Entry with no header!"
    | some hd =>
      match c.valueOfText (hd.formatType f) d with
      | .error msg => .error msg
      | .ok v =>
        match parseSampleValues c header fs ds with
        | .error msg => .error msg
        | .ok vs => .ok (v :: vs)

/-- Loop `while (tok.extract(tmp))` over the sample columns in `Entry::parse`. -/
def parseSamples (c : TextConv) (header : Option Header) (format : List Str) :
    List Str → Except String (List (List CustomValue))
  | [] => .ok []
  | tmp :: rest =>
    let data := extractList tmp ':'
    if data.length > format.length then
      .error "More per-sample values than described in format section"
    else
      match parseSampleValues c header format data with
      | .error msg => .error msg
      | .ok perSampleValues =>
        match parseSamples c header format rest with
        | .error msg => .error msg
        | .ok more => .ok (perSampleValues :: more)

/-- Member `Entry::parse(h, s)` on the entry `e`. -/
def Entry.parse (c : TextConv) (e : Entry) (h : Option Header) (s : Str) :
    Except String Entry :=
  let tok := Tokenizer.new s '\t'
  match tok.extract with
  | none => .error "Failed to extract chromosome from vcf entry"
  | some (chrom, tok) =>
  match tok.extractPos with
  | none => .error "Failed to extract position from vcf entry"
  | some (pos, tok) =>
  match tok.extract with
  | none => .error "Failed to extract id from vcf entry"
  | some (tmp, tok) =>
  let identifiers := extractList tmp listDelim
  match tok.extract with
  | none => .error "Failed to extract ref alleles from vcf entry"
  | some (ref, tok) =>
  match tok.extract with
  | none => .error "Failed to extract alt alleles from vcf entry"
  | some (tmp, tok) =>
  let alt := extractList tmp ','
  match tok.extract with
  | none => .error "Failed to extract quality from vcf entry"
  | some (qualstr, tok) =>
  match (if qualstr = ['.'] then some MISSING_QUALITY else c.readDouble qualstr) with
  | none => .error "bad lexical cast"
  | some qual =>
  match tok.extract with
  | none => .error "Failed to extract filters from vcf entry"
  | some (tmp, tok) =>
  let filters := extractList tmp listDelim
  let failedFilters := if filters.length = 1 ∧ filters.head? = some "PASS".toList then [] else filters
  match tok.extract with
  | none => .error "Failed to extract info from vcf entry"
  | some (tmp, tok) =>
  let infoStrings := extractList tmp listDelim
  match parseInfo c h infoStrings [] with
  | .error msg => .error msg
  | .ok info =>
  let e1 : Entry := { e with
    header := h, chrom := chrom, pos := pos, identifiers := identifiers, ref := ref,
    alt := alt, qual := qual, failedFilters := failedFilters, info := info }
  match tok.extract with
  | none => e1.setPositions
  | some (tmp, tok) =>
    let formatDescription := extractList tmp ':'
    match checkFormat h formatDescription with
    | .error msg => .error msg
    | .ok _ =>
      match parseSamples c h formatDescription tok.pending with
      | .error msg => .error msg
      | .ok genotypeData =>
        Entry.setPositions { e1 with
          formatDescription := formatDescription, genotypeData := genotypeData }

/-- Constructor `Entry::Entry(const Header* h, const string& s)`; the members
`_pos` and `_qual`, which it leaves uninitialized, are assigned by `parse`
before any read. -/
def Entry.ofLine (c : TextConv) (h : Option Header) (s : Str) : Except String Entry :=
  Entry.parse c { Entry.new with header := h } h s

/-- Info column of `operator<<`: one item per entry of the map, the id of the
type of the value and, when the text of the value is not empty, "=" and that
text. -/
def showInfoItem (c : TextConv) (kv : Str × CustomValue) : Str :=
  let value := c.valueToString kv.2
  if value.isEmpty then kv.2.type.id else kv.2.type.id ++ '=' :: value

/-- One value of a sample column in `operator<<`. -/
def showSampleValue (c : TextConv) (v : CustomValue) : Str :=
  if v.empty then ['.'] else c.valueToString v

/-- One sample column in `operator<<`, without the leading tab. -/
def showSample (c : TextConv) (sample : List CustomValue) : Str :=
  if !sample.isEmpty then [':'].intercalate (sample.map (showSampleValue c)) else ['.']

/-- Output `operator<<(ostream&, const Vcf::Entry&)`, which is also
`Entry::toString`. -/
def Entry.toString (c : TextConv) (e : Entry) : Str :=
  e.chrom ++ '\t' :: showInt e.pos ++ '\t' ::
  printList e.identifiers listDelim ++
  '\t' :: e.ref ++ '\t' ::
  printList e.alt ',' ++
  (if e.qual ≤ MISSING_QUALITY then "\t.\t".toList
   else '\t' :: c.showDouble e.qual ++ ['\t']) ++
  (if e.failedFilters.isEmpty then "PASS".toList else printList e.failedFilters listDelim) ++
  '\t' ::
  (if e.info.isEmpty then ['.'] else [';'].intercalate (e.info.map (showInfoItem c))) ++
  '\t' ::
  printList e.formatDescription ':' ++
  (e.genotypeData.map (fun sample => '\t' :: showSample c sample)).flatten

/-- Text of one scalar in `specConv`. -/
def showScalar : Scalar → Str
  | .int v => showInt v
  | .float v => if v.den = 1 then showInt v.num else showInt v.num ++ '/' :: showInt v.den
  | .char v => [v]
  | .string v => v
  | .flag _ => []

/-- Decimal integer with an optional minus sign. -/
def parseInt (s : Str) : Option Int :=
  match s with
  | '-' :: ds => if ds ≠ [] ∧ ds.all isdigit = true then some (-(natOfDigits ds : Int)) else none
  | ds => if ds ≠ [] ∧ ds.all isdigit = true then some (natOfDigits ds : Int) else none

/-- One scalar of the declared kind read from a token in `specConv`. -/
def readScalar (t : DataType) (s : Str) : Option Scalar :=
  match t with
  | .INTEGER => (parseInt s).map Scalar.int
  | .FLOAT => (parseInt s).map (fun n => Scalar.float n)
  | .CHAR => match s with
    | [ch] => some (Scalar.char ch)
    | _ => none
  | .STRING => some (Scalar.string s)
  | .FLAG => some (Scalar.flag true)

/-- Modelled from the spec: an instance of the text conversions for whole
numbers and typed values (`CustomValue.cpp` is not among the sources). A
value text is a comma-separated list of scalars of the declared kind; "" and
"." are the empty value ("missing scalar"); a flag has no payload and no
text; a text that cannot be coerced to the declared kind is an error.
Doubles are read and written as whole decimal numbers. -/
def specConv : TextConv where
  readDouble s := (parseInt s).map (fun n => (n : Rat))
  showDouble q := showScalar (.float q)
  valueOfText type s :=
    match type with
    | none => .error "no type"
    | some t =>
      if t.type = .FLAG then .ok { type := t, values := [.flag true] }
      else if s = [] ∨ s = ['.'] then .ok { type := t, values := [] }
      else
        match (s.splitOn ',').mapM (readScalar t.type) with
        | none => .error "type error"
        | some vs => .ok { type := t, values := vs }
  valueToString v := [','].intercalate (v.values.map showScalar)

end Vcf

/-! ## `SortBuffer<StreamType, StreamOpener, OutputFunc>` -/

open Vcf (Str)

/-- Enumeration `CompressionType`. -/
inductive CompressionType where
  | NONE | GZIP | BZIP2
  deriving DecidableEq

/-- What `SortBuffer` uses of its template parameters, for the value type
`V = StreamType::ValueType`, the header type `H = ValueType::HeaderType` and
the stream type `S = StreamType`: `operator<` of values, `operator<<` of the
header and of a value, the stream opener applied to an input with the given
bytes, and the members `next`, `peek` and `eof` of the stream (`next` and
`peek` give `none` for the result false; an error is a thrown exception). -/
structure StreamOps (V H S : Type) where
  less : V → V → Bool
  showHeader : H → Str
  showValue : V → Str
  openStream : Str → Except String S
  next : S → Except String (Option V × S)
  peek : S → Except String (Option V × S)
  eof : S → Bool

/-- Compressors and decompressors of `boost::iostreams`, as functions on the
bytes written through them. -/
structure Filters where
  gzip_compressor : Str → Str
  gzip_decompressor : Str → Str
  bzip2_compressor : Str → Str
  bzip2_decompressor : Str → Str

/-- Output filter chain of `writeTmp` (`switch (_compression)` before
`out.push(_tmpfile->stream())`). -/
def Filters.compress (f : Filters) : CompressionType → Str → Str
  | .GZIP => f.gzip_compressor
  | .BZIP2 => f.bzip2_compressor
  | .NONE => id

/-- Input filter chain of `writeTmp` (`switch (_compression)` before
`_in.push(_tmpfile->stream())`). -/
def Filters.decompress (f : Filters) : CompressionType → Str → Str
  | .GZIP => f.gzip_decompressor
  | .BZIP2 => f.bzip2_decompressor
  | .NONE => id

/-- Members of `SortBuffer`: `_header`, `_stable`, `_compression`, the deque
`_buf`, the bytes of the temporary file `_tmpfile` (`none` for the null
pointer) and the stream `_stream` (`none` for the null pointer). -/
structure SortBuffer (V H S : Type) where
  header : H
  stable : Bool
  compression : CompressionType
  buf : List V
  tmpfile : Option Str
  stream : Option S

/-- Library function `std::stable_sort` with the comparator `less`: an
insertion sort that keeps each element before the later elements that are not
less than it. -/
def stable_sort {V : Type} (less : V → V → Bool) (l : List V) : List V :=
  l.insertionSort (fun a b => less b a = false)

/-- Library function `std::sort` with the comparator `less`; the order of
equivalent elements is unspecified, here an insertion sort that puts each
element behind the later elements equivalent to it. -/
def std_sort {V : Type} (less : V → V → Bool) (l : List V) : List V :=
  l.insertionSort (fun a b => less a b = true)

namespace SortBuffer

variable {V H S : Type}

/-- Constructor `SortBuffer(streamOpener, h, stable, compression)`. -/
def new (h : H) (stable : Bool) (compression : CompressionType) : SortBuffer V H S :=
  { header := h, stable := stable, compression := compression, buf := [],
    tmpfile := none, stream := none }

/-- Member `push_back`. -/
def push_back (sb : SortBuffer V H S) (value : V) : SortBuffer V H S :=
  { sb with buf := sb.buf ++ [value] }

/-- Member `sort`. -/
def sort (ops : StreamOps V H S) (sb : SortBuffer V H S) : SortBuffer V H S :=
  if sb.stable then { sb with buf := stable_sort ops.less sb.buf }
  else { sb with buf := std_sort ops.less sb.buf }

/-- Member `size`. -/
def size (sb : SortBuffer V H S) : Nat := sb.buf.length

/-- Member `empty`. -/
def empty (sb : SortBuffer V H S) : Bool := sb.buf.isEmpty && sb.stream.isNone

/-- Bytes that `writeTmp` sends through the output filter chain: the header,
then every buffered value followed by a newline. -/
def tmpText (ops : StreamOps V H S) (sb : SortBuffer V H S) : Str :=
  ops.showHeader sb.header ++ (sb.buf.map (fun v => ops.showValue v ++ ['\n'])).flatten

/-- Member `writeTmp`. -/
def writeTmp (ops : StreamOps V H S) (f : Filters) (sb : SortBuffer V H S) :
    Except String (SortBuffer V H S) :=
  if sb.tmpfile.isSome then .error "Attempt to re-serialize sort buffer"
  else
    let file := f.compress sb.compression (tmpText ops sb)
    match ops.openStream (f.decompress sb.compression file) with
    | .error msg => .error msg
    | .ok stream => .ok { sb with buf := [], tmpfile := some file, stream := some stream }

/-- Member `peek`: the value `*v` points to when the result is true. -/
def peek (ops : StreamOps V H S) (sb : SortBuffer V H S) :
    Except String (Option V × SortBuffer V H S) :=
  match sb.stream with
  | some s =>
    match ops.peek s with
    | .error msg => .error msg
    | .ok (v, s') => .ok (v, { sb with stream := some s' })
  | none =>
    match sb.buf with
    | [] => .ok (none, sb)
    | v :: _ => .ok (some v, sb)

/-- Member `next`: the value assigned to `v` when the result is true, `none`
when the result is false. -/
def next (ops : StreamOps V H S) (sb : SortBuffer V H S) :
    Except String (Option V × SortBuffer V H S) :=
  match sb.stream with
  | some s =>
    match ops.next s with
    | .error msg => .error msg
    | .ok (v, s') => .ok (v, { sb with stream := some s' })
  | none =>
    match sb.buf with
    | [] => .ok (none, sb)
    | v :: rest => .ok (some v, { sb with buf := rest })

/-- Member `eof`. -/
def eof (ops : StreamOps V H S) (sb : SortBuffer V H S) : Bool :=
  match sb.stream with
  | some s => ops.eof s
  | none => sb.buf.isEmpty

/-- Caller loop `while (sb.next(v)) out.push_back(v);` run for at most `fuel`
calls of `next`: the values delivered and the final buffer when a call
returned false, `none` when the fuel ran out first. -/
def drain (ops : StreamOps V H S) : Nat → SortBuffer V H S →
    Except String (Option (List V × SortBuffer V H S))
  | 0, _ => .ok none
  | fuel + 1, sb =>
    match next ops sb with
    | .error msg => .error msg
    | .ok (none, sb') => .ok (some ([], sb'))
    | .ok (some v, sb') =>
      match drain ops fuel sb' with
      | .error msg => .error msg
      | .ok none => .ok none
      | .ok (some (vs, sb'')) => .ok (some (v :: vs, sb''))

/-- Calls `push_back` for every value of a list, in order. -/
def pushAll (sb : SortBuffer V H S) (values : List V) : SortBuffer V H S :=
  values.foldl push_back sb

end SortBuffer

/-- Requirement of `std::stable_sort` on its comparator: a strict weak
ordering (irreflexive, transitive, with transitive equivalence). -/
structure StrictWeakOrder {V : Type} (less : V → V → Bool) : Prop where
  irrefl : ∀ a, less a a = false
  trans : ∀ a b c, less a b = true → less b c = true → less a c = true
  equiv_trans : ∀ a b c, less a b = false → less b a = false →
    less b c = false → less c b = false → less a c = false ∧ less c a = false

/-- Values of equal key: neither is less than the other. -/
def sameKey {V : Type} (less : V → V → Bool) (a b : V) : Bool :=
  !less a b && !less b a

/-- Stream operations for values that are kept in memory only: the numbers
with their usual order and no stream. -/
def natOps : StreamOps Nat Unit Unit where
  less a b := decide (a < b)
  showHeader _ := []
  showValue n := Nat.toDigits 10 n
  openStream _ := .error "no stream"
  next s := .ok (none, s)
  peek s := .ok (none, s)
  eof _ := true

/-- Property `p` of the result of a computation that may throw: it holds of
the value when there is one. -/
def Except.holds {ε α : Type} (p : α → Prop) : Except ε α → Prop
  | .ok a => p a
  | .error _ => True

namespace Vcf

/-- Header of the examples: info fields AF (string), DB (flag), DP (integer);
format fields DP (integer) and GT (string); two samples. -/
def exampleHeader : Header :=
  { infoTypes :=
      [("AF".toList, { id := "AF".toList, type := .STRING, number := some 1 }),
       ("DB".toList, { id := "DB".toList, type := .FLAG, number := some 0 }),
       ("DP".toList, { id := "DP".toList, type := .INTEGER, number := some 1 })],
    formatTypes :=
      [("DP".toList, { id := "DP".toList, type := .INTEGER, number := some 1 }),
       ("GT".toList, { id := "GT".toList, type := .STRING, number := some 1 })],
    metaInfoLines := [],
    sampleNames := ["s1".toList, "s2".toList] }


/-- Columns of the line that `operator<<` writes for a record, in order. -/
def Entry.fields (c : TextConv) (e : Entry) : List Str :=
  [ e.chrom, showInt e.pos, printList e.identifiers listDelim, e.ref, printList e.alt ',',
    (if e.qual ≤ MISSING_QUALITY then ['.'] else c.showDouble e.qual),
    (if e.failedFilters.isEmpty then "PASS".toList else printList e.failedFilters listDelim),
    (if e.info.isEmpty then ['.'] else [';'].intercalate (e.info.map (showInfoItem c))),
    printList e.formatDescription ':' ] ++ e.genotypeData.map (showSample c)

/-- The values of a sample column read back from their text with the types of
the format ids at the same positions. -/
def sampleReadsBack (c : TextConv) (hd : Header) : List Str → List CustomValue → Prop
  | _, [] => True
  | [], _ :: _ => False
  | f :: fs, v :: vs =>
    c.valueOfText (hd.formatType f) (showSampleValue c v) = .ok v ∧ sampleReadsBack c hd fs vs

instance (c : TextConv) (hd : Header) :
    ∀ (fs : List Str) (vs : List CustomValue), Decidable (sampleReadsBack c hd fs vs)
  | [], [] => isTrue (by simp [sampleReadsBack])
  | _ :: _, [] => isTrue (by simp [sampleReadsBack])
  | [], _ :: _ => isFalse (by simp [sampleReadsBack])
  | f :: fs, v :: vs =>
    have := instDecidableSampleReadsBack c hd fs vs
    decidable_of_iff
      (c.valueOfText (hd.formatType f) (showSampleValue c v) = .ok v ∧
        sampleReadsBack c hd fs vs) (by simp [sampleReadsBack])

/-- The plain columns of a record are read back from their text: no column
text holds a tab, no list element holds the delimiter of its list, no list is
the one-element list ["."] (the text "." stands for the empty list), the
position is in the unsigned 64-bit range, and the failed filters are not the
single filter "PASS" (which stands for no failed filter). -/
def ColumnsReadBack (r : Entry) : Prop :=
  '\t' ∉ r.chrom ∧
  (0 ≤ r.pos ∧ r.pos < 18446744073709551616) ∧
  ((∀ x ∈ r.identifiers, '\t' ∉ x ∧ listDelim ∉ x) ∧ r.identifiers ≠ [['.']]) ∧
  '\t' ∉ r.ref ∧
  ((∀ x ∈ r.alt, '\t' ∉ x ∧ ',' ∉ x) ∧ r.alt ≠ [['.']]) ∧
  ((∀ x ∈ r.failedFilters, '\t' ∉ x ∧ listDelim ∉ x) ∧ r.failedFilters ≠ [['.']] ∧
    r.failedFilters ≠ ["PASS".toList])

/-- The quality is read back from its text: it is the missing-quality
sentinel, or it is above the sentinel and the text of the double holds no
tab, is not "." and is cast back to the same double. -/
def QualReadsBack (c : TextConv) (r : Entry) : Prop :=
  r.qual = MISSING_QUALITY ∨
    (MISSING_QUALITY < r.qual ∧ '\t' ∉ c.showDouble r.qual ∧ c.showDouble r.qual ≠ ['.'] ∧
      c.readDouble (c.showDouble r.qual) = some r.qual)

/-- The info map is read back from its text: it holds each key once, each
value is stored under the id of its type, that id is declared in the header
with that type, is not empty and holds no '=', ';' or tab, the text of the
value holds no ';' or tab and gives the value back, and the info column is
not the text ".". -/
def InfoReadsBack (c : TextConv) (hd : Header) (r : Entry) : Prop :=
  r.info.Pairwise (fun a b => a.1 ≠ b.1) ∧
  r.info.map (showInfoItem c) ≠ [['.']] ∧
  ∀ kv ∈ r.info, kv.1 = kv.2.type.id ∧ hd.infoType kv.1 = some kv.2.type ∧
    '=' ∉ kv.1 ∧ kv.1 ≠ [] ∧
    '\t' ∉ c.valueToString kv.2 ∧ ';' ∉ c.valueToString kv.2 ∧
    '\t' ∉ kv.1 ∧ ';' ∉ kv.1 ∧
    c.valueOfText (some kv.2.type) (c.valueToString kv.2) = .ok kv.2

/-- The format description and the samples are read back from their text:
each format id holds no ':' or tab and, when not empty, is declared in the
header; the format description is not the list ["."]; each sample has at most
as many values as the format description, the texts of its values hold no ':'
or tab and give the values back, and a sample is not a single value with the
text "." (the text "." stands for the sample without data). -/
def SamplesReadBack (c : TextConv) (hd : Header) (r : Entry) : Prop :=
  ((∀ x ∈ r.formatDescription, '\t' ∉ x ∧ ':' ∉ x ∧
      (x ≠ [] → (hd.formatType x).isSome = true)) ∧
    r.formatDescription ≠ [['.']]) ∧
  (∀ sample ∈ r.genotypeData,
    sample.length ≤ r.formatDescription.length ∧
    sample.map (showSampleValue c) ≠ [['.']] ∧
    (∀ v ∈ sample, '\t' ∉ showSampleValue c v ∧ ':' ∉ showSampleValue c v) ∧
    sampleReadsBack c hd r.formatDescription sample)

/-- Well-formed records for the text conversions `c` and the header `hd`:
the header of the record is `hd`, every part of the record is read back from
its text, and `start` and `stop` are the values that `setPositions`
computes. -/
def WellFormed (c : TextConv) (hd : Header) (r : Entry) : Prop :=
  r.header = some hd ∧ ColumnsReadBack r ∧ QualReadsBack c r ∧ InfoReadsBack c hd r ∧
  SamplesReadBack c hd r ∧ r.setPositions = .ok r

instance (r : Entry) : Decidable (ColumnsReadBack r) := by
  unfold ColumnsReadBack; infer_instance

instance (c : TextConv) (r : Entry) : Decidable (QualReadsBack c r) := by
  unfold QualReadsBack; infer_instance

instance (c : TextConv) (hd : Header) (r : Entry) : Decidable (InfoReadsBack c hd r) := by
  unfold InfoReadsBack; infer_instance

instance (c : TextConv) (hd : Header) (r : Entry) : Decidable (SamplesReadBack c hd r) := by
  unfold SamplesReadBack; infer_instance

instance (c : TextConv) (hd : Header) (r : Entry) : Decidable (WellFormed c hd r) := by
  unfold WellFormed; infer_instance

/-- A record with one sample whose only value (for the format id DP) is
empty. -/
def sampleWithEmptyValue : Entry :=
  { Entry.new with
    header := some exampleHeader, chrom := "chr1".toList, pos := 100, ref := "A".toList,
    alt := ["G".toList], formatDescription := ["DP".toList],
    genotypeData := [[{ type := { id := "DP".toList, type := .INTEGER, number := some 1 },
                        values := [] }]],
    start := 99, stop := 100 }

/-- A well-formed record with identifiers, two alternate alleles, a
quality, a failed filter, three info fields and two samples. -/
def exampleRecord : Entry :=
  { header := some exampleHeader, chrom := "chr1".toList, pos := 100,
    identifiers := ["rs1".toList, "rs2".toList], ref := "A".toList,
    alt := ["G".toList, "AT".toList], qual := 30, failedFilters := ["q10".toList],
    info :=
      [("AF".toList, { type := { id := "AF".toList, type := .STRING, number := some 1 },
                       values := [.string "0.5".toList] }),
       ("DB".toList, { type := { id := "DB".toList, type := .FLAG, number := some 0 },
                       values := [.flag true] }),
       ("DP".toList, { type := { id := "DP".toList, type := .INTEGER, number := some 1 },
                       values := [.int 3] })],
    formatDescription := ["GT".toList, "DP".toList],
    genotypeData :=
      [[{ type := { id := "GT".toList, type := .STRING, number := some 1 },
          values := [.string "0/1".toList] },
        { type := { id := "DP".toList, type := .INTEGER, number := some 1 },
          values := [.int 5] }],
       [],
       [{ type := { id := "GT".toList, type := .STRING, number := some 1 },
          values := [] },
        { type := { id := "DP".toList, type := .INTEGER, number := some 1 },
          values := [.int 7] }]],
    start := 99, stop := 101 }

end Vcf

/-! ## The stream of VCF entries behind a spilled `SortBuffer` -/

namespace Vcf

/-- Text conversions of the header that the sources do not hold
(`Header.cpp`): `operator<<(ostream&, const Header&)` and `Header::add`, which
takes one header line into a header. -/
structure HeaderConv where
  showHeader : Header → Str
  add : Header → Str → Header

/-- Constructor `Header::Header()`: the header without declarations. -/
def Header.new : Header :=
  { infoTypes := [], formatTypes := [], metaInfoLines := [], sampleNames := [] }

/-- Lines that repeated `getline` calls deliver for an input with the given
bytes: the pieces between newlines; no line follows a final newline. -/
def getlines (input : Str) : List Str :=
  let pieces := input.splitOn '\n'
  if pieces.getLast? = some [] then pieces.dropLast else pieces

/-- Test `stream.peek() == '#'` of `Header::fromStream` at the start of a line. -/
def startsWithHash (line : Str) : Bool := line.head? == some '#'

/-- Function `Header::fromStream` on the lines of a stream: the header made of
the leading lines that start with '#', and the lines left in the stream. -/
def Header.fromStream (hc : HeaderConv) (lines : List Str) : Header × List Str :=
  ((lines.takeWhile startsWithHash).foldl hc.add Header.new, lines.dropWhile startsWithHash)

/-- Modelled from the spec: the stream type that reads entries back
(`TypedStream.hpp` is not among the sources), "a fresh parse stream": the
header read from the head of the input and the lines not yet read. -/
structure EntryStream where
  header : Header
  lines : List Str

/-- Modelled from the spec: opening the stream reads the header block,
"consecutive lines beginning with a reserved marker character preceding the
data, consumed to populate a TypeRegistry before any data line is parsed". -/
def EntryStream.open (hc : HeaderConv) (input : Str) : EntryStream :=
  let r := Header.fromStream hc (getlines input)
  { header := r.1, lines := r.2 }

/-- Modelled from the spec: `next` of the stream reads one line and parses it
against the header of the stream; false at the end of the data. -/
def EntryStream.next (c : TextConv) (s : EntryStream) :
    Except String (Option Entry × EntryStream) :=
  match s.lines with
  | [] => .ok (none, s)
  | line :: rest =>
    match Entry.ofLine c (some s.header) line with
    | .error msg => .error msg
    | .ok e => .ok (some e, { s with lines := rest })

/-- Modelled from the spec: `peek` of the stream gives the next entry without
consuming it. -/
def EntryStream.peek (c : TextConv) (s : EntryStream) :
    Except String (Option Entry × EntryStream) :=
  match s.lines with
  | [] => .ok (none, s)
  | line :: _ =>
    match Entry.ofLine c (some s.header) line with
    | .error msg => .error msg
    | .ok e => .ok (some e, s)

/-- Modelled from the spec: `Entry::operator<` (`Entry.hpp` is not among the
sources), the order of `cmp`, "the canonical sort key used throughout the
sort/merge engine": `cmp(rhs) < 0`. -/
def Entry.less (e rhs : Entry) : Bool := decide (e.cmp rhs < 0)

/-- Instantiation of `SortBuffer` for VCF entries read back by `EntryStream`. -/
def entryOps (c : TextConv) (hc : HeaderConv) : StreamOps Entry Header EntryStream where
  less := Entry.less
  showHeader := hc.showHeader
  showValue := Entry.toString c
  openStream input := .ok (EntryStream.open hc input)
  next := EntryStream.next c
  peek := EntryStream.peek c
  eof s := s.lines.isEmpty

/-- A header text conversion for `exampleHeader` alone: the header is written
as one line, and that line gives the header back. -/
def exampleHeaderConv : HeaderConv where
  showHeader _ := "##example\n".toList
  add _ _ := exampleHeader

/-- Stand-ins for the filters of `boost::iostreams` in the examples: the gzip
pair reverses the bytes, the bzip2 pair leaves them as they are. -/
def exampleFilters : Filters where
  gzip_compressor := List.reverse
  gzip_decompressor := List.reverse
  bzip2_compressor := id
  bzip2_decompressor := id

/-- The header text is a block of header lines that gives the header back:
the text is the lines `hl`, each ended by a newline, every line starts with
'#' and holds no newline, and adding the lines to an empty header gives
`h`. -/
def HeaderReadsBack (hc : HeaderConv) (h : Header) (hl : List Str) : Prop :=
  hc.showHeader h = (hl.map (fun l => l ++ ['\n'])).flatten ∧
  (∀ l ∈ hl, startsWithHash l = true ∧ '\n' ∉ l) ∧
  hl.foldl hc.add Header.new = h

/-- A record can be kept in a spill file of header `h`: it is well-formed for
`h`, and its text is one line that does not start with '#'. -/
def Spillable (c : TextConv) (h : Header) (r : Entry) : Prop :=
  WellFormed c h r ∧ '\n' ∉ r.toString c ∧ startsWithHash (r.toString c) = false

instance (hc : HeaderConv) (h : Header) (hl : List Str) : Decidable (HeaderReadsBack hc h hl) := by
  unfold HeaderReadsBack; infer_instance

instance (c : TextConv) (h : Header) (r : Entry) : Decidable (Spillable c h r) := by
  unfold Spillable; infer_instance

end Vcf

/-- Each decompressor undoes its compressor. -/
def Filters.Inverse (f : Filters) : Prop :=
  (∀ x, f.gzip_decompressor (f.gzip_compressor x) = x) ∧
  (∀ x, f.bzip2_decompressor (f.bzip2_compressor x) = x)

/-- The sorted, unspilled buffer of the entries `rs` for `exampleHeader`. -/
def exampleBuffer (mode : CompressionType) (rs : List Vcf.Entry) :
    SortBuffer Vcf.Entry Vcf.Header Vcf.EntryStream :=
  SortBuffer.sort (Vcf.entryOps Vcf.specConv Vcf.exampleHeaderConv)
    (SortBuffer.pushAll (SortBuffer.new Vcf.exampleHeader true mode) rs)

/-! ## Calls on a `SortBuffer` and the state they leave -/

namespace SortBuffer

variable {V H S : Type}

/-- Member `writeTmp` together with the members it leaves behind: the result
(an error when the call throws) and the buffer after the call. The first
`throw` comes before any assignment; a `throw` of the stream opener comes
after `_tmpfile` is set and `_buf` is cleared. -/
def writeTmpState (ops : StreamOps V H S) (f : Filters) (sb : SortBuffer V H S) :
    Except String Unit × SortBuffer V H S :=
  if sb.tmpfile.isSome then (.error "Attempt to re-serialize sort buffer", sb)
  else
    let file := f.compress sb.compression (tmpText ops sb)
    match ops.openStream (f.decompress sb.compression file) with
    | .error msg => (.error msg, { sb with buf := [], tmpfile := some file })
    | .ok stream =>
      (.ok (), { sb with buf := [], tmpfile := some file, stream := some stream })

/-- The calls that change a `SortBuffer`. -/
inductive Call (V : Type) where
  | push_back (value : V)
  | sort
  | writeTmp
  | peek
  | next

/-- The buffer after a call, whether the call returns or throws; a `peek` or
`next` that throws inside the stream leaves the members of the buffer as they
were. -/
def afterCall (ops : StreamOps V H S) (f : Filters) (sb : SortBuffer V H S) :
    Call V → SortBuffer V H S
  | .push_back value => push_back sb value
  | .sort => sort ops sb
  | .writeTmp => (writeTmpState ops f sb).2
  | .peek =>
    match peek ops sb with
    | .ok (_, sb') => sb'
    | .error _ => sb
  | .next =>
    match next ops sb with
    | .ok (_, sb') => sb'
    | .error _ => sb

end SortBuffer

namespace Vcf

/-! ## `Entry::removeLowDepthGenotypes` and `Entry::genotypeData` -/

/-- Modelled from the spec: the typed accessor `CustomValue::get<int64_t>(idx)`
(`CustomValue.hpp` is not among the sources): the scalar at `idx` when there
is one and it is an integer, `none` for the null pointer. -/
def CustomValue.getInt (v : CustomValue) (idx : Nat) : Option Int :=
  match v.values.get? idx with
  | some (.int x) => some x
  | _ => none

/-- Position of the first element equal to `key`, as
`distance(v.begin(), find(v.begin(), v.end(), key))`; `none` when `find`
returns `v.end()`. -/
def findIndex (key : Str) : List Str → Option Nat
  | [] => none
  | x :: rest => if x = key then some 0 else (findIndex key rest).map (fun n => n + 1)

/-- Condition under which `removeLowDepthGenotypes` clears a sample, on the
value `(*i)[offset]`:
`v.empty() || (p = v.get<int64_t>(0)) == NULL || *p < lowDepth`. -/
def lowDepthValue (lowDepth : Nat) (v : CustomValue) : Bool :=
  v.empty ||
    (match v.getInt 0 with
     | none => true
     | some depth => decide (depth < (lowDepth : Int)))

/-- Loop of `removeLowDepthGenotypes` over the samples. The element access
`(*i)[offset]` of a vector with `offset` at or beyond its size is undefined
behaviour; it is the error result here. -/
def removeLowDepthLoop (lowDepth offset : Nat) :
    List (List CustomValue) → Except String (List (List CustomValue))
  | [] => .ok []
  | sample :: rest =>
    if sample.isEmpty then
      match removeLowDepthLoop lowDepth offset rest with
      | .error msg => .error msg
      | .ok more => .ok (sample :: more)
    else
      match sample.get? offset with
      | none => .error "read beyond the end of the sample data"
      | some v =>
        match removeLowDepthLoop lowDepth offset rest with
        | .error msg => .error msg
        | .ok more => .ok ((if lowDepthValue lowDepth v then [] else sample) :: more)

/-- Member `Entry::removeLowDepthGenotypes(lowDepth)`; `lowDepth` is the value
of the `uint32_t` argument. -/
def Entry.removeLowDepthGenotypes (lowDepth : Nat) (e : Entry) : Except String Entry :=
  match findIndex "DP".toList e.formatDescription with
  | none => .ok e
  | some offset =>
    match removeLowDepthLoop lowDepth offset e.genotypeData with
    | .error msg => .error msg
    | .ok genotypeData => .ok { e with genotypeData := genotypeData }

/-- Member `Entry::genotypeData(sampleIdx, key)`: the value of the format
field `key` in a sample, `none` for the null pointer. -/
def Entry.genotypeDataAt (e : Entry) (sampleIdx : Nat) (key : Str) : Option CustomValue :=
  match e.genotypeData.get? sampleIdx with
  | none => none
  | some sample =>
    if sample.isEmpty then none
    else
      match findIndex key e.formatDescription with
      | none => none
      | some offset => if offset ≥ sample.length then none else sample.get? offset

/-- What the specification asks of one sample, for the depth field at position
`k` and the threshold `t`, "clears (sets to empty) any sample's per-field
data whose declared depth field is absent, unparseable as an integer, or
below threshold": a sample without a value at position `k`, or whose depth
value is empty, is not an integer or is below `t`, is cleared; every other
sample stays. -/
def specDropLowDepth (t k : Nat) (sample : List CustomValue) : List CustomValue :=
  match sample.get? k with
  | none => []
  | some dp =>
    match dp.values with
    | [] => []
    | .int depth :: _ => if depth < (t : Int) then [] else sample
    | _ :: _ => []

/-- The format ids GT and DP with a sample of depth `depth`, in a record at
chr1:100 A>G. -/
def depthRecord (depth : Int) : Entry :=
  { Entry.new with
    header := some exampleHeader, chrom := "chr1".toList, pos := 100, ref := "A".toList,
    alt := ["G".toList], formatDescription := ["GT".toList, "DP".toList],
    genotypeData :=
      [[{ type := { id := "GT".toList, type := .STRING, number := some 1 },
          values := [.string "0/1".toList] },
        { type := { id := "DP".toList, type := .INTEGER, number := some 1 },
          values := [.int depth] }]],
    start := 99, stop := 100 }

end Vcf

/-- The buffer `exampleBuffer mode rs` after `writeTmp()` with the example
conversions and filters (the buffer itself if the call throws). -/
def spilledExample (mode : CompressionType) (rs : List Vcf.Entry) :
    SortBuffer Vcf.Entry Vcf.Header Vcf.EntryStream :=
  (SortBuffer.writeTmpState (Vcf.entryOps Vcf.specConv Vcf.exampleHeaderConv)
    Vcf.exampleFilters (exampleBuffer mode rs)).2

namespace Vcf

/-- Key and value of one info token in `Entry::parse`: `kv.extract(key)` and
`kv.remaining(value)` of `Tokenizer<char> kv(*i, '=')`. -/
def infoKeyValue (i : Str) : Str × Str :=
  match (Tokenizer.new i '=').extract with
  | some (k, kv') => (k, kv'.remaining)
  | none => ([], (Tokenizer.new i '=').remaining)

/-- Key of one info token: the text before the first '='. -/
def infoKey (i : Str) : Str := (infoKeyValue i).1

/-- The entry that a non-empty info token gives: its key, and the value that
the token's text gives with the type that the header declares for the key. -/
def InfoItemOf (c : TextConv) (h : Option Header) (tok : Str) (kv : Str × CustomValue) : Prop :=
  kv.1 = infoKey tok ∧
    ∃ hd type, h = some hd ∧ hd.infoType (infoKey tok) = some type ∧
      c.valueOfText (some type) (infoKeyValue tok).2 = .ok kv.2

end Vcf

namespace Vcf

/-! ## The order that `strverscmp` induces

The comparison of `strverscmp` is the lexicographic comparison of the two
strings symbol by symbol, where the rank of a symbol depends on the state of
the automaton before it and on the number of digits that follow it. The
definitions below give that rank; the theorems show that the sign of
`strverscmp` is the comparison of the rank lists. -/

/-- Sign of an `int` result: -1, 0 or 1. -/
def sgn (x : Int) : Int := if x < 0 then -1 else if 0 < x then 1 else 0

/-- Length of the run of digits at the start of a string. -/
def runLen : Str → Nat
  | [] => 0
  | c :: p => if isdigit c then runLen p + 1 else 0

/-- State of `strverscmp` after the byte `c` read in state `B` (one of `S_N`,
`S_I`, `S_F`, `S_Z`): the entry of `next_state`. -/
def nextBase (B : Nat) (c : Char) : Nat := next_state.getD (B + symClass c) S_N

/-- Rank of the byte `c` read in state `B` and followed by `L` digits, as a
pair compared first component first. In `S_I` a digit is above every other
byte, and digits are ranked by the length of the rest of the run, then by
value. In `S_Z` every other byte is above a digit. In `S_F` the rank is the
byte. In `S_N` the digits 1 to 9 are ranked by the length of the rest of the
run, then by value, between '0' and the bytes above '9'. The terminator is
the byte 0. -/
def symKey (B : Nat) (c : Char) (L : Nat) : Nat × Nat :=
  if B = S_I then
    if isdigit c then (1, L * 16 + c.toNat) else (0, c.toNat)
  else if B = S_Z then
    if isdigit c then (0, c.toNat) else (1, c.toNat)
  else if B = S_F then (0, c.toNat)
  else if isdigit c then
    if c = '0' then (1, 0) else (2, L * 16 + c.toNat)
  else if c.toNat < 48 then (0, c.toNat)
  else (3, c.toNat)

/-- Ranks of the bytes of a string read from state `B`, ended by the rank of
the terminator. -/
def keys (B : Nat) : Str → List (Nat × Nat)
  | [] => [symKey B '\x00' 0]
  | c :: p => symKey B c (runLen p) :: keys (nextBase B c) p

/-- Comparison of two ranks: -1, 0 or 1. -/
def pairCmp (a b : Nat × Nat) : Int :=
  if a.1 < b.1 then -1 else if b.1 < a.1 then 1
  else if a.2 < b.2 then -1 else if b.2 < a.2 then 1 else 0

/-- Lexicographic comparison of two rank lists: -1, 0 or 1. -/
def keyCmp : List (Nat × Nat) → List (Nat × Nat) → Int
  | [], [] => 0
  | [], _ :: _ => -1
  | _ :: _, [] => 1
  | a :: as, b :: bs => if pairCmp a b = 0 then keyCmp as bs else pairCmp a b

/-- Rank list of a chromosome name as `strverscmp` reads it. -/
def chromKey (s : Str) : List (Nat × Nat) := keys S_N (c_str s)

/-! ## Natural order in the words of the specification

"Natural/version-aware ordering: string comparison where embedded numeric
runs compare by numeric value rather than character-by-character." The
definitions of this section follow these words, not the code; the theorems
compare them with `strverscmp`. -/

/-- Numeric run at the start of a string: its leading decimal digits. -/
def digitRun (s : Str) : Str := s.takeWhile isdigit

/-- Rest of a string after the numeric run at its start. -/
def afterRun (s : Str) : Str := s.dropWhile isdigit

/-- Natural order in the words of the specification, in at most `n` steps:
where both strings start with a digit, their numeric runs compare by value,
and after runs of the same value the rests are compared; anywhere else the
first bytes compare, and after equal bytes the rests are compared; a string
that ends first precedes. The result is -1, 0 or 1. -/
def specNaturalCmpFuel : Nat → Str → Str → Int
  | 0, _, _ => 0
  | _ + 1, [], [] => 0
  | _ + 1, [], _ :: _ => -1
  | _ + 1, _ :: _, [] => 1
  | n + 1, c1 :: p1, c2 :: p2 =>
    if isdigit c1 = true ∧ isdigit c2 = true then
      if natOfDigits (digitRun (c1 :: p1)) < natOfDigits (digitRun (c2 :: p2)) then -1
      else if natOfDigits (digitRun (c2 :: p2)) < natOfDigits (digitRun (c1 :: p1)) then 1
      else specNaturalCmpFuel n (afterRun p1) (afterRun p2)
    else if c1.toNat < c2.toNat then -1
    else if c2.toNat < c1.toNat then 1
    else specNaturalCmpFuel n p1 p2

/-- Natural order in the words of the specification. Every step takes at
least one byte of `s`, so one step more than its length is enough (see
`specNaturalCmpFuel_enough`). -/
def specNaturalCmp (s t : Str) : Int := specNaturalCmpFuel (s.length + 1) s t

/-- No numeric run of the string has a leading zero: no '0' that starts a run
is followed by a digit. The flag `inRun` tells whether the byte before the
string is a digit. -/
def noLeadingZeroFrom (inRun : Bool) : Str → Bool
  | [] => true
  | c :: p =>
    !(!inRun && c == '0' && isdigit (peekChar p)) && noLeadingZeroFrom (isdigit c) p

/-- No numeric run of the string has a leading zero, as in "chr10" and "chr0"
and unlike "chr010". -/
def noLeadingZero (s : Str) : Bool := noLeadingZeroFrom false s

end Vcf

/-- Members of `Bed` as `Bed.cpp` uses them (`Bed.hpp` is not among the
sources); `end_` is the member `end`. -/
structure Bed where
  chrom : Vcf.Str
  start : Int
  end_ : Int
  refCall : Vcf.Str
  qual : Vcf.Str
  line : Vcf.Str

/-- Member `Bed::cmp`. -/
def Bed.cmp (b rhs : Bed) : Int :=
  let rv := Vcf.strverscmp b.chrom rhs.chrom
  if rv ≠ 0 then rv
  else if b.start < rhs.start then -1
  else if rhs.start < b.start then 1
  else if b.end_ < rhs.end_ then -1
  else if rhs.end_ < b.end_ then 1
  else 0

namespace Vcf

/-- Loop of `Entry::samplesWithData` over the samples; `rv` is a `uint32_t`,
so `++rv` is taken modulo `2^32`. -/
def samplesWithDataLoop (rv : Nat) : List (List CustomValue) → Nat
  | [] => rv
  | sample :: rest =>
    samplesWithDataLoop (if sample.length ≠ 0 then (rv + 1) % 4294967296 else rv) rest

/-- Member `Entry::samplesWithData`. -/
def Entry.samplesWithData (e : Entry) : Nat := samplesWithDataLoop 0 e.genotypeData

/-- Number of the samples that hold data. -/
def withData (samples : List (List CustomValue)) : Nat :=
  (samples.filter (fun s => !s.isEmpty)).length

/-- Integer value of the format field DP. -/
def depthValue (depth : Int) : CustomValue :=
  { type := { id := "DP".toList, type := .INTEGER, number := some 1 }, values := [.int depth] }

/-- Record with the format id DP, one sample of depth 5 and `n` samples of
depth 15, at chr1:100 A>G. -/
def manySamples (n : Nat) : Entry :=
  { Entry.new with
    header := some exampleHeader, chrom := "chr1".toList, pos := 100, ref := "A".toList,
    alt := ["G".toList], formatDescription := ["DP".toList],
    genotypeData := [depthValue 5] :: List.replicate n [depthValue 15],
    start := 99, stop := 100 }

end Vcf

/-! ## `WiggleReader`

`src/lib/fileformats/WiggleReader.cpp`. `WiggleReader.hpp`, `Tokenizer.hpp`,
`JxString.hpp` and the `Bed.hpp` of the reader are not among the sources: the
members are those that `WiggleReader.cpp` uses, the integers `_posBeg`,
`_pos`, `_step` and `_span` are mathematical integers, and the conversion of a
token to such an integer is a parameter. -/

namespace Wiggle

open Vcf (Str Tokenizer)

/-- Value `Bed(chrom, start, stop, extraFields)` that `getEntry` builds: the
four arguments of the constructor (`Bed.hpp` is not among the sources). -/
structure Bed where
  chrom : Str
  start : Int
  stop : Int
  extraFields : List Str
  deriving DecidableEq

/-- Members of `WiggleReader` that `next`, `getEntry` and `fixedStep` use;
`tok` holds the lines not yet read. -/
structure WiggleReader where
  stripChr : Bool
  chrom : Str
  posBeg : Int
  pos : Int
  step : Int
  span : Int
  tok : Tokenizer
  lineNum : Nat
  line : Str
  last : Str
  ready : Bool

/-- Constructor `WiggleReader(name, dat, len, stripChr)` on the bytes `dat`. -/
def WiggleReader.new (dat : Str) (stripChr : Bool) : WiggleReader :=
  { stripChr := stripChr, chrom := [], posBeg := 0, pos := 0, step := 0, span := 0,
    tok := Tokenizer.new dat '\n', lineNum := 0, line := [], last := [], ready := false }

/-- Member `WiggleReader::getEntry`: the value written to the argument and
the reader after the call. -/
def WiggleReader.getEntry (r : WiggleReader) : Bed × WiggleReader :=
  let value : Bed :=
    { chrom := r.chrom, start := r.posBeg - 1, stop := r.pos - 1, extraFields := [r.last] }
  if r.step ≠ r.span then
    (value, { r with posBeg := r.posBeg + r.step, pos := r.posBeg + r.step })
  else
    (value, { r with posBeg := r.pos })

/-- Loop `while (tok.extract(token))` of `WiggleReader::fixedStep` over the
key=value tokens. -/
def fixedStepTokens (readInt : Str → Option Int) (r : WiggleReader) :
    List Str → Except String WiggleReader
  | [] => .ok r
  | token :: rest =>
    match (Tokenizer.new token '=').extract with
    | none => .error "expected key=value pairs"
    | some (key, kvtok) =>
      if key = "chrom".toList then
        match kvtok.extract with
        | none => .error "Invalid chrom"
        | some (chrom, _) =>
          let chrom :=
            if r.stripChr && decide (chrom.take 3 = "chr".toList) then chrom.drop 3 else chrom
          fixedStepTokens readInt { r with chrom := chrom } rest
      else if key = "start".toList then
        match kvtok.extract.bind (fun t => readInt t.1) with
        | none => .error "invalid pos"
        | some v => fixedStepTokens readInt { r with posBeg := v, pos := v } rest
      else if key = "step".toList then
        match kvtok.extract.bind (fun t => readInt t.1) with
        | none => .error "invalid step"
        | some v => fixedStepTokens readInt { r with step := v } rest
      else if key = "span".toList then
        match kvtok.extract.bind (fun t => readInt t.1) with
        | none => .error "invalid span"
        | some v => fixedStepTokens readInt { r with span := v } rest
      else fixedStepTokens readInt r rest

/-- Member `WiggleReader::fixedStep` on the line `_line`. -/
def WiggleReader.fixedStep (readInt : Str → Option Int) (r : WiggleReader) :
    Except String WiggleReader :=
  let r1 := { r with span := 1, step := 1, last := [] }
  let tok := Tokenizer.new r.line ' '
  let tokens := match tok.extract with
    | none => tok.pending
    | some (_, tok') => tok'.pending
  match fixedStepTokens readInt r1 tokens with
  | .error msg => .error msg
  | .ok r2 => .ok { r2 with ready := true }

/-- Loop `while (_tok.extract(_line))` of `WiggleReader::next` over the lines
not yet read; the result is the value written when `next` returns true,
`none` when it returns false. -/
def nextLoop (readInt : Str → Option Int) (r : WiggleReader) :
    List Str → Except String (Option Bed × WiggleReader)
  | [] => .ok (none, r)
  | line :: rest =>
    let r := { r with
      tok := { r.tok with pending := rest }, line := line, lineNum := r.lineNum + 1 }
    if "track".toList.isPrefixOf line then
      if r.ready then
        let (value, r1) := r.getEntry
        .ok (some value, r1)
      else nextLoop readInt r rest
    else if "variableStep".toList.isPrefixOf line then
      .error "variableStep is unsupported"
    else if "fixedStep".toList.isPrefixOf line then
      if r.ready then
        let (value, r1) := r.getEntry
        match r1.fixedStep readInt with
        | .error msg => .error msg
        | .ok r2 => .ok (some value, r2)
      else
        match r.fixedStep readInt with
        | .error msg => .error msg
        | .ok r2 => nextLoop readInt r2 rest
    else
      if !r.ready then .error "expected: fixedStep or variableStep"
      else if !r.last.isEmpty && (!(r.last == line) || decide (r.step ≠ r.span)) then
        let (value, r1) := r.getEntry
        .ok (some value, { r1 with last := line, pos := r1.pos + r1.span })
      else nextLoop readInt { r with last := line, pos := r.pos + r.span } rest

/-- Member `WiggleReader::next`. -/
def WiggleReader.next (readInt : Str → Option Int) (r : WiggleReader) :
    Except String (Option Bed × WiggleReader) :=
  nextLoop readInt r r.tok.pending

/-- Calls of `next()` until it returns false, at most `fuel` of them: the
values in the order of the calls, `none` when the fuel runs out first. -/
def drain (readInt : Str → Option Int) : Nat → WiggleReader → Except String (Option (List Bed))
  | 0, _ => .ok none
  | fuel + 1, r =>
    match r.next readInt with
    | .error msg => .error msg
    | .ok (none, _) => .ok (some [])
    | .ok (some value, r1) =>
      match drain readInt fuel r1 with
      | .error msg => .error msg
      | .ok none => .ok none
      | .ok (some more) => .ok (some (value :: more))

/-- Total length of the intervals of a list of entries. -/
def coveredLength (entries : List Bed) : Int :=
  (entries.map (fun b => b.stop - b.start)).sum

end Wiggle

/-! ## Theorems -/

namespace Vcf

/-! ### `strverscmp` of a string and itself -/

theorem verscmpLoop_self (s : Str) : ∀ state, verscmpLoop state s s = 0 := by
  induction s with
  | nil => intro state; rfl
  | cons c p ih => intro state; simp [verscmpLoop, ih]

theorem strverscmp_self (s : Str) : strverscmp s s = 0 :=
  verscmpLoop_self _ _

/-! ### `Entry::setPositions` -/

theorem commonPrefix_le_left : ∀ a b : Str, commonPrefix a b ≤ a.length
  | [], _ => by simp [commonPrefix]
  | _ :: _, [] => by simp [commonPrefix]
  | a :: as, b :: bs => by
    have := commonPrefix_le_left as bs
    simp only [commonPrefix, List.length_cons]
    split_ifs <;> omega

theorem commonPrefix_le_right : ∀ a b : Str, commonPrefix a b ≤ b.length
  | [], _ => by simp [commonPrefix]
  | _ :: _, [] => by simp [commonPrefix]
  | a :: as, b :: bs => by
    have := commonPrefix_le_right as bs
    simp only [commonPrefix, List.length_cons]
    split_ifs <;> omega

theorem toInt64_of_range {x : Int} (h1 : -9223372036854775808 ≤ x)
    (h2 : x < 9223372036854775808) : toInt64 x = x := by
  unfold toInt64; omega

theorem toInt64_ge (x : Int) : -9223372036854775808 ≤ toInt64 x := by
  unfold toInt64; omega

theorem toInt64_lt (x : Int) : toInt64 x < 9223372036854775808 := by
  unfold toInt64; omega

/-- The classification of `setPositions` is exhaustive: the loop body always
yields a local `(start, stop)`. -/
theorem altStartStop_ok (pos : Int) (ref alt : Str) :
    ∃ r, altStartStop pos ref alt = .ok r := by
  unfold altStartStop
  simp only []
  split_ifs with h1 h2 h3
  · exact ⟨_, rfl⟩
  · exact ⟨_, rfl⟩
  · exact ⟨_, rfl⟩
  · omega

/-- Within the 64-bit range the local `(start, stop)` of one alternate allele
is the span of the specification. -/
theorem altStartStop_eq_specSpan (pos : Int) (ref alt : Str)
    (h1 : -9223372036854775808 < pos)
    (h2 : pos + ref.length + alt.length < 9223372036854775808) :
    altStartStop pos ref alt = .ok (specSpan pos ref alt) := by
  have hl := commonPrefix_le_left ref alt
  have hr := commonPrefix_le_right ref alt
  have hs : toInt64 (pos - 1 + (commonPrefix ref alt : Int)) = pos - 1 + commonPrefix ref alt :=
    toInt64_of_range (by omega) (by omega)
  unfold altStartStop specSpan
  simp only [hs]
  split_ifs with h3 h4 h5 h6 h7 h8 h9
  all_goals first
    | omega
    | (congr 2 <;> (try rw [toInt64_of_range (by omega) (by omega)]) <;> omega)

theorem setPositionsLoop_total (pos : Int) (ref : Str) :
    ∀ (alts : List Str) (acc : Int × Int), acc.1 ≤ acc.2 →
      ∃ r, setPositionsLoop pos ref alts acc = .ok r ∧ r.1 ≤ r.2
  | [], acc, h => ⟨acc, rfl, h⟩
  | alt :: rest, acc, h => by
    obtain ⟨⟨s, t⟩, hst⟩ := altStartStop_ok pos ref alt
    simp only [setPositionsLoop, hst]
    exact setPositionsLoop_total pos ref rest _ (by simp only; omega)

theorem setPositionsLoop_eq_fold (pos : Int) (ref : Str) :
    ∀ (alts : List Str) (acc : Int × Int), -9223372036854775808 < pos →
      (∀ a ∈ alts, pos + ref.length + a.length < 9223372036854775808) →
      setPositionsLoop pos ref alts acc =
        .ok ((spanStarts pos ref alts).foldl min acc.1, (spanStops pos ref alts).foldl max acc.2)
  | [], acc, _, _ => rfl
  | alt :: rest, acc, h1, h2 => by
    have ha := altStartStop_eq_specSpan pos ref alt h1 (h2 alt (List.mem_cons_self _ _))
    simp only [setPositionsLoop, ha, spanStarts, spanStops, List.map_cons, List.foldl_cons]
    exact setPositionsLoop_eq_fold pos ref rest _ h1
      (fun a h => h2 a (List.mem_cons_of_mem _ h))

theorem setPositions_eq_fold (e : Entry) (h : InRange e.pos e.ref e.alt) :
    e.setPositions = .ok { e with
      start := (spanStarts e.pos e.ref e.alt).foldl min e.pos,
      stop := (spanStops e.pos e.ref e.alt).foldl max e.pos } := by
  obtain ⟨h1, h2, h3⟩ := h
  unfold Entry.setPositions
  rw [setPositionsLoop_eq_fold e.pos e.ref e.alt _ h1 h3, toInt64_of_range (by omega) h2]

/-- C3 (as stated, refuted): for the record at position 100 with reference "A"
and the single alternate allele "AT", `setPositions` leaves `start = 100`,
while the only per-alt span of the normalization rule starts at 101; the
position itself takes part in the minimum. -/
theorem setPositions_start_not_span_min :
    ∃ e', (Entry.ofAlleles 100 "A".toList ["AT".toList]).setPositions = .ok e' ∧
      e'.start = 100 ∧ e'.stop = 101 ∧
      spanStarts 100 "A".toList ["AT".toList] = [101] ∧
      spanStops 100 "A".toList ["AT".toList] = [101] :=
  ⟨_, rfl, by decide, by decide, by decide, by decide⟩

/-- C3 (amended): for every record whose position and allele lengths stay in
the signed 64-bit range, `setPositions` succeeds, sets `start` to the minimum
of `pos` and the starts of the per-alt spans of the normalization rule, sets
`stop` to the maximum of `pos` and the stops of those spans, and changes no
other field. -/
theorem setPositions_min_max_with_pos (e : Entry) (h : InRange e.pos e.ref e.alt) :
    ∃ e', e.setPositions = .ok e' ∧
      e'.start = (spanStarts e.pos e.ref e.alt).foldl min e.pos ∧
      e'.stop = (spanStops e.pos e.ref e.alt).foldl max e.pos ∧
      e' = { e with start := e'.start, stop := e'.stop } :=
  ⟨_, setPositions_eq_fold e h, rfl, rfl, rfl⟩

/-- Instance of the amended C3 for ref "AT" with a deletion, an insertion and
a substitution at position 100. -/
theorem setPositions_min_max_with_pos_witness :
    InRange 100 "AT".toList ["A".toList, "ATG".toList, "GC".toList] ∧
    ∃ e', (Entry.ofAlleles 100 "AT".toList
        ["A".toList, "ATG".toList, "GC".toList]).setPositions = .ok e' ∧
      e'.start = (spanStarts 100 "AT".toList
        ["A".toList, "ATG".toList, "GC".toList]).foldl min 100 ∧
      e'.stop = (spanStops 100 "AT".toList
        ["A".toList, "ATG".toList, "GC".toList]).foldl max 100 ∧
      e' = { Entry.ofAlleles 100 "AT".toList ["A".toList, "ATG".toList, "GC".toList] with
        start := e'.start, stop := e'.stop } :=
  ⟨by decide, setPositions_min_max_with_pos
    (Entry.ofAlleles 100 "AT".toList ["A".toList, "ATG".toList, "GC".toList]) (by decide)⟩

/-- C4 (as stated, refuted): ref "A", alt "AT" at position 100 gives
`start = 100` and `stop = 101`, not the zero-width span `start = stop = 101`
at `pos + p` (here `p = 1`). -/
theorem insertion_span_not_zero_width :
    ∃ e', (Entry.ofAlleles 100 "A".toList ["AT".toList]).setPositions = .ok e' ∧
      e'.start = 100 ∧ e'.stop = 101 ∧
      (100 : Int) + commonPrefix "A".toList "AT".toList = 101 :=
  ⟨_, rfl, by decide, by decide, by decide⟩

/-- C4 (amended): for every record whose only alternate allele is longer than
the reference allele (values in the signed 64-bit range), `start = pos` and
`stop = pos + p`, with `p` the length of the longest common prefix of ref and
alt; the span has zero width exactly when `p = 0`. -/
theorem insertion_start_stop (e : Entry) (alt : Str) (halt : e.alt = [alt])
    (hlen : e.ref.length < alt.length) (h : InRange e.pos e.ref e.alt) :
    ∃ e', e.setPositions = .ok e' ∧ e'.start = e.pos ∧
      e'.stop = e.pos + commonPrefix e.ref alt := by
  refine ⟨_, setPositions_eq_fold e h, ?_, ?_⟩
  · simp only [halt, spanStarts, specSpan, List.map_cons, List.map_nil, List.foldl_cons,
      List.foldl_nil]
    split_ifs <;> omega
  · simp only [halt, spanStops, specSpan, List.map_cons, List.map_nil, List.foldl_cons,
      List.foldl_nil]
    split_ifs <;> omega

/-- Instance of the amended C4 for ref "A", alt "AT" at position 100. -/
theorem insertion_start_stop_witness :
    (Entry.ofAlleles 100 "A".toList ["AT".toList]).alt = ["AT".toList] ∧
    "A".toList.length < "AT".toList.length ∧
    InRange 100 "A".toList ["AT".toList] ∧
    ∃ e', (Entry.ofAlleles 100 "A".toList ["AT".toList]).setPositions = .ok e' ∧
      e'.start = 100 ∧ e'.stop = 100 + commonPrefix "A".toList "AT".toList :=
  ⟨rfl, by decide, by decide,
    insertion_start_stop (Entry.ofAlleles 100 "A".toList ["AT".toList]) "AT".toList rfl
      (by decide) (by decide)⟩

/-- C5 (as stated, refuted): ref "AAT", alt "AA" at position 100 has common
prefix length 2, so the claim gives `start = pos - 1 + p = 101`; the code
leaves `start = 100` (and `stop = 104`). -/
theorem deletion_start_not_prefix_shifted :
    ∃ e', (Entry.ofAlleles 100 "AAT".toList ["AA".toList]).setPositions = .ok e' ∧
      e'.start = 100 ∧ e'.stop = 104 ∧
      (100 : Int) - 1 + commonPrefix "AAT".toList "AA".toList = 101 :=
  ⟨_, rfl, by decide, by decide, by decide⟩

/-- C5 (amended): for every record whose only alternate allele is shorter than
the reference allele (values in the signed 64-bit range),
`start = min(pos, pos-1+p)` and `stop = pos-1+p+len(ref)`, with `p` the length
of the longest common prefix of ref and alt; ref "AT", alt "A" at position
100 gives `start = 100` and `stop = 102`. -/
theorem deletion_start_stop (e : Entry) (alt : Str) (halt : e.alt = [alt])
    (hlen : alt.length < e.ref.length) (h : InRange e.pos e.ref e.alt) :
    (∃ e', e.setPositions = .ok e' ∧
      e'.start = min e.pos (e.pos - 1 + commonPrefix e.ref alt) ∧
      e'.stop = e.pos - 1 + commonPrefix e.ref alt + e.ref.length) ∧
    (∃ e', (Entry.ofAlleles 100 "AT".toList ["A".toList]).setPositions = .ok e' ∧
      e'.start = 100 ∧ e'.stop = 102) := by
  refine ⟨⟨_, setPositions_eq_fold e h, ?_, ?_⟩, ⟨_, rfl, by decide, by decide⟩⟩
  · simp only [halt, spanStarts, specSpan, List.map_cons, List.map_nil, List.foldl_cons,
      List.foldl_nil]
    split_ifs <;> omega
  · simp only [halt, spanStops, specSpan, List.map_cons, List.map_nil, List.foldl_cons,
      List.foldl_nil]
    split_ifs <;> omega

/-- Instance of the amended C5 for ref "GCT", alt "T" at position 7. -/
theorem deletion_start_stop_witness :
    (Entry.ofAlleles 7 "GCT".toList ["T".toList]).alt = ["T".toList] ∧
    "T".toList.length < "GCT".toList.length ∧
    InRange 7 "GCT".toList ["T".toList] ∧
    ((∃ e', (Entry.ofAlleles 7 "GCT".toList ["T".toList]).setPositions = .ok e' ∧
      e'.start = min 7 (7 - 1 + commonPrefix "GCT".toList "T".toList) ∧
      e'.stop = 7 - 1 + commonPrefix "GCT".toList "T".toList + "GCT".toList.length) ∧
    (∃ e', (Entry.ofAlleles 100 "AT".toList ["A".toList]).setPositions = .ok e' ∧
      e'.start = 100 ∧ e'.stop = 102)) :=
  ⟨rfl, by decide, by decide,
    deletion_start_stop (Entry.ofAlleles 7 "GCT".toList ["T".toList]) "T".toList rfl
      (by decide) (by decide)⟩

/-- C6 (as stated, refuted): ref "AAG", alt "AAT" at position 100 has common
prefix length 2, so the claim gives `start = pos - 1 + p = 101`; the code
leaves `start = 100` (and `stop = 102`). -/
theorem substitution_start_not_prefix_shifted :
    ∃ e', (Entry.ofAlleles 100 "AAG".toList ["AAT".toList]).setPositions = .ok e' ∧
      e'.start = 100 ∧ e'.stop = 102 ∧
      (100 : Int) - 1 + commonPrefix "AAG".toList "AAT".toList = 101 :=
  ⟨_, rfl, by decide, by decide, by decide⟩

/-- C6 (amended): for every record whose only alternate allele has the length
of the reference allele (values in the signed 64-bit range),
`start = min(pos, pos-1+p)` and `stop = max(pos, pos-1+p+(len(alt)-p))`, with
`p` the length of the longest common prefix of ref and alt; ref "A", alt "G"
at position 100 gives `start = 99` and `stop = 100`. -/
theorem substitution_start_stop (e : Entry) (alt : Str) (halt : e.alt = [alt])
    (hlen : alt.length = e.ref.length) (h : InRange e.pos e.ref e.alt) :
    (∃ e', e.setPositions = .ok e' ∧
      e'.start = min e.pos (e.pos - 1 + commonPrefix e.ref alt) ∧
      e'.stop = max e.pos
        (e.pos - 1 + commonPrefix e.ref alt + (alt.length - commonPrefix e.ref alt))) ∧
    (∃ e', (Entry.ofAlleles 100 "A".toList ["G".toList]).setPositions = .ok e' ∧
      e'.start = 99 ∧ e'.stop = 100) := by
  refine ⟨⟨_, setPositions_eq_fold e h, ?_, ?_⟩, ⟨_, rfl, by decide, by decide⟩⟩
  · simp only [halt, spanStarts, specSpan, List.map_cons, List.map_nil, List.foldl_cons,
      List.foldl_nil]
    split_ifs <;> omega
  · simp only [halt, spanStops, specSpan, List.map_cons, List.map_nil, List.foldl_cons,
      List.foldl_nil]
    split_ifs <;> omega

/-- Instance of the amended C6 for ref "ACG", alt "ACT" at position 5. -/
theorem substitution_start_stop_witness :
    (Entry.ofAlleles 5 "ACG".toList ["ACT".toList]).alt = ["ACT".toList] ∧
    "ACT".toList.length = "ACG".toList.length ∧
    InRange 5 "ACG".toList ["ACT".toList] ∧
    ((∃ e', (Entry.ofAlleles 5 "ACG".toList ["ACT".toList]).setPositions = .ok e' ∧
      e'.start = min 5 (5 - 1 + commonPrefix "ACG".toList "ACT".toList) ∧
      e'.stop = max 5 (5 - 1 + commonPrefix "ACG".toList "ACT".toList +
        ("ACT".toList.length - commonPrefix "ACG".toList "ACT".toList))) ∧
    (∃ e', (Entry.ofAlleles 100 "A".toList ["G".toList]).setPositions = .ok e' ∧
      e'.start = 99 ∧ e'.stop = 100)) :=
  ⟨rfl, by decide, by decide,
    substitution_start_stop (Entry.ofAlleles 5 "ACG".toList ["ACT".toList]) "ACT".toList rfl
      (by decide) (by decide)⟩

theorem setPositions_total (e : Entry) :
    ∃ e', e.setPositions = .ok e' ∧ e'.start ≤ e'.stop ∧
      e' = { e with start := e'.start, stop := e'.stop } := by
  obtain ⟨⟨s, t⟩, hr, hle⟩ :=
    setPositionsLoop_total e.pos e.ref e.alt (toInt64 e.pos, toInt64 e.pos) (le_refl _)
  exact ⟨{ e with start := s, stop := t }, by simp [Entry.setPositions, hr], hle, rfl⟩

/-- C8: `Entry::swap` exchanges every member except `_start` and `_stop`.
Swapping the substitution A>G at position 100 (span 99..100) with the
deletion ACGT>A at position 200 (span 200..204) leaves the first record with
position 200 and the alleles of the second but with `start = 99` and
`stop = 100`, where `setPositions` computes 200 and 204 from its current
position and alleles. -/
theorem swap_keeps_stale_start_stop :
    ∃ a b a2,
      (Entry.ofAlleles 100 "A".toList ["G".toList]).setPositions = .ok a ∧
      (Entry.ofAlleles 200 "ACGT".toList ["A".toList]).setPositions = .ok b ∧
      (a.swap b).1.pos = 200 ∧ (a.swap b).1.ref = "ACGT".toList ∧
      (a.swap b).1.alt = ["A".toList] ∧
      (a.swap b).1.start = 99 ∧ (a.swap b).1.stop = 100 ∧
      (a.swap b).1.setPositions = .ok a2 ∧ a2.start = 200 ∧ a2.stop = 204 :=
  ⟨_, _, _, rfl, rfl, by decide, by decide, by decide, by decide, by decide, rfl,
    by decide, by decide⟩

end Vcf

/-! ### `SortBuffer` in memory -/

namespace SortBuffer

variable {V H S : Type}

theorem pushAll_eq (sb : SortBuffer V H S) (xs : List V) :
    pushAll sb xs = { sb with buf := sb.buf ++ xs } := by
  induction xs generalizing sb with
  | nil => simp [pushAll]
  | cons x xs ih =>
    have := ih (push_back sb x)
    simp only [pushAll, List.foldl_cons] at this ⊢
    rw [this]
    simp [push_back]

theorem drain_memory (ops : StreamOps V H S) :
    ∀ (fuel : Nat) (sb : SortBuffer V H S), sb.stream = none → sb.buf.length < fuel →
      drain ops fuel sb = .ok (some (sb.buf, { sb with buf := [] }))
  | 0, _, _, h => by omega
  | fuel + 1, sb, hs, h => by
    obtain ⟨header, stable, compression, buf, tmpfile, stream⟩ := sb
    simp only at hs h
    subst hs
    cases buf with
    | nil => simp [drain, next]
    | cons v rest =>
      have ih := drain_memory ops fuel
        { header := header, stable := stable, compression := compression, buf := rest,
          tmpfile := tmpfile, stream := none } rfl
        (by simp only [List.length_cons] at h; simpa using Nat.lt_of_succ_lt_succ h)
      simp only [drain, next, ih]

end SortBuffer

theorem StrictWeakOrder.asymm {V : Type} {less : V → V → Bool} (h : StrictWeakOrder less)
    (a b : V) (hab : less a b = true) : less b a = false := by
  by_contra hba
  have := h.trans a b a hab (by simpa using hba)
  rw [h.irrefl] at this
  exact Bool.noConfusion this

theorem StrictWeakOrder.notLess_trans {V : Type} {less : V → V → Bool}
    (h : StrictWeakOrder less) (a b c : V) (hba : less b a = false) (hcb : less c b = false) :
    less c a = false := by
  by_contra hca
  have hca : less c a = true := by simpa using hca
  cases hbc : less b c with
  | true =>
    have := h.trans b c a hbc hca
    rw [hba] at this; exact Bool.noConfusion this
  | false =>
    cases hab : less a b with
    | true =>
      have := h.trans c a b hca hab
      rw [hcb] at this; exact Bool.noConfusion this
    | false =>
      have := (h.equiv_trans a b c hab hba hbc hcb).2
      rw [hca] at this; exact Bool.noConfusion this

theorem stable_sort_perm {V : Type} (less : V → V → Bool) (l : List V) :
    (stable_sort less l).Perm l :=
  List.perm_insertionSort _ l

theorem stable_sort_sorted {V : Type} {less : V → V → Bool} (h : StrictWeakOrder less)
    (l : List V) : (stable_sort less l).Sorted (fun a b => less b a = false) := by
  haveI : IsTotal V (fun a b => less b a = false) := ⟨fun a b => by
    cases hba : less b a with
    | false => exact Or.inl rfl
    | true => exact Or.inr (h.asymm b a hba)⟩
  haveI : IsTrans V (fun a b => less b a = false) :=
    ⟨fun a b c hab hbc => h.notLess_trans a b c hab hbc⟩
  exact List.sorted_insertionSort _ l

theorem stable_sort_filter_sameKey {V : Type} {less : V → V → Bool}
    (h : StrictWeakOrder less) (l : List V) (x : V) :
    (stable_sort less l).filter (sameKey less x) = l.filter (sameKey less x) := by
  have hpw : (l.filter (sameKey less x)).Pairwise (fun a b => less b a = false) := by
    apply List.Pairwise.imp_of_mem (R := fun _ _ => True)
    · intro a b ha hb _
      have ha' := (List.mem_filter.mp ha).2
      have hb' := (List.mem_filter.mp hb).2
      simp only [sameKey, Bool.and_eq_true, Bool.not_eq_true'] at ha' hb'
      exact (h.equiv_trans a x b ha'.2 ha'.1 hb'.1 hb'.2).2
    · exact List.pairwise_of_forall (fun _ _ => trivial)
  have hsub : List.Sublist (l.filter (sameKey less x)) (stable_sort less l) :=
    List.sublist_insertionSort hpw (List.filter_sublist l)
  have hsub2 := hsub.filter (sameKey less x)
  simp only [List.filter_filter, Bool.and_self] at hsub2
  have hlen := ((stable_sort_perm less l).filter (sameKey less x)).length_eq
  exact (hsub2.eq_of_length hlen.symm).symm

theorem natOps_strictWeakOrder : StrictWeakOrder natOps.less where
  irrefl a := by simp [natOps]
  trans a b c := by simp only [natOps, decide_eq_true_eq]; omega
  equiv_trans a b c := by simp only [natOps, decide_eq_false_iff_not]; omega

/-- C9: for every sequence `xs` pushed into a fresh `SortBuffer` constructed
with `stable = true` whose comparator is a strict weak ordering, `sort()`
followed by `next()` until it returns false (any number of allowed calls above
the number of records) delivers the stable sort of `xs`: a permutation of
`xs`, in non-decreasing order, in which the records of each key keep their
push order; the buffer is empty afterwards. Pushing 3, 1, 2 drains as
1, 2, 3. -/
theorem SortBuffer.sort_drain_stable {V H S : Type} (ops : StreamOps V H S) (h : H)
    (c : CompressionType) (xs : List V) (fuel : Nat)
    (hless : StrictWeakOrder ops.less) (hfuel : xs.length < fuel) :
    (∃ out sb',
      SortBuffer.drain ops fuel
        (SortBuffer.sort ops (SortBuffer.pushAll (SortBuffer.new h true c) xs))
        = .ok (some (out, sb')) ∧
      sb'.buf = [] ∧ sb'.stream = none ∧
      out.Perm xs ∧
      out.Sorted (fun a b => ops.less b a = false) ∧
      ∀ x, out.filter (sameKey ops.less x) = xs.filter (sameKey ops.less x)) ∧
    (∃ sb', SortBuffer.drain natOps 4
        (SortBuffer.sort natOps (SortBuffer.pushAll (SortBuffer.new () true .NONE) [3, 1, 2]))
        = .ok (some ([1, 2, 3], sb'))) := by
  refine ⟨⟨stable_sort ops.less xs,
    { header := h, stable := true, compression := c, buf := [], tmpfile := none,
      stream := none }, ?_, rfl, rfl, stable_sort_perm _ _,
    stable_sort_sorted hless _, stable_sort_filter_sameKey hless _⟩, ⟨_, rfl⟩⟩
  rw [SortBuffer.pushAll_eq]
  simp only [SortBuffer.sort, SortBuffer.new, if_true, List.nil_append]
  rw [SortBuffer.drain_memory ops fuel _ rfl
    (by simpa [(stable_sort_perm ops.less xs).length_eq] using hfuel)]

/-- Instance of C9 for the numbers 2, 1, 2, 0. -/
theorem SortBuffer.sort_drain_stable_witness :
    StrictWeakOrder natOps.less ∧ [2, 1, 2, 0].length < 7 ∧
    ((∃ out sb',
      SortBuffer.drain natOps 7
        (SortBuffer.sort natOps (SortBuffer.pushAll (SortBuffer.new () true .GZIP) [2, 1, 2, 0]))
        = .ok (some (out, sb')) ∧
      sb'.buf = [] ∧ sb'.stream = none ∧
      out.Perm [2, 1, 2, 0] ∧
      out.Sorted (fun a b => natOps.less b a = false) ∧
      ∀ x, out.filter (sameKey natOps.less x) = [2, 1, 2, 0].filter (sameKey natOps.less x)) ∧
    (∃ sb', SortBuffer.drain natOps 4
        (SortBuffer.sort natOps (SortBuffer.pushAll (SortBuffer.new () true .NONE) [3, 1, 2]))
        = .ok (some ([1, 2, 3], sb')))) :=
  ⟨natOps_strictWeakOrder, by decide,
    SortBuffer.sort_drain_stable natOps () .GZIP [2, 1, 2, 0] 7 natOps_strictWeakOrder
      (by decide)⟩

namespace Vcf

theorem parse_positions_ordered (c : TextConv) (e : Entry) (h : Option Header) (s : Str) :
    Except.holds (fun e' => e'.start ≤ e'.stop) (e.parse c h s) := by
  have key : ∀ x : Entry, Except.holds (fun e' => e'.start ≤ e'.stop) x.setPositions := by
    intro x
    obtain ⟨e', he, hle, _⟩ := setPositions_total x
    rw [he]; exact hle
  unfold Entry.parse
  simp only []
  repeat' split
  all_goals first
    | exact key _
    | exact trivial

/-- C7: `start() <= stop()` for every record that `setPositions` has
processed, whatever its position, reference allele and list of alternate
alleles (the empty list included): `setPositions` never fails and leaves
`start <= stop`; so does the construction from a merger; and every record
that `parse` or the parsing constructor produces has `start <= stop`, as the
record parsed from a line with two alternate alleles shows. -/
theorem start_le_stop (c : TextConv) (e : Entry) (m : EntryMerger) (h : Option Header)
    (s : Str) :
    (∃ e', e.setPositions = .ok e' ∧ e'.start ≤ e'.stop) ∧
    (∃ e', Entry.ofMerger m = .ok e' ∧ e'.start ≤ e'.stop) ∧
    Except.holds (fun e' => e'.start ≤ e'.stop) (e.parse c h s) ∧
    Except.holds (fun e' => e'.start ≤ e'.stop) (Entry.ofLine c h s) ∧
    (∃ e', Entry.ofLine specConv (some exampleHeader)
        "chr1\t100\trs1\tA\tG,AT\t30\tPASS\tDP=3\tGT:DP\t0/1:5\t.".toList = .ok e' ∧
      e'.start = 99 ∧ e'.stop = 101) := by
  refine ⟨?_, ?_, parse_positions_ordered c e h s, parse_positions_ordered c _ h s, ⟨_, rfl, ?_, ?_⟩⟩
  · obtain ⟨e', he, hle, _⟩ := setPositions_total e
    exact ⟨e', he, hle⟩
  · obtain ⟨e', he, hle, _⟩ := setPositions_total
      { header := m.mergedHeader, chrom := m.chrom, pos := m.pos, ref := m.ref,
        qual := m.qual, start := 0, stop := 0,
        identifiers := m.identifiers, failedFilters := m.failedFilters,
        info := m.info, alt := m.alt, formatDescription := m.formatDescription,
        genotypeData := m.genotypeData }
    exact ⟨e', he, hle⟩
  · decide
  · decide


/-! ### Text of a record -/

theorem digitChar_spec (d : Nat) (h : d < 10) :
    isdigit (Nat.digitChar d) = true ∧ (Nat.digitChar d).toNat - 48 = d := by
  interval_cases d <;> exact ⟨by decide, by decide⟩

theorem natOfDigits_append_single (l : Str) (ch : Char) :
    natOfDigits (l ++ [ch]) = 10 * natOfDigits l + (ch.toNat - 48) := by
  simp [natOfDigits, List.foldl_append]

theorem toDigitsCore_spec : ∀ (fuel n : Nat) (ds : Str), n < fuel →
    ∃ l, Nat.toDigitsCore 10 fuel n ds = l ++ ds ∧ l ≠ [] ∧
      (∀ ch ∈ l, isdigit ch = true) ∧ natOfDigits l = n
  | 0, n, _, h => by omega
  | fuel + 1, n, ds, h => by
    obtain ⟨hd1, hd2⟩ := digitChar_spec (n % 10) (Nat.mod_lt _ (by decide))
    simp only [Nat.toDigitsCore]
    split_ifs with h0
    · refine ⟨[Nat.digitChar (n % 10)], rfl, by simp, by simpa using hd1, ?_⟩
      simp only [natOfDigits, List.foldl_cons, List.foldl_nil, hd2]
      omega
    · obtain ⟨l, hl, _, hall, hval⟩ :=
        toDigitsCore_spec fuel (n / 10) (Nat.digitChar (n % 10) :: ds) (by omega)
      refine ⟨l ++ [Nat.digitChar (n % 10)], by simp [hl], by simp, ?_, ?_⟩
      · intro ch hch
        rcases List.mem_append.mp hch with h1 | h1
        · exact hall ch h1
        · rw [List.mem_singleton.mp h1]; exact hd1
      · rw [natOfDigits_append_single, hval, hd2]; omega

theorem toDigits_spec (n : Nat) :
    Nat.toDigits 10 n ≠ [] ∧ (∀ ch ∈ Nat.toDigits 10 n, isdigit ch = true) ∧
      natOfDigits (Nat.toDigits 10 n) = n := by
  obtain ⟨l, hl, hne, hall, hval⟩ := toDigitsCore_spec (n + 1) n [] (Nat.lt_succ_self n)
  rw [List.append_nil] at hl
  unfold Nat.toDigits
  rw [hl]
  exact ⟨hne, hall, hval⟩

theorem parsePos_showInt (x : Int) (h0 : 0 ≤ x) (h1 : x < 18446744073709551616) :
    parsePos (showInt x) = some x := by
  obtain ⟨hne, hall, hval⟩ := toDigits_spec x.toNat
  have hx : ¬ x < 0 := by omega
  simp only [showInt, hx, if_false, parsePos, hval]
  rw [if_pos]
  · congr 1; omega
  · refine ⟨hne, List.all_eq_true.mpr hall, by omega⟩

theorem isdigit_ne {ch d : Char} (h : isdigit ch = true) (hd : isdigit d = false) : d ≠ ch := by
  intro heq; rw [heq, h] at hd; exact Bool.noConfusion hd

theorem tab_not_mem_showInt (x : Int) (h0 : 0 ≤ x) : '\t' ∉ showInt x := by
  have hx : ¬ x < 0 := by omega
  simp only [showInt, hx, if_false]
  intro hmem
  exact isdigit_ne ((toDigits_spec x.toNat).2.1 _ hmem) (by decide) rfl


theorem intercalate_cons_cons {α : Type} (sep : List α) (a b : List α) (l : List (List α)) :
    sep.intercalate (a :: b :: l) = a ++ sep ++ sep.intercalate (b :: l) := by
  simp [List.intercalate, List.intersperse]

theorem intercalate_single {α : Type} (sep : List α) (a : List α) :
    sep.intercalate [a] = a := by
  simp [List.intercalate, List.intersperse]

theorem mem_intercalate {ch d : Char} : ∀ {l : List Str}, ch ∈ [d].intercalate l →
    ch = d ∨ ∃ x ∈ l, ch ∈ x
  | [], h => by simp [List.intercalate] at h
  | [a], h => by
    rw [intercalate_single] at h
    exact Or.inr ⟨a, List.mem_singleton_self a, h⟩
  | a :: b :: l, h => by
    rw [intercalate_cons_cons] at h
    rcases List.mem_append.mp h with h1 | h1
    · rcases List.mem_append.mp h1 with h2 | h2
      · exact Or.inr ⟨a, List.mem_cons_self _ _, h2⟩
      · exact Or.inl (List.mem_singleton.mp h2)
    · rcases mem_intercalate h1 with h2 | ⟨x, hx, h2⟩
      · exact Or.inl h2
      · exact Or.inr ⟨x, List.mem_cons_of_mem _ hx, h2⟩

theorem not_mem_intercalate {ch d : Char} {l : List Str} (hd : ch ≠ d)
    (h : ∀ x ∈ l, ch ∉ x) : ch ∉ [d].intercalate l := by
  intro hmem
  rcases mem_intercalate hmem with h1 | ⟨x, hx, h1⟩
  · exact hd h1
  · exact h x hx h1

theorem not_mem_printList {ch d : Char} {l : List Str} (hd : ch ≠ d) (hdot : ch ≠ '.')
    (h : ∀ x ∈ l, ch ∉ x) : ch ∉ printList l d := by
  unfold printList
  split_ifs
  · simpa using hdot
  · exact not_mem_intercalate hd h

theorem splitOn_single_dot {d : Char} (hd : d ≠ '.') : (['.'] : Str).splitOn d = [['.']] := by
  have h := @List.splitOnP_eq_single Char (fun (x : Char) => x == d) ['.']
    (by intro x hx; rw [List.mem_singleton.mp hx]; simpa using hd.symm)
  simpa [List.splitOn] using h

/-- Lists are read back: `extractList` inverts `printList`. -/
theorem extractList_printList {d : Char} {v : List Str} (hd : d ≠ '.')
    (h : ∀ x ∈ v, d ∉ x) (hdot : v ≠ [['.']]) : extractList (printList v d) d = v := by
  cases v with
  | nil => simp [printList, extractList]
  | cons a l =>
    have hsplit : ([d].intercalate (a :: l)).splitOn d = a :: l :=
      List.splitOn_intercalate (a :: l) d h (by simp)
    have hne : [d].intercalate (a :: l) ≠ ['.'] := by
      intro heq
      rw [heq, splitOn_single_dot hd] at hsplit
      exact hdot hsplit.symm
    simp only [printList, List.isEmpty_cons, Bool.false_eq_true, if_false, extractList, hne,
      Tokenizer.new, hsplit]

theorem intercalate_cons_eq_flatten {α : Type} (t : α) (x : List α) :
    ∀ ys : List (List α), [t].intercalate (x :: ys) = x ++ (ys.map (fun y => t :: y)).flatten
  | [] => by simp [intercalate_single]
  | y :: ys => by
    rw [intercalate_cons_cons, intercalate_cons_eq_flatten t y ys]
    simp

/-- The text of a record is its columns joined by tabs. -/
theorem toString_eq_intercalate (c : TextConv) (e : Entry) :
    e.toString c = ['\t'].intercalate (e.fields c) := by
  unfold Entry.toString Entry.fields
  simp only [List.cons_append, List.nil_append, intercalate_cons_cons, List.append_assoc,
    List.singleton_append, intercalate_cons_eq_flatten]
  split_ifs <;> simp <;> rfl


theorem mapInsert_append (k : Str) (v : CustomValue) (acc : List (Str × CustomValue))
    (h : ∀ kv ∈ acc, kv.1 ≠ k) : mapInsert k v acc = some (acc ++ [(k, v)]) := by
  have hany : acc.any (fun kv => kv.1 == k) = false := by
    rw [List.any_eq_false]
    intro kv hkv
    simpa using h kv hkv
  simp only [mapInsert, hany, Bool.false_eq_true, if_false]

theorem mapInsert_some (k : Str) (v : CustomValue) (m m' : List (Str × CustomValue))
    (h : mapInsert k v m = some m') : m' = m ++ [(k, v)] ∧ ∀ kv ∈ m, kv.1 ≠ k := by
  unfold mapInsert at h
  split_ifs at h with hany
  simp only [Option.some.injEq] at h
  refine ⟨h.symm, ?_⟩
  intro kv hkv hk
  apply hany
  rw [List.any_eq_true]
  exact ⟨kv, hkv, by simpa using hk⟩

theorem infoItem_split (c : TextConv) (kv : Str × CustomValue) (h : '=' ∉ kv.2.type.id) :
    (match (Tokenizer.new (showInfoItem c kv) '=').extract with
      | some (k, kv') => (k, kv'.remaining)
      | none => ([], (Tokenizer.new (showInfoItem c kv) '=').remaining)) =
    (kv.2.type.id, c.valueToString kv.2) := by
  have hp : ∀ x ∈ kv.2.type.id, ¬ ((fun (y : Char) => y == '=') x = true) := by
    intro x hx hxe
    rw [beq_iff_eq] at hxe
    exact h (hxe ▸ hx)
  unfold showInfoItem
  simp only []
  split_ifs with hv
  · have hsplit : (kv.2.type.id).splitOn '=' = [kv.2.type.id] := by
      simpa [List.splitOn] using List.splitOnP_eq_single _ _ hp
    have hnil : c.valueToString kv.2 = [] := List.isEmpty_iff.mp hv
    simp [Tokenizer.new, Tokenizer.extract, Tokenizer.remaining, hsplit, hnil,
      List.intercalate]
  · have hsplit : (kv.2.type.id ++ '=' :: c.valueToString kv.2).splitOn '=' =
        kv.2.type.id :: (c.valueToString kv.2).splitOn '=' := by
      simpa [List.splitOn] using
        List.splitOnP_first (fun (y : Char) => y == '=') _ hp '=' (by simp)
          (c.valueToString kv.2)
    simp only [Tokenizer.new, Tokenizer.extract, Tokenizer.remaining, hsplit,
      List.intercalate_splitOn]

theorem parseInfo_items (c : TextConv) (hd : Header) :
    ∀ (l acc : List (Str × CustomValue)),
      (acc ++ l).Pairwise (fun a b => a.1 ≠ b.1) →
      (∀ kv ∈ l, kv.1 = kv.2.type.id ∧ hd.infoType kv.1 = some kv.2.type ∧
        '=' ∉ kv.1 ∧ kv.1 ≠ [] ∧
        c.valueOfText (some kv.2.type) (c.valueToString kv.2) = .ok kv.2) →
      parseInfo c (some hd) (l.map (showInfoItem c)) acc = .ok (acc ++ l)
  | [], acc, _, _ => by simp [parseInfo]
  | kv :: rest, acc, hpw, h => by
    obtain ⟨hkey, htype, heq, hne, hval⟩ := h kv (List.mem_cons_self _ _)
    have hitem : (showInfoItem c kv).isEmpty = false := by
      unfold showInfoItem
      simp only []
      rw [← hkey]
      split_ifs <;> simp [hne]
    have hsplit := infoItem_split c kv (hkey ▸ heq)
    have hins : mapInsert kv.1 kv.2 acc = some (acc ++ [kv]) := by
      apply mapInsert_append
      intro kv' hkv'
      exact (List.pairwise_append.mp hpw).2.2 kv' hkv' kv (List.mem_cons_self _ _)
    have ih := parseInfo_items c hd rest (acc ++ [kv])
      (by simpa using hpw) (fun x hx => h x (List.mem_cons_of_mem _ hx))
    simp only [List.map_cons, parseInfo, hitem, Bool.false_eq_true, if_false, hsplit,
      ← hkey, htype, hval, hins, ih, List.append_assoc, List.singleton_append]

theorem checkFormat_ok (hd : Header) : ∀ fmt : List Str,
    (∀ x ∈ fmt, x ≠ [] → (hd.formatType x).isSome = true) → checkFormat (some hd) fmt = .ok ()
  | [], _ => rfl
  | x :: rest, h => by
    have ih := checkFormat_ok hd rest (fun y hy => h y (List.mem_cons_of_mem _ hy))
    simp only [checkFormat]
    split_ifs with h1 h2
    · exact ih
    · have := h x (List.mem_cons_self _ _) (by simpa [List.isEmpty_iff] using h1)
      rw [Option.isNone_iff_eq_none] at h2
      rw [h2] at this
      exact Bool.noConfusion this
    · exact ih

theorem parseSampleValues_ok (c : TextConv) (hd : Header) :
    ∀ (fmt : List Str) (sample : List CustomValue), sampleReadsBack c hd fmt sample →
      parseSampleValues c (some hd) fmt (sample.map (showSampleValue c)) = .ok sample
  | [], [], _ => rfl
  | _ :: _, [], _ => rfl
  | [], _ :: _, h => by simp [sampleReadsBack] at h
  | f :: fs, v :: vs, h => by
    simp only [sampleReadsBack] at h
    simp only [List.map_cons, parseSampleValues, h.1, parseSampleValues_ok c hd fs vs h.2]

theorem showSample_eq_printList (c : TextConv) (sample : List CustomValue) :
    showSample c sample = printList (sample.map (showSampleValue c)) ':' := by
  cases sample <;> simp [showSample, printList]

theorem parseSamples_ok (c : TextConv) (hd : Header) (fmt : List Str) :
    ∀ samples : List (List CustomValue),
      (∀ sample ∈ samples,
        sample.length ≤ fmt.length ∧
        sample.map (showSampleValue c) ≠ [['.']] ∧
        (∀ v ∈ sample, '\t' ∉ showSampleValue c v ∧ ':' ∉ showSampleValue c v) ∧
        sampleReadsBack c hd fmt sample) →
      parseSamples c (some hd) fmt (samples.map (showSample c)) = .ok samples
  | [], _ => rfl
  | sample :: rest, h => by
    obtain ⟨hlen, hdot, hch, hback⟩ := h sample (List.mem_cons_self _ _)
    have hex : extractList (showSample c sample) ':' = sample.map (showSampleValue c) := by
      rw [showSample_eq_printList]
      apply extractList_printList (by decide) _ hdot
      intro x hx
      obtain ⟨v, hv, rfl⟩ := List.mem_map.mp hx
      exact (hch v hv).2
    have hnot : ¬ (sample.map (showSampleValue c)).length > fmt.length := by
      simpa using hlen
    simp only [List.map_cons, parseSamples, hex, hnot, if_false,
      parseSampleValues_ok c hd fmt sample hback,
      parseSamples_ok c hd fmt rest (fun s hs => h s (List.mem_cons_of_mem _ hs))]


theorem showInfoItem_not_mem (c : TextConv) (kv : Str × CustomValue) {ch : Char}
    (hne : ch ≠ '=') (h1 : ch ∉ kv.2.type.id) (h2 : ch ∉ c.valueToString kv.2) :
    ch ∉ showInfoItem c kv := by
  unfold showInfoItem
  simp only []
  split_ifs
  · exact h1
  · simp only [List.mem_append, List.mem_cons, not_or]
    exact ⟨h1, hne, h2⟩

theorem infoText_eq_printList (c : TextConv) (r : Entry) :
    (if r.info.isEmpty then ['.'] else [';'].intercalate (r.info.map (showInfoItem c))) =
      printList (r.info.map (showInfoItem c)) ';' := by
  cases r.info <;> simp [printList]

theorem fields_no_tab (c : TextConv) (hd : Header) (r : Entry) (h : WellFormed c hd r) :
    ∀ x ∈ r.fields c, '\t' ∉ x := by
  obtain ⟨_, ⟨hchrom, hpos, hids, href, halt, hfilt⟩, hqual, ⟨_, _, hinfo⟩, ⟨hfmt, hsamples⟩, _⟩ := h
  intro x hx
  simp only [Entry.fields, List.cons_append, List.nil_append, List.mem_cons, List.mem_map] at hx
  rcases hx with rfl | rfl | rfl | rfl | rfl | rfl | rfl | rfl | rfl | ⟨sample, hs, rfl⟩
  · exact hchrom
  · exact tab_not_mem_showInt _ hpos.1
  · exact not_mem_printList (by decide) (by decide) (fun y hy => (hids.1 y hy).1)
  · exact href
  · exact not_mem_printList (by decide) (by decide) (fun y hy => (halt.1 y hy).1)
  · rcases hqual with hq | ⟨hlt, htab, _, _⟩
    · rw [if_pos (le_of_eq hq)]; decide
    · rw [if_neg (not_le.mpr hlt)]; exact htab
  · split_ifs
    · decide
    · exact not_mem_printList (by decide) (by decide) (fun y hy => (hfilt.1 y hy).1)
  · rw [infoText_eq_printList]
    apply not_mem_printList (by decide) (by decide)
    intro y hy
    obtain ⟨kv, hkv, rfl⟩ := List.mem_map.mp hy
    obtain ⟨hk, _, _, _, ht, _, htk, _, _⟩ := hinfo kv hkv
    exact showInfoItem_not_mem c kv (by decide) (hk ▸ htk) ht
  · exact not_mem_printList (by decide) (by decide) (fun y hy => (hfmt.1 y hy).1)
  · rw [showSample_eq_printList]
    apply not_mem_printList (by decide) (by decide)
    intro y hy
    obtain ⟨v, hv, rfl⟩ := List.mem_map.mp hy
    exact ((hsamples sample hs).2.2.1 v hv).1

theorem qual_readsBack (c : TextConv) (r : Entry) (h : QualReadsBack c r) :
    (if (if r.qual ≤ MISSING_QUALITY then (['.'] : Str) else c.showDouble r.qual) = ['.']
      then some MISSING_QUALITY
      else c.readDouble (if r.qual ≤ MISSING_QUALITY then ['.'] else c.showDouble r.qual)) =
    some r.qual := by
  rcases h with hq | ⟨hlt, _, hdot, hread⟩
  · simp [hq]
  · simp [not_le.mpr hlt, hdot, hread]

theorem filters_readBack (r : Entry)
    (h : (∀ x ∈ r.failedFilters, '\t' ∉ x ∧ listDelim ∉ x) ∧ r.failedFilters ≠ [['.']] ∧
      r.failedFilters ≠ ["PASS".toList]) :
    (if (extractList (if r.failedFilters.isEmpty then "PASS".toList
          else printList r.failedFilters listDelim) listDelim).length = 1 ∧
        (extractList (if r.failedFilters.isEmpty then "PASS".toList
          else printList r.failedFilters listDelim) listDelim).head? = some "PASS".toList
      then []
      else extractList (if r.failedFilters.isEmpty then "PASS".toList
          else printList r.failedFilters listDelim) listDelim) = r.failedFilters := by
  obtain ⟨hch, hdot, hpass⟩ := h
  cases hf : r.failedFilters with
  | nil =>
    have : extractList "PASS".toList listDelim = ["PASS".toList] := by decide
    simp only [List.isEmpty_nil, if_true, this]
    simp
  | cons a l =>
    have hex : extractList (printList (a :: l) listDelim) listDelim = a :: l := by
      rw [← hf]
      exact extractList_printList (by decide) (fun x hx => (hch x hx).2) hdot
    simp only [List.isEmpty_cons, Bool.false_eq_true, if_false, hex]
    rw [if_neg]
    rintro ⟨hlen, hhead⟩
    apply hpass
    rw [hf]
    cases l with
    | nil => simp at hhead; rw [hhead]; rfl
    | cons b l' => simp at hlen

theorem setPositions_with (r : Entry) (s t : Int) :
    Entry.setPositions { r with start := s, stop := t } = r.setPositions := by
  unfold Entry.setPositions
  simp only []

/-- Round trip of a well-formed record, on any target entry: parsing the
text of `r` gives `r`. -/
theorem parse_toString_eq (c : TextConv) (hd : Header) (r e : Entry)
    (h : WellFormed c hd r) : Entry.parse c e (some hd) (r.toString c) = .ok r := by
  have hsplit : (r.toString c).splitOn '\t' = r.fields c := by
    rw [toString_eq_intercalate]
    exact List.splitOn_intercalate _ '\t' (fields_no_tab c hd r h) (by simp [Entry.fields])
  obtain ⟨hhd, ⟨hchrom, hpos, hids, href, halt, hfilt⟩, hqual, ⟨hpw, hidot, hinfo⟩,
    ⟨hfmt, hsamples⟩, hset⟩ := h
  have e1 := parsePos_showInt r.pos hpos.1 hpos.2
  have e2 := extractList_printList (d := listDelim) (by decide) (fun x hx => (hids.1 x hx).2)
    hids.2
  have e3 := extractList_printList (d := ',') (by decide) (fun x hx => (halt.1 x hx).2) halt.2
  have e4 := qual_readsBack c r hqual
  have e5 := filters_readBack r hfilt
  have e6 : extractList (if r.info.isEmpty then ['.']
      else [';'].intercalate (r.info.map (showInfoItem c))) listDelim =
      r.info.map (showInfoItem c) := by
    rw [infoText_eq_printList]
    apply extractList_printList (by decide) _ hidot
    intro y hy
    obtain ⟨kv, hkv, rfl⟩ := List.mem_map.mp hy
    obtain ⟨hk, _, _, _, _, hs, _, hsk, _⟩ := hinfo kv hkv
    exact showInfoItem_not_mem c kv (by decide) (hk ▸ hsk) hs
  have e7 := parseInfo_items c hd r.info [] (by simpa using hpw)
    (fun kv hkv => by
      obtain ⟨a1, a2, a3, a4, _, _, _, _, a9⟩ := hinfo kv hkv
      exact ⟨a1, a2, a3, a4, a9⟩)
  have e8 := extractList_printList (d := ':') (by decide) (fun x hx => (hfmt.1 x hx).2.1)
    hfmt.2
  have e9 := checkFormat_ok hd r.formatDescription (fun x hx => (hfmt.1 x hx).2.2)
  have e10 := parseSamples_ok c hd r.formatDescription r.genotypeData hsamples
  unfold Entry.parse
  simp only [Tokenizer.new, hsplit, Entry.fields, Tokenizer.extract, Tokenizer.extractPos,
    List.cons_append, List.nil_append, e1, Option.map_some', e2, e3, e4, e5, e6, e7, e8, e9,
    e10]
  rw [← hhd]
  exact (setPositions_with r e.start e.stop).trans hset

end Vcf

/-! ### Spill and replay -/

namespace Vcf

theorem flatten_lines_eq_intercalate : ∀ ls : List Str,
    (ls.map (fun l => l ++ ['\n'])).flatten = ['\n'].intercalate (ls ++ [[]])
  | [] => by simp [List.intercalate]
  | l :: ls => by
    have ih := flatten_lines_eq_intercalate ls
    cases hls : ls ++ [[]] with
    | nil => simp at hls
    | cons b rest =>
      rw [hls] at ih
      simp only [List.map_cons, List.flatten_cons, List.cons_append, hls, intercalate_cons_cons,
        ih, List.append_assoc]

theorem getlines_flatten (ls : List Str) (h : ∀ l ∈ ls, '\n' ∉ l) :
    getlines ((ls.map (fun l => l ++ ['\n'])).flatten) = ls := by
  have hsplit : ((ls.map (fun l => l ++ ['\n'])).flatten).splitOn '\n' = ls ++ [[]] := by
    rw [flatten_lines_eq_intercalate]
    apply List.splitOn_intercalate _ '\n' _ (by simp)
    intro l hl
    rcases List.mem_append.mp hl with h1 | h1
    · exact h l h1
    · rw [List.mem_singleton.mp h1]; simp
  simp [getlines, hsplit]

theorem fromStream_block (hc : HeaderConv) : ∀ (hl recs : List Str),
    (∀ l ∈ hl, startsWithHash l = true) → (∀ l ∈ recs, startsWithHash l = false) →
    (hl ++ recs).takeWhile startsWithHash = hl ∧ (hl ++ recs).dropWhile startsWithHash = recs
  | [], [], _, _ => by simp
  | [], r :: recs, _, h2 => by
    have := h2 r (List.mem_cons_self _ _)
    simp [List.takeWhile, List.dropWhile, this]
  | l :: hl, recs, h1, h2 => by
    have hl1 := h1 l (List.mem_cons_self _ _)
    obtain ⟨ih1, ih2⟩ := fromStream_block hc hl recs
      (fun x hx => h1 x (List.mem_cons_of_mem _ hx)) h2
    simp [List.takeWhile, List.dropWhile, hl1, ih1, ih2]

theorem drain_stream (c : TextConv) (hc : HeaderConv) (h : Header) :
    ∀ (recs : List Entry) (fuel : Nat) (sb : SortBuffer Entry Header EntryStream),
      sb.stream = some { header := h, lines := recs.map (Entry.toString c) } →
      (∀ r ∈ recs, WellFormed c h r) → recs.length < fuel →
      SortBuffer.drain (entryOps c hc) fuel sb =
        .ok (some (recs, { sb with stream := some { header := h, lines := [] } }))
  | _, 0, _, _, _, hf => by omega
  | [], fuel + 1, sb, hs, _, _ => by
    simp only [List.map_nil] at hs
    simp [SortBuffer.drain, SortBuffer.next, hs, entryOps, EntryStream.next]
  | r :: recs, fuel + 1, sb, hs, hw, hf => by
    have hr := parse_toString_eq c h r { Entry.new with header := some h }
      (hw r (List.mem_cons_self _ _))
    have ih := drain_stream c hc h recs fuel
      { sb with stream := some { header := h, lines := recs.map (Entry.toString c) } } rfl
      (fun x hx => hw x (List.mem_cons_of_mem _ hx))
      (by simp only [List.length_cons] at hf; omega)
    simp only [SortBuffer.drain, SortBuffer.next, hs, entryOps, EntryStream.next,
      List.map_cons, Entry.ofLine, hr]
    simp only [entryOps] at ih
    rw [ih]

theorem Filters.decompress_compress (f : Filters) (hf : f.Inverse) (m : CompressionType)
    (x : Str) : f.decompress m (f.compress m x) = x := by
  cases m
  · rfl
  · exact hf.1 x
  · exact hf.2 x

theorem writeTmp_stream (c : TextConv) (hc : HeaderConv) (f : Filters)
    (sb : SortBuffer Entry Header EntryStream) (hl : List Str)
    (htmp : sb.tmpfile = none) (hf : f.Inverse)
    (hheader : HeaderReadsBack hc sb.header hl)
    (hrec : ∀ r ∈ sb.buf, Spillable c sb.header r) :
    SortBuffer.writeTmp (entryOps c hc) f sb =
      .ok { sb with
        buf := [],
        tmpfile := some (f.compress sb.compression (SortBuffer.tmpText (entryOps c hc) sb)),
        stream := some { header := sb.header, lines := sb.buf.map (Entry.toString c) } } := by
  obtain ⟨htext, hlines, hadd⟩ := hheader
  have hin : SortBuffer.tmpText (entryOps c hc) sb =
      ((hl ++ sb.buf.map (Entry.toString c)).map (fun l => l ++ ['\n'])).flatten := by
    simp only [SortBuffer.tmpText, entryOps, htext, List.map_append, List.flatten_append,
      List.map_map]
    rfl
  have hget : getlines (SortBuffer.tmpText (entryOps c hc) sb) =
      hl ++ sb.buf.map (Entry.toString c) := by
    rw [hin]
    apply getlines_flatten
    intro l hmem
    rcases List.mem_append.mp hmem with h1 | h1
    · exact (hlines l h1).2
    · obtain ⟨r, hr, rfl⟩ := List.mem_map.mp h1
      exact (hrec r hr).2.1
  obtain ⟨htake, hdrop⟩ := fromStream_block hc hl (sb.buf.map (Entry.toString c))
    (fun l hmem => (hlines l hmem).1)
    (fun l hmem => by
      obtain ⟨r, hr, rfl⟩ := List.mem_map.mp hmem
      exact (hrec r hr).2.2)
  have hopen : (entryOps c hc).openStream (SortBuffer.tmpText (entryOps c hc) sb) =
      .ok { header := sb.header, lines := sb.buf.map (Entry.toString c) } := by
    show Except.ok (EntryStream.open hc _) = _
    unfold EntryStream.open Header.fromStream
    simp only []
    rw [hget, htake, hdrop, hadd]
  simp only [SortBuffer.writeTmp, htmp, Option.isSome_none, Bool.false_eq_true, if_false,
    Filters.decompress_compress f hf, hopen]


/-- C1 (as stated, refuted): the record at chr1:100 A>G with format "DP" and
one sample holding a single empty value is written as
"chr1 100 . A G . PASS . DP ." (tab-separated), the text of the same record
with a sample without data; parsing that text gives the sample without data,
so the per-sample data of the parsed record differ from those of the
record. -/
theorem roundtrip_loses_empty_value :
    ∃ e', Entry.parse specConv Entry.new (some exampleHeader)
        (sampleWithEmptyValue.toString specConv) = .ok e' ∧
      sampleWithEmptyValue.toString specConv = "chr1\t100\t.\tA\tG\t.\tPASS\t.\tDP\t.".toList ∧
      sampleWithEmptyValue.toString specConv =
        Entry.toString specConv { sampleWithEmptyValue with genotypeData := [[]] } ∧
      sampleWithEmptyValue.setPositions = .ok sampleWithEmptyValue ∧
      e'.genotypeData = [[]] ∧
      e'.genotypeData ≠ sampleWithEmptyValue.genotypeData :=
  ⟨_, rfl, by decide, by decide, by decide, by decide, by decide⟩

/-- C1 (amended): for all text conversions of doubles and typed values, every
header `hd` and every record `r` that is well-formed for them (`WellFormed`:
the record carries `hd`, each column is read back from its text, where the
text "." stands for the empty list, the missing quality and the sample
without data, the info map holds each key once with ids declared in `hd`, and
`start`/`stop` are those of `setPositions`), parsing the text of `r` against
`hd`, into any entry or by the parsing constructor, succeeds and gives a
record equal to `r` in every field. -/
theorem parse_toString_roundtrip (c : TextConv) (hd : Header) (r e : Entry)
    (h : WellFormed c hd r) :
    Entry.parse c e (some hd) (r.toString c) = .ok r ∧
    Entry.ofLine c (some hd) (r.toString c) = .ok r :=
  ⟨parse_toString_eq c hd r e h, parse_toString_eq c hd r _ h⟩

/-- Instance of the amended C1 for `exampleRecord`, parsed into an entry that
held other data. -/
theorem parse_toString_roundtrip_witness :
    WellFormed specConv exampleHeader exampleRecord ∧
    (Entry.parse specConv sampleWithEmptyValue (some exampleHeader)
        (exampleRecord.toString specConv) = .ok exampleRecord ∧
      Entry.ofLine specConv (some exampleHeader) (exampleRecord.toString specConv) =
        .ok exampleRecord) :=
  ⟨by decide,
    parse_toString_roundtrip specConv exampleHeader exampleRecord sampleWithEmptyValue
      (by decide)⟩

/-- C10 (as stated, refuted): the sorted buffer that holds the one record
with a sample made of a single empty value (compression NONE) drains in
memory to that record; after `writeTmp()` it drains to a record whose sample
has no data, so the two sequences of records differ. -/
theorem spill_replay_changes_record :
    ∃ spilled out sbDisk sbMem,
      SortBuffer.writeTmp (entryOps specConv exampleHeaderConv) exampleFilters
        (exampleBuffer .NONE [sampleWithEmptyValue]) = .ok spilled ∧
      SortBuffer.drain (entryOps specConv exampleHeaderConv) 2 spilled
        = .ok (some (out, sbDisk)) ∧
      SortBuffer.drain (entryOps specConv exampleHeaderConv) 2
        (exampleBuffer .NONE [sampleWithEmptyValue])
        = .ok (some ([sampleWithEmptyValue], sbMem)) ∧
      out.map (fun e => e.genotypeData) = [[[]]] ∧
      out ≠ [sampleWithEmptyValue] :=
  ⟨_, _, _, _, rfl, rfl, rfl, by decide, by decide⟩

/-- C10 (amended): for every unspilled buffer of VCF entries, every
compression mode and all filters whose decompressors undo their compressors,
if the header text is a block of '#' lines that gives the header back and
every buffered record is well-formed for the header and is written as one
line that does not start with '#', then `writeTmp()` succeeds and draining
with `next()` afterwards delivers the same records in the same order as
draining the buffer in memory. -/
theorem spill_replay_eq_memory (c : TextConv) (hc : HeaderConv) (f : Filters)
    (sb : SortBuffer Entry Header EntryStream) (hl : List Str) (fuel : Nat)
    (hstream : sb.stream = none) (htmp : sb.tmpfile = none) (hf : f.Inverse)
    (hheader : HeaderReadsBack hc sb.header hl)
    (hrec : ∀ r ∈ sb.buf, Spillable c sb.header r)
    (hfuel : sb.buf.length < fuel) :
    ∃ spilled sbDisk sbMem,
      SortBuffer.writeTmp (entryOps c hc) f sb = .ok spilled ∧
      SortBuffer.drain (entryOps c hc) fuel spilled = .ok (some (sb.buf, sbDisk)) ∧
      SortBuffer.drain (entryOps c hc) fuel sb = .ok (some (sb.buf, sbMem)) :=
  ⟨_, _, _, writeTmp_stream c hc f sb hl htmp hf hheader hrec,
    drain_stream c hc sb.header sb.buf fuel _ rfl (fun r hr => (hrec r hr).1) hfuel,
    SortBuffer.drain_memory (entryOps c hc) fuel sb hstream hfuel⟩

theorem exampleFilters_inverse : exampleFilters.Inverse :=
  ⟨fun x => List.reverse_reverse x, fun _ => rfl⟩

/-- Instance of the amended C10 for a gzip buffer of two records. -/
theorem spill_replay_eq_memory_witness :
    (exampleBuffer .GZIP [exampleRecord, { exampleRecord with pos := 7, start := 6, stop := 8 }]).stream
      = none ∧
    (exampleBuffer .GZIP [exampleRecord, { exampleRecord with pos := 7, start := 6, stop := 8 }]).tmpfile
      = none ∧
    exampleFilters.Inverse ∧
    HeaderReadsBack exampleHeaderConv
      (exampleBuffer .GZIP
        [exampleRecord, { exampleRecord with pos := 7, start := 6, stop := 8 }]).header
      ["##example".toList] ∧
    (∀ r ∈ (exampleBuffer .GZIP
        [exampleRecord, { exampleRecord with pos := 7, start := 6, stop := 8 }]).buf,
      Spillable specConv (exampleBuffer .GZIP
        [exampleRecord, { exampleRecord with pos := 7, start := 6, stop := 8 }]).header r) ∧
    (exampleBuffer .GZIP
      [exampleRecord, { exampleRecord with pos := 7, start := 6, stop := 8 }]).buf.length < 5 ∧
    ∃ spilled sbDisk sbMem,
      SortBuffer.writeTmp (entryOps specConv exampleHeaderConv) exampleFilters
        (exampleBuffer .GZIP
          [exampleRecord, { exampleRecord with pos := 7, start := 6, stop := 8 }]) = .ok spilled ∧
      SortBuffer.drain (entryOps specConv exampleHeaderConv) 5 spilled =
        .ok (some ((exampleBuffer .GZIP
          [exampleRecord, { exampleRecord with pos := 7, start := 6, stop := 8 }]).buf, sbDisk)) ∧
      SortBuffer.drain (entryOps specConv exampleHeaderConv) 5
        (exampleBuffer .GZIP
          [exampleRecord, { exampleRecord with pos := 7, start := 6, stop := 8 }]) =
        .ok (some ((exampleBuffer .GZIP
          [exampleRecord, { exampleRecord with pos := 7, start := 6, stop := 8 }]).buf, sbMem)) :=
  ⟨rfl, rfl, exampleFilters_inverse, by decide, by decide, by decide,
    spill_replay_eq_memory specConv exampleHeaderConv exampleFilters
      (exampleBuffer .GZIP [exampleRecord, { exampleRecord with pos := 7, start := 6, stop := 8 }])
      ["##example".toList] 5 rfl rfl exampleFilters_inverse (by decide) (by decide) (by decide)⟩

end Vcf

/-! ### Exhaustive classification in `setPositions` -/

namespace Vcf

theorem setPositionsLoop_ok (pos : Int) (ref : Str) :
    ∀ (alts : List Str) (acc : Int × Int), ∃ r, setPositionsLoop pos ref alts acc = .ok r
  | [], acc => ⟨acc, rfl⟩
  | alt :: rest, acc => by
    obtain ⟨⟨s, t⟩, hst⟩ := altStartStop_ok pos ref alt
    simp only [setPositionsLoop, hst]
    exact setPositionsLoop_ok pos ref rest _

/-- C20: the classification of `setPositions` into substitution, deletion and
insertion is exhaustive. For every position, reference allele and alternate
allele the loop body yields a local `(start, stop)` and never the "Unknown
variant type" error; hence the loop over any list of alternate alleles, from
any `(_start, _stop)`, and `setPositions` on any record return a result and
no error. -/
theorem setPositions_never_fails (pos : Int) (ref : Str) (alts : List Str) (acc : Int × Int)
    (e : Entry) :
    (∀ alt : Str, ∃ r, altStartStop pos ref alt = .ok r) ∧
    (∃ r, setPositionsLoop pos ref alts acc = .ok r) ∧
    (∃ e', e.setPositions = .ok e') ∧
    (∀ msg, e.setPositions ≠ .error msg) := by
  refine ⟨fun alt => altStartStop_ok pos ref alt, setPositionsLoop_ok pos ref alts acc, ?_, ?_⟩
  · obtain ⟨e', he, _⟩ := setPositions_total e
    exact ⟨e', he⟩
  · intro msg hmsg
    obtain ⟨e', he, _⟩ := setPositions_total e
    rw [he] at hmsg
    exact Except.noConfusion hmsg

end Vcf

/-! ### States of a `SortBuffer` after a spill -/

namespace SortBuffer

variable {V H S : Type}

theorem writeTmp_eq_writeTmpState (ops : StreamOps V H S) (f : Filters)
    (sb : SortBuffer V H S) :
    writeTmp ops f sb =
      match writeTmpState ops f sb with
      | (.ok _, sb') => .ok sb'
      | (.error msg, _) => .error msg := by
  unfold writeTmp writeTmpState
  split_ifs
  · rfl
  · simp only []
    split <;> rfl

theorem writeTmp_ok_members (ops : StreamOps V H S) (f : Filters)
    (sb sb1 : SortBuffer V H S) (h : writeTmp ops f sb = .ok sb1) :
    sb1.tmpfile.isSome = true ∧ sb1.stream.isSome = true ∧ sb1.buf = [] := by
  unfold writeTmp at h
  split_ifs at h
  simp only [] at h
  split at h
  · exact Except.noConfusion h
  · injection h with h
    subst h
    exact ⟨rfl, rfl, rfl⟩

theorem peek_ok_members (ops : StreamOps V H S) (sb sb' : SortBuffer V H S) (v : Option V)
    (h : peek ops sb = .ok (v, sb')) :
    sb'.tmpfile = sb.tmpfile ∧ sb'.stream.isSome = sb.stream.isSome ∧ sb'.buf = sb.buf := by
  unfold peek at h
  split at h
  · split at h
    · exact Except.noConfusion h
    · injection h with h; injection h with h1 h2; subst h2
      rename_i hs _ _ _ _
      simp [hs]
  · split at h <;>
    · injection h with h; injection h with h1 h2; subst h2
      exact ⟨rfl, rfl, rfl⟩

theorem next_ok_members (ops : StreamOps V H S) (sb sb' : SortBuffer V H S) (v : Option V)
    (h : next ops sb = .ok (v, sb')) :
    sb'.tmpfile = sb.tmpfile ∧ sb'.stream.isSome = sb.stream.isSome := by
  unfold next at h
  split at h
  · split at h
    · exact Except.noConfusion h
    · injection h with h; injection h with h1 h2; subst h2
      rename_i hs _ _ _ _
      simp [hs]
  · split at h <;>
    · injection h with h; injection h with h1 h2; subst h2
      exact ⟨rfl, rfl⟩

theorem afterCall_members (ops : StreamOps V H S) (f : Filters) (sb : SortBuffer V H S)
    (call : Call V) :
    (sb.tmpfile.isSome = true → (afterCall ops f sb call).tmpfile.isSome = true) ∧
    (sb.stream.isSome = true → (afterCall ops f sb call).stream.isSome = true) := by
  cases call with
  | push_back value => exact ⟨id, id⟩
  | sort =>
    simp only [afterCall, sort]
    split_ifs <;> exact ⟨id, id⟩
  | writeTmp =>
    simp only [afterCall, writeTmpState]
    split_ifs with h
    · exact ⟨id, id⟩
    · split
      · exact ⟨fun _ => rfl, id⟩
      · exact ⟨fun _ => rfl, fun _ => rfl⟩
  | peek =>
    simp only [afterCall]
    cases hpk : peek ops sb with
    | error msg => exact ⟨id, id⟩
    | ok p =>
      obtain ⟨v, sb'⟩ := p
      obtain ⟨h1, h2, _⟩ := peek_ok_members ops sb sb' v hpk
      simp only [h1, h2]
      exact ⟨id, id⟩
  | next =>
    simp only [afterCall]
    cases hnx : next ops sb with
    | error msg => exact ⟨id, id⟩
    | ok p =>
      obtain ⟨v, sb'⟩ := p
      obtain ⟨h1, h2⟩ := next_ok_members ops sb sb' v hnx
      simp only [h1, h2]
      exact ⟨id, id⟩

theorem afterCalls_members (ops : StreamOps V H S) (f : Filters) :
    ∀ (calls : List (Call V)) (sb : SortBuffer V H S),
      (sb.tmpfile.isSome = true → (calls.foldl (afterCall ops f) sb).tmpfile.isSome = true) ∧
      (sb.stream.isSome = true → (calls.foldl (afterCall ops f) sb).stream.isSome = true)
  | [], _ => ⟨id, id⟩
  | call :: rest, sb => by
    obtain ⟨h1, h2⟩ := afterCall_members ops f sb call
    obtain ⟨h3, h4⟩ := afterCalls_members ops f rest (afterCall ops f sb call)
    exact ⟨fun h => h3 (h1 h), fun h => h4 (h2 h)⟩

end SortBuffer

namespace SortBuffer

variable {V H S : Type}

/-- C11: spill is terminal. In every state reached from the result of one
successful `writeTmp()` by any sequence of calls (`push_back`, `sort`,
`writeTmp`, `peek`, `next`, returning or throwing), a call of `writeTmp()`
fails with the error "Attempt to re-serialize sort buffer" and leaves every
member of the buffer (spill stream, in-memory deque, temporary file) as it
was. -/
theorem writeTmp_again_fails (ops : StreamOps V H S) (f : Filters)
    (sb0 sb1 : SortBuffer V H S) (calls : List (Call V))
    (h : writeTmp ops f sb0 = .ok sb1) :
    writeTmp ops f (calls.foldl (afterCall ops f) sb1) =
      .error "Attempt to re-serialize sort buffer" ∧
    writeTmpState ops f (calls.foldl (afterCall ops f) sb1) =
      (.error "Attempt to re-serialize sort buffer", calls.foldl (afterCall ops f) sb1) := by
  have htmp := (afterCalls_members ops f calls sb1).1 (writeTmp_ok_members ops f sb0 sb1 h).1
  constructor
  · simp only [writeTmp, htmp, if_true]
  · simp only [writeTmpState, htmp, if_true]

/-- C12 (amended): `empty()` is true exactly when the in-memory buffer holds no
record and no spill stream is open. While no spill stream is open this is the
case exactly when no record remains to be delivered (`next()` returns false
and changes nothing). In every state reached from the result of a successful
`writeTmp()` by any sequence of calls, `empty()` is false, whether or not the
spill stream has data left. -/
theorem empty_iff_unspilled_without_records (ops : StreamOps V H S) (f : Filters)
    (sb sb0 sb1 : SortBuffer V H S) (calls : List (Call V))
    (h : writeTmp ops f sb0 = .ok sb1) :
    (empty sb = true ↔ sb.buf = [] ∧ sb.stream = none) ∧
    (sb.stream = none → (empty sb = true ↔ next ops sb = .ok (none, sb))) ∧
    empty (calls.foldl (afterCall ops f) sb1) = false := by
  refine ⟨?_, ?_, ?_⟩
  · simp [empty, List.isEmpty_iff, Option.isNone_iff_eq_none]
  · intro hs
    obtain ⟨header, stable, compression, buf, tmpfile, stream⟩ := sb
    simp only at hs
    subst hs
    cases buf with
    | nil => simp [empty, next]
    | cons v rest => simp [empty, next]
  · have hst := (afterCalls_members ops f calls sb1).2 (writeTmp_ok_members ops f sb0 sb1 h).2.1
    cases hs : (calls.foldl (afterCall ops f) sb1).stream with
    | none => rw [hs] at hst; exact Bool.noConfusion hst
    | some s => simp [empty, hs]

end SortBuffer

namespace Vcf

/-- Instance of C11: the spilled gzip buffer of `exampleRecord` after `next`,
a failed `writeTmp`, `push_back`, `sort` and `peek`. -/
theorem writeTmp_again_fails_witness :
    SortBuffer.writeTmp (entryOps specConv exampleHeaderConv) exampleFilters
      (exampleBuffer .GZIP [exampleRecord]) = .ok (spilledExample .GZIP [exampleRecord]) ∧
    (SortBuffer.writeTmp (entryOps specConv exampleHeaderConv) exampleFilters
      ([SortBuffer.Call.next, .writeTmp, .push_back exampleRecord, .sort, .peek].foldl
        (SortBuffer.afterCall (entryOps specConv exampleHeaderConv) exampleFilters)
        (spilledExample .GZIP [exampleRecord])) =
      .error "Attempt to re-serialize sort buffer" ∧
    SortBuffer.writeTmpState (entryOps specConv exampleHeaderConv) exampleFilters
      ([SortBuffer.Call.next, .writeTmp, .push_back exampleRecord, .sort, .peek].foldl
        (SortBuffer.afterCall (entryOps specConv exampleHeaderConv) exampleFilters)
        (spilledExample .GZIP [exampleRecord])) =
      (.error "Attempt to re-serialize sort buffer",
        [SortBuffer.Call.next, .writeTmp, .push_back exampleRecord, .sort, .peek].foldl
          (SortBuffer.afterCall (entryOps specConv exampleHeaderConv) exampleFilters)
          (spilledExample .GZIP [exampleRecord]))) :=
  ⟨rfl, SortBuffer.writeTmp_again_fails (entryOps specConv exampleHeaderConv) exampleFilters
    (exampleBuffer .GZIP [exampleRecord]) (spilledExample .GZIP [exampleRecord])
    [SortBuffer.Call.next, .writeTmp, .push_back exampleRecord, .sort, .peek] rfl⟩

/-- C12 (as stated, refuted): the buffer of `exampleRecord` is spilled and
drained to the end of the spill stream: `next()` then returns false and
`eof()` is true, so no record remains to be delivered, but `empty()` is
false. -/
theorem empty_false_after_drained_spill :
    ∃ out drained,
      SortBuffer.writeTmp (entryOps specConv exampleHeaderConv) exampleFilters
        (exampleBuffer .NONE [exampleRecord]) = .ok (spilledExample .NONE [exampleRecord]) ∧
      SortBuffer.drain (entryOps specConv exampleHeaderConv) 2
        (spilledExample .NONE [exampleRecord]) = .ok (some (out, drained)) ∧
      out = [exampleRecord] ∧
      SortBuffer.next (entryOps specConv exampleHeaderConv) drained = .ok (none, drained) ∧
      SortBuffer.eof (entryOps specConv exampleHeaderConv) drained = true ∧
      drained.buf = [] ∧
      SortBuffer.empty drained = false :=
  ⟨_, _, rfl, rfl, by decide, rfl, rfl, rfl, rfl⟩

/-- Instance of the amended C12: an unspilled buffer with one record, and the
spilled buffer of `exampleRecord` after two calls of `next`. -/
theorem empty_iff_unspilled_without_records_witness :
    SortBuffer.writeTmp (entryOps specConv exampleHeaderConv) exampleFilters
      (exampleBuffer .NONE [exampleRecord]) = .ok (spilledExample .NONE [exampleRecord]) ∧
    ((SortBuffer.empty (exampleBuffer .BZIP2 [exampleRecord]) = true ↔
        (exampleBuffer .BZIP2 [exampleRecord]).buf = [] ∧
        (exampleBuffer .BZIP2 [exampleRecord]).stream = none) ∧
      ((exampleBuffer .BZIP2 [exampleRecord]).stream = none →
        (SortBuffer.empty (exampleBuffer .BZIP2 [exampleRecord]) = true ↔
          SortBuffer.next (entryOps specConv exampleHeaderConv)
            (exampleBuffer .BZIP2 [exampleRecord]) =
            .ok (none, exampleBuffer .BZIP2 [exampleRecord]))) ∧
      SortBuffer.empty ([SortBuffer.Call.next, .next].foldl
        (SortBuffer.afterCall (entryOps specConv exampleHeaderConv) exampleFilters)
        (spilledExample .NONE [exampleRecord])) = false) :=
  ⟨rfl, SortBuffer.empty_iff_unspilled_without_records
    (entryOps specConv exampleHeaderConv) exampleFilters (exampleBuffer .BZIP2 [exampleRecord])
    (exampleBuffer .NONE [exampleRecord]) (spilledExample .NONE [exampleRecord])
    [SortBuffer.Call.next, .next] rfl⟩

end Vcf

/-! ### `Entry::removeLowDepthGenotypes` -/

namespace Vcf

theorem findIndex_none_iff (key : Str) : ∀ l : List Str, findIndex key l = none ↔ key ∉ l
  | [] => by simp [findIndex]
  | x :: rest => by
    have ih := findIndex_none_iff key rest
    simp only [findIndex, List.mem_cons, not_or]
    split_ifs with h
    · subst h; simp
    · simp only [Option.map_eq_none', ih]
      exact ⟨fun hr => ⟨fun hk => h hk.symm, hr⟩, fun hr => hr.2⟩

theorem lowDepthValue_eq_spec (t k : Nat) (sample : List CustomValue) (v : CustomValue)
    (h : sample.get? k = some v) :
    (if lowDepthValue t v then [] else sample) = specDropLowDepth t k sample := by
  obtain ⟨type, values⟩ := v
  unfold specDropLowDepth lowDepthValue CustomValue.empty CustomValue.getInt
  rw [h]
  cases values with
  | nil => simp
  | cons x rest => cases x <;> simp

theorem removeLowDepthLoop_eq_map (t k : Nat) :
    ∀ samples : List (List CustomValue), (∀ s ∈ samples, s = [] ∨ k < s.length) →
      removeLowDepthLoop t k samples = .ok (samples.map (specDropLowDepth t k))
  | [], _ => rfl
  | sample :: rest, h => by
    have ih := removeLowDepthLoop_eq_map t k rest (fun s hs => h s (List.mem_cons_of_mem _ hs))
    rcases h sample (List.mem_cons_self _ _) with hs | hs
    · subst hs
      simp [removeLowDepthLoop, ih, specDropLowDepth]
    · have hne : sample.isEmpty = false := by
        cases sample with
        | nil => simp at hs
        | cons _ _ => rfl
      obtain ⟨v, hv⟩ : ∃ v, sample.get? k = some v := ⟨_, List.get?_eq_get hs⟩
      simp only [removeLowDepthLoop, hne, Bool.false_eq_true, if_false, hv, ih, List.map_cons,
        lowDepthValue_eq_spec t k sample v hv]

/-- C13: `removeLowDepthGenotypes(t)` does not clear exactly the right
samples on every record. The line with the format "GT:DP" and the sample
columns "0/1:15" and "0/1" is parsed into a record with two samples that hold
data, of two values and of one value. For the threshold 10 the claim asks for
the record with the first sample as it is and the second sample, which has no
depth value, cleared; `removeLowDepthGenotypes(10)` evaluates `(*i)[1]` on
the second sample, a read beyond its size (the error result of the
embedding), and gives no record. On the records in which every sample with
data has a value at the position of "DP" the call does what the claim says:
each sample is cleared when its depth value is empty, is not an integer or is
below `t` and stays otherwise, and nothing else changes; without "DP" in the
format description the record stays as it is. -/
theorem removeLowDepthGenotypes_fails_on_short_sample :
    (∃ e, Entry.ofLine specConv (some exampleHeader)
        "chr1\t100\t.\tA\tG\t.\tPASS\t.\tGT:DP\t0/1:15\t0/1".toList = .ok e ∧
      e.formatDescription = ["GT".toList, "DP".toList] ∧
      findIndex "DP".toList e.formatDescription = some 1 ∧
      e.genotypeData.map List.length = [2, 1] ∧
      (e.genotypeData.map (specDropLowDepth 10 1)).map List.length = [2, 0] ∧
      e.removeLowDepthGenotypes 10 = .error "read beyond the end of the sample data" ∧
      (∀ r, e.removeLowDepthGenotypes 10 ≠ .ok r)) ∧
    (∀ (t k : Nat) (e : Entry), findIndex "DP".toList e.formatDescription = some k →
      (∀ s ∈ e.genotypeData, s = [] ∨ k < s.length) →
      e.removeLowDepthGenotypes t =
        .ok { e with genotypeData := e.genotypeData.map (specDropLowDepth t k) }) ∧
    (∀ (t : Nat) (e : Entry), "DP".toList ∉ e.formatDescription →
      e.removeLowDepthGenotypes t = .ok e) ∧
    (depthRecord 5).removeLowDepthGenotypes 10 =
      .ok { depthRecord 5 with genotypeData := [[]] } ∧
    (depthRecord 15).removeLowDepthGenotypes 10 = .ok (depthRecord 15) := by
  refine ⟨⟨_, rfl, by decide, by decide, by decide, by decide, by decide, ?_⟩, ?_, ?_,
    by decide, by decide⟩
  · intro r hr
    rw [show Entry.removeLowDepthGenotypes 10 _ =
      .error "read beyond the end of the sample data" from by decide] at hr
    cases hr
  · intro t k e hk hdata
    simp only [Entry.removeLowDepthGenotypes, hk, removeLowDepthLoop_eq_map t k _ hdata]
  · intro t e h0
    simp only [Entry.removeLowDepthGenotypes, (findIndex_none_iff _ _).mpr h0]

/-- C14: the line with format "GT:DP" and the sample column "0/1" is parsed
into a record whose sample has one value, while "DP" is at position 1 of the
format description. `removeLowDepthGenotypes(10)` then evaluates `(*i)[1]` on
that sample, a read beyond its size (the error result of the embedding),
where `Entry::genotypeData(0, "DP")` checks the offset against the size and
returns null. -/
theorem removeLowDepthGenotypes_reads_past_short_sample :
    ∃ e, Entry.ofLine specConv (some exampleHeader)
        "chr1\t100\t.\tA\tG\t.\tPASS\t.\tGT:DP\t0/1".toList = .ok e ∧
      e.formatDescription = ["GT".toList, "DP".toList] ∧
      e.genotypeData.map List.length = [1] ∧
      findIndex "DP".toList e.formatDescription = some 1 ∧
      e.removeLowDepthGenotypes 10 = .error "read beyond the end of the sample data" ∧
      e.genotypeDataAt 0 "DP".toList = none :=
  ⟨_, rfl, by decide, by decide, by decide, by decide, by decide⟩

end Vcf

/-! ### Columns of a parsed line -/

namespace Vcf

/-- What a successful `parse` has read: the line has at least eight columns,
and the plain members of the record are the columns as the helpers read
them. -/
theorem parse_ok_columns (c : TextConv) (e : Entry) (h : Option Header) (s : Str) (e' : Entry)
    (hp : Entry.parse c e h s = .ok e') :
    ∃ chrom posTxt ids ref alt qualstr filt info rest pos qual,
      s.splitOn '\t' = chrom :: posTxt :: ids :: ref :: alt :: qualstr :: filt :: info :: rest ∧
      parsePos posTxt = some pos ∧
      (if qualstr = ['.'] then some MISSING_QUALITY else c.readDouble qualstr) = some qual ∧
      parseInfo c h (extractList info listDelim) [] = .ok e'.info ∧
      e'.header = h ∧ e'.chrom = chrom ∧ e'.pos = pos ∧
      e'.identifiers = extractList ids listDelim ∧ e'.ref = ref ∧
      e'.alt = extractList alt ',' ∧ e'.qual = qual ∧
      e'.failedFilters =
        (if (extractList filt listDelim).length = 1 ∧
            (extractList filt listDelim).head? = some "PASS".toList then []
          else extractList filt listDelim) := by
  unfold Entry.parse at hp
  simp only [Tokenizer.new, Tokenizer.extract, Tokenizer.extractPos] at hp
  generalize hl : s.splitOn '\t' = l at hp
  rcases l with _ | ⟨chrom, _ | ⟨posTxt, l⟩⟩
  · simp at hp
  · simp at hp
  · simp only [] at hp
    cases hpos : parsePos posTxt with
    | none => simp [hpos] at hp
    | some pos =>
      simp only [hpos, Option.map_some'] at hp
      rcases l with _ | ⟨ids, _ | ⟨ref, _ | ⟨alt, _ | ⟨qualstr, l⟩⟩⟩⟩
      · simp at hp
      · simp at hp
      · simp at hp
      · simp at hp
      · simp only [] at hp
        cases hq : (if qualstr = ['.'] then some MISSING_QUALITY else c.readDouble qualstr) with
        | none => simp [hq] at hp
        | some qual =>
          simp only [hq] at hp
          rcases l with _ | ⟨filt, _ | ⟨info, rest⟩⟩
          · simp at hp
          · simp at hp
          · simp only [] at hp
            cases hi : parseInfo c h (extractList info listDelim) [] with
            | error msg => simp [hi] at hp
            | ok infoMap =>
              simp only [hi] at hp
              refine ⟨chrom, posTxt, ids, ref, alt, qualstr, filt, info, rest, pos, qual, rfl,
                hpos, hq, ?_⟩
              cases rest with
              | nil =>
                simp only [] at hp
                obtain ⟨e2, he2, _, heq⟩ := setPositions_total _
                rw [he2] at hp
                injection hp with hp
                subst hp
                rw [heq]
                exact ⟨hi, rfl, rfl, rfl, rfl, rfl, rfl, rfl, rfl⟩
              | cons fmt samples =>
                simp only [] at hp
                split at hp
                · exact Except.noConfusion hp
                · split at hp
                  · exact Except.noConfusion hp
                  · obtain ⟨e2, he2, _, heq⟩ := setPositions_total _
                    rw [he2] at hp
                    injection hp with hp
                    subst hp
                    rw [heq]
                    exact ⟨hi, rfl, rfl, rfl, rfl, rfl, rfl, rfl, rfl⟩

end Vcf

/-! ### Quality and filter columns -/

namespace Vcf

/-- C16: the line with quality text "0" is parsed into a record of quality 0,
which is not the sentinel `MISSING_QUALITY`, and `operator<<` writes "." in
its quality column, because it tests `qual <= MISSING_QUALITY`; the same
happens with the quality text "-5". The written line is the one of the
record with quality text ".", so reading it back gives the sentinel. -/
theorem zero_quality_written_as_missing :
    ∃ r0 r5 rm,
      Entry.ofLine specConv (some exampleHeader) "chr1\t100\t.\tA\tG\t0\tPASS\t.".toList = .ok r0 ∧
      Entry.ofLine specConv (some exampleHeader) "chr1\t100\t.\tA\tG\t-5\tPASS\t.".toList = .ok r5 ∧
      Entry.ofLine specConv (some exampleHeader) "chr1\t100\t.\tA\tG\t.\tPASS\t.".toList = .ok rm ∧
      r0.qual = 0 ∧ r5.qual = -5 ∧ rm.qual = MISSING_QUALITY ∧
      r0.qual ≠ MISSING_QUALITY ∧ r5.qual ≠ MISSING_QUALITY ∧
      (r0.fields specConv).get? 5 = some ['.'] ∧
      (r5.fields specConv).get? 5 = some ['.'] ∧
      r0.toString specConv = "chr1\t100\t.\tA\tG\t.\tPASS\t.\t.".toList ∧
      r5.toString specConv = "chr1\t100\t.\tA\tG\t.\tPASS\t.\t.".toList ∧
      r0.toString specConv = rm.toString specConv :=
  ⟨_, _, _, rfl, rfl, rfl, by decide, by decide, by decide, by decide, by decide,
    by decide, by decide, by decide, by decide, by decide⟩

/-- C17: after a successful `parse` the failed filters are read from the
seventh column: when its token list is the single token "PASS" the list is
empty, and otherwise it is the token list itself, in order and with
duplicates. In terms of the text: the column "PASS" gives the empty list, and
a column other than "PASS" and "." gives its pieces between the ';' signs. -/
theorem parse_failedFilters (c : TextConv) (e : Entry) (h : Option Header) (s : Str)
    (e' : Entry) (hp : Entry.parse c e h s = .ok e') :
    ∃ filt, (s.splitOn '\t').get? 6 = some filt ∧
      (extractList filt listDelim = ["PASS".toList] → e'.failedFilters = []) ∧
      (extractList filt listDelim ≠ ["PASS".toList] →
        e'.failedFilters = extractList filt listDelim) ∧
      (filt = "PASS".toList → e'.failedFilters = []) ∧
      (filt ≠ "PASS".toList → filt ≠ ['.'] → e'.failedFilters = filt.splitOn ';') := by
  obtain ⟨chrom, posTxt, ids, ref, alt, qualstr, filt, info, rest, pos, qual, hs, -, -, -,
    -, -, -, -, -, -, -, hff⟩ := parse_ok_columns c e h s e' hp
  have hone : ∀ l : List Str, (l.length = 1 ∧ l.head? = some "PASS".toList) ↔
      l = ["PASS".toList] := by
    intro l
    constructor
    · rintro ⟨hl, hh⟩
      match l, hl, hh with
      | [x], _, hh =>
        simp only [List.head?_cons, Option.some.injEq] at hh
        rw [hh]
    · intro hl
      subst hl
      exact ⟨rfl, rfl⟩
  have hyes : extractList filt listDelim = ["PASS".toList] → e'.failedFilters = [] := by
    intro hx
    rw [hff, if_pos ((hone _).mpr hx)]
  have hno : extractList filt listDelim ≠ ["PASS".toList] →
      e'.failedFilters = extractList filt listDelim := by
    intro hx
    rw [hff, if_neg (fun hc => hx ((hone _).mp hc))]
  refine ⟨filt, by rw [hs]; rfl, hyes, hno, ?_, ?_⟩
  · intro hf
    apply hyes
    subst hf
    decide
  · intro hf hdot
    have hex : extractList filt listDelim = filt.splitOn ';' := by
      simp [extractList, hdot, Tokenizer.new, listDelim]
    rw [← hex]
    apply hno
    intro hx
    rw [hex] at hx
    apply hf
    have := List.intercalate_splitOn filt ';'
    rw [hx] at this
    rw [← this]
    decide

theorem parse_failedFilters_witness :
    ∃ r, Entry.parse specConv Entry.new (some exampleHeader)
        "chr1\t100\t.\tA\tG\t.\tq10;PASS;q10\t.".toList = .ok r ∧
      r.failedFilters = ["q10".toList, "PASS".toList, "q10".toList] ∧
      ∃ filt, ("chr1\t100\t.\tA\tG\t.\tq10;PASS;q10\t.".toList.splitOn '\t').get? 6 = some filt ∧
        (extractList filt listDelim = ["PASS".toList] → r.failedFilters = []) ∧
        (extractList filt listDelim ≠ ["PASS".toList] →
          r.failedFilters = extractList filt listDelim) ∧
        (filt = "PASS".toList → r.failedFilters = []) ∧
        (filt ≠ "PASS".toList → filt ≠ ['.'] → r.failedFilters = filt.splitOn ';') :=
  ⟨_, rfl, by decide,
    parse_failedFilters specConv Entry.new (some exampleHeader)
      "chr1\t100\t.\tA\tG\t.\tq10;PASS;q10\t.".toList _ rfl⟩

end Vcf

/-! ### The info column -/

namespace Vcf

theorem parseInfo_cons (c : TextConv) (h : Option Header) (i : Str) (rest : List Str)
    (info : List (Str × CustomValue)) (hi : i.isEmpty = false) :
    parseInfo c h (i :: rest) info =
      match h with
      | none => .error "Attempted to use Vcf Entry with no header!"
      | some hd =>
        match hd.infoType (infoKey i) with
        | none => .error "Failed to lookup type for info field"
        | some type =>
          match c.valueOfText (some type) (infoKeyValue i).2 with
          | .error msg => .error msg
          | .ok v =>
            match mapInsert (infoKey i) v info with
            | none => .error "Duplicate value for info field"
            | some info' => parseInfo c h rest info' := by
  simp only [parseInfo, hi, Bool.false_eq_true, if_false]
  rfl

theorem parseInfo_order (c : TextConv) (h : Option Header) :
    ∀ (toks : List Str) (info info' : List (Str × CustomValue)),
      parseInfo c h toks info = .ok info' →
      ∃ items, info' = info ++ items ∧
        List.Forall₂ (InfoItemOf c h) (toks.filter (fun i => !i.isEmpty)) items
  | [], info, info', hp => by
    simp only [parseInfo, Except.ok.injEq] at hp
    subst hp
    exact ⟨[], by simp, by simp⟩
  | i :: rest, info, info', hp => by
    cases hi : i.isEmpty with
    | true =>
      simp only [parseInfo, hi, if_true] at hp
      obtain ⟨items, h1, h2⟩ := parseInfo_order c h rest info info' hp
      exact ⟨items, h1, by simpa [List.filter, hi] using h2⟩
    | false =>
      rw [parseInfo_cons c h i rest info hi] at hp
      cases h with
      | none => simp at hp
      | some hd =>
        simp only [] at hp
        cases ht : hd.infoType (infoKey i) with
        | none => simp [ht] at hp
        | some type =>
          simp only [ht] at hp
          cases hv : c.valueOfText (some type) (infoKeyValue i).2 with
          | error msg => simp [hv] at hp
          | ok v =>
            simp only [hv] at hp
            cases hm : mapInsert (infoKey i) v info with
            | none => simp [hm] at hp
            | some info2 =>
              simp only [hm] at hp
              obtain ⟨hinfo2, -⟩ := mapInsert_some (infoKey i) v info info2 hm
              obtain ⟨items, h1, h2⟩ := parseInfo_order c (some hd) rest info2 info' hp
              refine ⟨(infoKey i, v) :: items, ?_, ?_⟩
              · rw [h1, hinfo2, List.append_assoc, List.singleton_append]
              · simp only [List.filter, hi, Bool.not_false]
                exact List.Forall₂.cons ⟨rfl, hd, type, rfl, ht, hv⟩ h2

theorem forall₂_infoItem_keys (c : TextConv) (h : Option Header) :
    ∀ (toks : List Str) (items : List (Str × CustomValue)),
      List.Forall₂ (InfoItemOf c h) toks items → items.map Prod.fst = toks.map infoKey
  | _, _, .nil => rfl
  | _, _, .cons hx hrest => by
    rw [List.map_cons, List.map_cons, hx.1, forall₂_infoItem_keys c h _ _ hrest]

theorem forall₂_infoItem_ids (c : TextConv) (h : Option Header)
    (hc : ∀ t s v, c.valueOfText (some t) s = .ok v → v.type = t)
    (hh : ∀ hd key t, h = some hd → hd.infoType key = some t → t.id = key) :
    ∀ (toks : List Str) (items : List (Str × CustomValue)),
      List.Forall₂ (InfoItemOf c h) toks items →
      items.map (fun kv => kv.2.type.id) = toks.map infoKey
  | _, _, .nil => rfl
  | _, _, .cons hx hrest => by
    obtain ⟨-, hd, type, h1, h2, h3⟩ := hx
    rw [List.map_cons, List.map_cons, forall₂_infoItem_ids c h hc hh _ _ hrest, hc _ _ _ h3,
      hh hd _ type h1 h2]

/-- C15: serialization keeps the order of the info fields of the line. After
a successful `parse` the info map holds one entry per non-empty token of the
eighth column, in the order of the tokens: the entry of a token has the key
of the token and the value that its text gives with the type declared for
the key. `operator<<` writes the info column as the items of these entries in
that order, each the id of the type of the value and, when the value has a
text, "=" and the text; so the ids are written in the order of the keys of
the line when a value carries the type it was built with and the header
declares each type under its id. The line with info "DP=3;AF=0.5" is written
with the info column "DP=3;AF=0.5". -/
theorem info_written_in_line_order (c : TextConv) (e : Entry) (h : Option Header) (s : Str)
    (e' : Entry) (hp : Entry.parse c e h s = .ok e') :
    (∃ info, (s.splitOn '\t').get? 7 = some info ∧
      List.Forall₂ (InfoItemOf c h)
        ((extractList info listDelim).filter (fun i => !i.isEmpty)) e'.info ∧
      e'.info.map Prod.fst =
        ((extractList info listDelim).filter (fun i => !i.isEmpty)).map infoKey ∧
      ((∀ t s v, c.valueOfText (some t) s = .ok v → v.type = t) →
        (∀ hd key t, h = some hd → hd.infoType key = some t → t.id = key) →
        e'.info.map (fun kv => kv.2.type.id) =
          ((extractList info listDelim).filter (fun i => !i.isEmpty)).map infoKey)) ∧
    (e'.fields c).get? 7 =
      some (if e'.info.isEmpty then ['.']
        else [';'].intercalate (e'.info.map (showInfoItem c))) ∧
    e'.toString c = ['\t'].intercalate (e'.fields c) ∧
    (∃ r, Entry.ofLine specConv (some exampleHeader)
        "chr1\t100\t.\tA\tG\t.\tPASS\tDP=3;AF=0.5".toList = .ok r ∧
      r.info.map Prod.fst = ["DP".toList, "AF".toList] ∧
      (r.fields specConv).get? 7 = some "DP=3;AF=0.5".toList ∧
      r.toString specConv = "chr1\t100\t.\tA\tG\t.\tPASS\tDP=3;AF=0.5\t.".toList) := by
  obtain ⟨chrom, posTxt, ids, ref, alt, qualstr, filt, info, rest, pos, qual, hs, -, -, hinfo,
    -⟩ := parse_ok_columns c e h s e' hp
  obtain ⟨items, hitems, hall⟩ := parseInfo_order c h _ [] e'.info hinfo
  rw [List.nil_append] at hitems
  subst hitems
  refine ⟨⟨info, by rw [hs]; rfl, hall, forall₂_infoItem_keys c h _ _ hall,
    fun hc hh => forall₂_infoItem_ids c h hc hh _ _ hall⟩, rfl, toString_eq_intercalate c e',
    ⟨_, rfl, by decide, by decide, by decide⟩⟩

/-- Instance of C15 for the line with the info column "DP=3;DB;AF=0.5",
parsed into the empty entry. -/
theorem info_written_in_line_order_witness :
    ∃ r, Entry.parse specConv Entry.new (some exampleHeader)
        "chr1\t100\t.\tA\tG\t.\tPASS\tDP=3;DB;AF=0.5".toList = .ok r ∧
      r.info.map Prod.fst = ["DP".toList, "DB".toList, "AF".toList] ∧
      (r.fields specConv).get? 7 = some "DP=3;DB;AF=0.5".toList ∧
      (∃ info, ("chr1\t100\t.\tA\tG\t.\tPASS\tDP=3;DB;AF=0.5".toList.splitOn '\t').get? 7 =
          some info ∧
        List.Forall₂ (InfoItemOf specConv (some exampleHeader))
          ((extractList info listDelim).filter (fun i => !i.isEmpty)) r.info ∧
        r.info.map Prod.fst =
          ((extractList info listDelim).filter (fun i => !i.isEmpty)).map infoKey ∧
        ((∀ t s v, specConv.valueOfText (some t) s = .ok v → v.type = t) →
          (∀ hd key t, some exampleHeader = some hd → hd.infoType key = some t → t.id = key) →
          r.info.map (fun kv => kv.2.type.id) =
            ((extractList info listDelim).filter (fun i => !i.isEmpty)).map infoKey)) ∧
      (r.fields specConv).get? 7 =
        some (if r.info.isEmpty then ['.']
          else [';'].intercalate (r.info.map (showInfoItem specConv))) ∧
      r.toString specConv = ['\t'].intercalate (r.fields specConv) ∧
      (∃ r, Entry.ofLine specConv (some exampleHeader)
          "chr1\t100\t.\tA\tG\t.\tPASS\tDP=3;AF=0.5".toList = .ok r ∧
        r.info.map Prod.fst = ["DP".toList, "AF".toList] ∧
        (r.fields specConv).get? 7 = some "DP=3;AF=0.5".toList ∧
        r.toString specConv = "chr1\t100\t.\tA\tG\t.\tPASS\tDP=3;AF=0.5\t.".toList) :=
  ⟨_, rfl, by decide, by decide,
    info_written_in_line_order specConv Entry.new (some exampleHeader)
      "chr1\t100\t.\tA\tG\t.\tPASS\tDP=3;DB;AF=0.5".toList _ rfl⟩

end Vcf

/-! ### Unknown info keys -/

namespace Vcf

theorem infoKey_eq_takeWhile (i : Str) : infoKey i = i.takeWhile (fun ch => ch != '=') := by
  have hp : ∀ x ∈ i.takeWhile (fun ch => ch != '='),
      ¬ ((fun (y : Char) => y == '=') x = true) := by
    intro x hx hxe
    have := List.mem_takeWhile_imp hx
    simp only [bne_iff_ne, ne_eq] at this
    exact this (beq_iff_eq.mp hxe)
  have hsplit : ∃ t, i.splitOn '=' = i.takeWhile (fun ch => ch != '=') :: t := by
    have hdecomp := List.takeWhile_append_dropWhile (fun ch => ch != '=') i
    cases hd : i.dropWhile (fun ch => ch != '=') with
    | nil =>
      rw [hd, List.append_nil] at hdecomp
      refine ⟨[], ?_⟩
      rw [hdecomp]
      simpa [List.splitOn] using List.splitOnP_eq_single (fun (y : Char) => y == '=') i
        (by rw [hdecomp] at hp; exact hp)
    | cons x xs =>
      have hx : x = '=' := by
        have := List.head_dropWhile_not (fun ch => ch != '=') i
          (by rw [hd]; exact List.cons_ne_nil _ _)
        simp only [hd, List.head_cons] at this
        simpa using this
      subst hx
      refine ⟨xs.splitOn '=', ?_⟩
      rw [hd] at hdecomp
      conv_lhs => rw [← hdecomp]
      simpa [List.splitOn] using
        List.splitOnP_first (fun (y : Char) => y == '=') _ hp '=' (by simp) xs
  obtain ⟨t, ht⟩ := hsplit
  simp [infoKey, infoKeyValue, Tokenizer.new, Tokenizer.extract, ht]

theorem parseInfo_unknown_key (c : TextConv) (hd : Header) (token : Str)
    (hne : token ≠ []) (hkey : hd.infoType (infoKey token) = none) :
    ∀ (toks : List Str) (info : List (Str × CustomValue)), token ∈ toks →
      ∃ msg, parseInfo c (some hd) toks info = .error msg
  | [], _, hmem => absurd hmem (List.not_mem_nil _)
  | i :: rest, info, hmem => by
    cases hi : i.isEmpty with
    | true =>
      have hrest : token ∈ rest := by
        rcases List.mem_cons.mp hmem with hx | hx
        · subst hx
          exact absurd (List.isEmpty_iff.mp hi) hne
        · exact hx
      simp only [parseInfo, hi, if_true]
      exact parseInfo_unknown_key c hd token hne hkey rest info hrest
    | false =>
      rw [parseInfo_cons c (some hd) i rest info hi]
      simp only []
      cases ht : hd.infoType (infoKey i) with
      | none => exact ⟨_, rfl⟩
      | some type =>
        simp only []
        cases hv : c.valueOfText (some type) (infoKeyValue i).2 with
        | error msg => exact ⟨_, rfl⟩
        | ok v =>
          simp only []
          cases hm : mapInsert (infoKey i) v info with
          | none => exact ⟨_, rfl⟩
          | some info2 =>
            simp only []
            have hrest : token ∈ rest := by
              rcases List.mem_cons.mp hmem with hx | hx
              · subst hx
                rw [hkey] at ht
                exact Option.noConfusion ht
              · exact hx
            exact parseInfo_unknown_key c hd token hne hkey rest info2 hrest

theorem parseInfo_declared_keys (c : TextConv) (hd : Header)
    (hc : ∀ t v, c.valueOfText t v ≠ .error "Failed to lookup type for info field") :
    ∀ (toks : List Str) (info : List (Str × CustomValue)),
      (∀ token ∈ toks, token ≠ [] → (hd.infoType (infoKey token)).isSome = true) →
      parseInfo c (some hd) toks info ≠ .error "Failed to lookup type for info field"
  | [], _, _ => by simp [parseInfo]
  | i :: rest, info, hall => by
    have hrest : ∀ token ∈ rest, token ≠ [] → (hd.infoType (infoKey token)).isSome = true :=
      fun t ht => hall t (List.mem_cons_of_mem _ ht)
    cases hi : i.isEmpty with
    | true =>
      simp only [parseInfo, hi, if_true]
      exact parseInfo_declared_keys c hd hc rest info hrest
    | false =>
      rw [parseInfo_cons c (some hd) i rest info hi]
      simp only []
      have hsome := hall i (List.mem_cons_self _ _)
        (fun hx => by rw [hx] at hi; exact Bool.noConfusion hi)
      cases ht : hd.infoType (infoKey i) with
      | none => rw [ht] at hsome; exact Bool.noConfusion hsome
      | some type =>
        simp only []
        cases hv : c.valueOfText (some type) (infoKeyValue i).2 with
        | error msg =>
          simp only []
          intro hmsg
          injection hmsg with hmsg
          rw [hmsg] at hv
          exact hc _ _ hv
        | ok v =>
          simp only []
          cases hm : mapInsert (infoKey i) v info with
          | none =>
            simp only []
            intro hmsg
            injection hmsg with hmsg
            exact absurd hmsg (by decide)
          | some info2 =>
            simp only []
            exact parseInfo_declared_keys c hd hc rest info2 hrest

theorem checkFormat_no_lookup_error (h : Option Header) : ∀ fmt : List Str,
    checkFormat h fmt ≠ .error "Failed to lookup type for info field"
  | [] => by simp [checkFormat]
  | i :: rest => by
    have ih := checkFormat_no_lookup_error h rest
    unfold checkFormat
    split_ifs
    · exact ih
    · cases h with
      | none =>
        simp only []
        intro hmsg
        injection hmsg with hmsg
        exact absurd hmsg (by decide)
      | some hd =>
        simp only []
        split_ifs
        · intro hmsg
          injection hmsg with hmsg
          exact absurd hmsg (by decide)
        · exact ih

theorem parseSampleValues_no_lookup_error (c : TextConv) (h : Option Header)
    (hc : ∀ t v, c.valueOfText t v ≠ .error "Failed to lookup type for info field") :
    ∀ (fs ds : List Str),
      parseSampleValues c h fs ds ≠ .error "Failed to lookup type for info field"
  | _, [] => by simp [parseSampleValues]
  | [], _ :: _ => by simp [parseSampleValues]
  | f :: fs, d :: ds => by
    have ih := parseSampleValues_no_lookup_error c h hc fs ds
    unfold parseSampleValues
    cases h with
    | none =>
      simp only []
      intro hmsg
      injection hmsg with hmsg
      exact absurd hmsg (by decide)
    | some hd =>
      simp only []
      cases hv : c.valueOfText (hd.formatType f) d with
      | error msg =>
        simp only []
        intro hmsg
        injection hmsg with hmsg
        rw [hmsg] at hv
        exact hc _ _ hv
      | ok v =>
        simp only []
        cases hr : parseSampleValues c (some hd) fs ds with
        | error msg =>
          simp only []
          intro hmsg
          injection hmsg with hmsg
          rw [hmsg] at hr
          exact ih hr
        | ok vs =>
          simp only []
          intro hmsg
          exact Except.noConfusion hmsg

theorem parseSamples_no_lookup_error (c : TextConv) (h : Option Header) (fmt : List Str)
    (hc : ∀ t v, c.valueOfText t v ≠ .error "Failed to lookup type for info field") :
    ∀ cols : List Str,
      parseSamples c h fmt cols ≠ .error "Failed to lookup type for info field"
  | [] => by simp [parseSamples]
  | tmp :: rest => by
    have ih := parseSamples_no_lookup_error c h fmt hc rest
    unfold parseSamples
    simp only []
    split_ifs
    · intro hmsg
      injection hmsg with hmsg
      exact absurd hmsg (by decide)
    · cases hv : parseSampleValues c h fmt (extractList tmp ':') with
      | error msg =>
        simp only []
        intro hmsg
        injection hmsg with hmsg
        rw [hmsg] at hv
        exact parseSampleValues_no_lookup_error c h hc _ _ hv
      | ok v =>
        simp only []
        cases hr : parseSamples c h fmt rest with
        | error msg =>
          simp only []
          intro hmsg
          injection hmsg with hmsg
          rw [hmsg] at hr
          exact ih hr
        | ok vs =>
          simp only []
          intro hmsg
          exact Except.noConfusion hmsg

end Vcf

namespace Vcf

theorem get7_columns (l : List Str) (x : Str) (h : l.get? 7 = some x) :
    ∃ a b c d e f g rest, l = a :: b :: c :: d :: e :: f :: g :: x :: rest := by
  rcases l with _ | ⟨a, _ | ⟨b, _ | ⟨c, _ | ⟨d, _ | ⟨e, _ | ⟨f, _ | ⟨g, _ | ⟨y, rest⟩⟩⟩⟩⟩⟩⟩⟩
  all_goals simp at h
  exact ⟨a, b, c, d, e, f, g, rest, by rw [h]⟩

theorem setPositions_ne_error (x : Entry) (msg : String) : x.setPositions ≠ .error msg := by
  intro h
  obtain ⟨e2, he2, _⟩ := setPositions_total x
  rw [he2] at h
  exact Except.noConfusion h

theorem parse_error_of_unknown_key (c : TextConv) (e : Entry) (hd : Header)
    (s info token : Str) (hcol : (s.splitOn '\t').get? 7 = some info)
    (hmem : token ∈ extractList info listDelim) (hne : token ≠ [])
    (hkey : hd.infoType (infoKey token) = none) :
    ∃ msg, Entry.parse c e (some hd) s = .error msg := by
  obtain ⟨chrom, posTxt, ids, ref, alt, qualstr, filt, rest, hl⟩ := get7_columns _ _ hcol
  obtain ⟨msg, hmsg⟩ := parseInfo_unknown_key c hd token hne hkey _ [] hmem
  unfold Entry.parse
  simp only [Tokenizer.new, Tokenizer.extract, Tokenizer.extractPos, hl]
  cases hpos : parsePos posTxt with
  | none => exact ⟨_, rfl⟩
  | some pos =>
    simp only [Option.map_some']
    cases hq : (if qualstr = ['.'] then some MISSING_QUALITY else c.readDouble qualstr) with
    | none => exact ⟨_, rfl⟩
    | some qual =>
      simp only [hmsg]
      exact ⟨_, rfl⟩

theorem parse_no_lookup_error (c : TextConv) (e : Entry) (hd : Header) (s : Str)
    (hc : ∀ t v, c.valueOfText t v ≠ .error "Failed to lookup type for info field")
    (hall : ∀ token ∈ extractList ((s.splitOn '\t').getD 7 []) listDelim, token ≠ [] →
      (hd.infoType (infoKey token)).isSome = true) :
    Entry.parse c e (some hd) s ≠ .error "Failed to lookup type for info field" := by
  intro hp
  unfold Entry.parse at hp
  simp only [Tokenizer.new, Tokenizer.extract, Tokenizer.extractPos] at hp
  generalize hl : s.splitOn '\t' = l at hp hall
  rcases l with _ | ⟨chrom, _ | ⟨posTxt, l⟩⟩
  · exact absurd (Except.error.inj hp) (by decide)
  · exact absurd (Except.error.inj hp) (by decide)
  · simp only [] at hp
    cases hpos : parsePos posTxt with
    | none =>
      simp only [hpos, Option.map_none'] at hp
      exact absurd (Except.error.inj hp) (by decide)
    | some pos =>
      simp only [hpos, Option.map_some'] at hp
      rcases l with _ | ⟨ids, _ | ⟨ref, _ | ⟨alt, _ | ⟨qualstr, l⟩⟩⟩⟩
      · exact absurd (Except.error.inj hp) (by decide)
      · exact absurd (Except.error.inj hp) (by decide)
      · exact absurd (Except.error.inj hp) (by decide)
      · exact absurd (Except.error.inj hp) (by decide)
      · simp only [] at hp
        cases hq : (if qualstr = ['.'] then some MISSING_QUALITY else c.readDouble qualstr) with
        | none =>
          simp only [hq] at hp
          exact absurd (Except.error.inj hp) (by decide)
        | some qual =>
          simp only [hq] at hp
          rcases l with _ | ⟨filt, _ | ⟨info, rest⟩⟩
          · exact absurd (Except.error.inj hp) (by decide)
          · exact absurd (Except.error.inj hp) (by decide)
          · simp only [] at hp
            have hinfo := parseInfo_declared_keys c hd hc (extractList info listDelim) []
              (by simpa [List.getD] using hall)
            cases hi : parseInfo c (some hd) (extractList info listDelim) [] with
            | error msg =>
              simp only [hi] at hp
              rw [Except.error.inj hp] at hi
              exact hinfo hi
            | ok infoMap =>
              simp only [hi] at hp
              cases rest with
              | nil =>
                simp only [] at hp
                exact setPositions_ne_error _ _ hp
              | cons fmt samples =>
                simp only [] at hp
                split at hp
                · rename_i msg hcf
                  rw [Except.error.inj hp] at hcf
                  exact checkFormat_no_lookup_error _ _ hcf
                · split at hp
                  · rename_i msg hps
                    rw [Except.error.inj hp] at hps
                    exact parseSamples_no_lookup_error c _ _ hc _ hps
                  · rename_i gd hps
                    exact setPositions_ne_error _ _ hp

theorem specConv_no_lookup_error (t : Option CustomType) (v : Str) :
    specConv.valueOfText t v ≠ .error "Failed to lookup type for info field" := by
  intro h
  simp only [specConv] at h
  split at h
  · exact absurd (Except.error.inj h) (by decide)
  · split_ifs at h
    split at h
    · exact absurd (Except.error.inj h) (by decide)
    · exact Except.noConfusion h

/-- C18: a line with at least eight columns whose info column holds a
non-empty token with a key (the text before the first '=') that has no info
type in the header is not parsed: `parse` ends with an error and gives no
record. A line in which every non-empty token of the info column (the eighth
column, when there is one) has a key with an info type in the header does not
end with the error of the failed lookup, for value conversions that do not
raise that message themselves. -/
theorem parse_unknown_info_key (c : TextConv) (e : Entry) (hd : Header)
    (s1 info1 token s2 : Str)
    (hcol : (s1.splitOn '\t').get? 7 = some info1)
    (hmem : token ∈ extractList info1 listDelim) (hne : token ≠ [])
    (hkey : hd.infoType (infoKey token) = none)
    (hc : ∀ t v, c.valueOfText t v ≠ .error "Failed to lookup type for info field")
    (hall : ∀ token ∈ extractList ((s2.splitOn '\t').getD 7 []) listDelim, token ≠ [] →
      (hd.infoType (infoKey token)).isSome = true) :
    (∃ msg, Entry.parse c e (some hd) s1 = .error msg) ∧
    (∀ r, Entry.parse c e (some hd) s1 ≠ .ok r) ∧
    Entry.parse c e (some hd) s2 ≠ .error "Failed to lookup type for info field" ∧
    infoKey token = token.takeWhile (fun ch => ch != '=') := by
  obtain ⟨msg, hmsg⟩ := parse_error_of_unknown_key c e hd s1 info1 token hcol hmem hne hkey
  refine ⟨⟨msg, hmsg⟩, ?_, parse_no_lookup_error c e hd s2 hc hall, infoKey_eq_takeWhile token⟩
  intro r hr
  rw [hmsg] at hr
  exact Except.noConfusion hr

theorem parse_unknown_info_key_witness :
    ("chr1\t100\t.\tA\tG\t.\tPASS\tDP=3;XX=1".toList.splitOn '\t').get? 7 =
        some "DP=3;XX=1".toList ∧
    "XX=1".toList ∈ extractList "DP=3;XX=1".toList listDelim ∧
    exampleHeader.infoType (infoKey "XX=1".toList) = none ∧
    Entry.parse specConv Entry.new (some exampleHeader)
        "chr1\t100\t.\tA\tG\t.\tPASS\tDP=3;XX=1".toList =
      .error "Failed to lookup type for info field" ∧
    (∃ r, Entry.parse specConv Entry.new (some exampleHeader)
        "chr1\t100\t.\tA\tG\t.\tPASS\tDP=3;AF=0.5".toList = .ok r) ∧
    ((∃ msg, Entry.parse specConv Entry.new (some exampleHeader)
        "chr1\t100\t.\tA\tG\t.\tPASS\tDP=3;XX=1".toList = .error msg) ∧
      (∀ r, Entry.parse specConv Entry.new (some exampleHeader)
        "chr1\t100\t.\tA\tG\t.\tPASS\tDP=3;XX=1".toList ≠ .ok r) ∧
      Entry.parse specConv Entry.new (some exampleHeader)
          "chr1\t100\t.\tA\tG\t.\tPASS\tDP=3;AF=0.5".toList ≠
        .error "Failed to lookup type for info field" ∧
      infoKey "XX=1".toList = "XX=1".toList.takeWhile (fun ch => ch != '=')) :=
  ⟨by decide, by decide, by decide, by decide, ⟨_, rfl⟩,
    parse_unknown_info_key specConv Entry.new exampleHeader
      "chr1\t100\t.\tA\tG\t.\tPASS\tDP=3;XX=1".toList "DP=3;XX=1".toList "XX=1".toList
      "chr1\t100\t.\tA\tG\t.\tPASS\tDP=3;AF=0.5".toList
      (by decide) (by decide) (by decide) (by decide) specConv_no_lookup_error (by decide)⟩

end Vcf

/-! ### `strverscmp` is a total order -/

namespace Vcf

theorem char_eq_of_toNat_eq {a b : Char} (h : a.toNat = b.toNat) : a = b :=
  Char.ext (UInt32.toNat.inj h)

theorem symClass_cases (c : Char) :
    (c.toNat < 48 ∧ symClass c = 0 ∧ isdigit c = false ∧ c ≠ '0') ∨
    (c.toNat = 48 ∧ symClass c = 2 ∧ isdigit c = true ∧ c = '0') ∨
    (49 ≤ c.toNat ∧ c.toNat ≤ 57 ∧ symClass c = 1 ∧ isdigit c = true ∧ c ≠ '0') ∨
    (57 < c.toNat ∧ symClass c = 0 ∧ isdigit c = false ∧ c ≠ '0') := by
  have h0 : c = '0' ↔ c.toNat = 48 :=
    ⟨fun h => by rw [h]; rfl, fun h => char_eq_of_toNat_eq (by rw [h]; rfl)⟩
  by_cases h48 : c.toNat = 48
  · right; left
    have hc := h0.mpr h48
    subst hc
    exact ⟨rfl, rfl, rfl, rfl⟩
  · have hne : c ≠ '0' := fun h => h48 (h0.mp h)
    by_cases h1 : c.toNat < 48
    · left
      refine ⟨h1, ?_, ?_, hne⟩
      · simp only [symClass, isdigit, hne, if_false]
        simp
        omega
      · simp only [isdigit]
        simp
        omega
    · by_cases h2 : c.toNat ≤ 57
      · right; right; left
        refine ⟨by omega, h2, ?_, ?_, hne⟩
        · simp only [symClass, isdigit, hne, if_false]
          simp
          omega
        · simp only [isdigit]
          simp
          omega
      · right; right; right
        refine ⟨by omega, ?_, ?_, hne⟩
        · simp only [symClass, isdigit, hne, if_false]
          simp
          omega
        · simp only [isdigit]
          simp
          omega


theorem lenLoop_eq (diff : Int) : ∀ p1 p2 : Str,
    lenLoop diff p1 p2 =
      if runLen p1 < runLen p2 then -1 else if runLen p2 < runLen p1 then 1 else diff
  | [], [] => by simp [lenLoop, runLen, peekChar, isdigit]
  | [], c2 :: p2 => by
    simp only [lenLoop, runLen, peekChar, List.headD_cons]
    split_ifs <;> first | rfl | omega
  | c1 :: p1, [] => by
    simp only [lenLoop, runLen, peekChar, List.headD_nil]
    have : isdigit '\x00' = false := rfl
    simp only [this, Bool.false_eq_true, if_false]
    split_ifs <;> first | rfl | omega
  | c1 :: p1, c2 :: p2 => by
    have ih := lenLoop_eq diff p1 p2
    simp only [lenLoop, runLen, peekChar, List.headD_cons, List.tail_cons, ih]
    split_ifs <;> first | rfl | omega

theorem result_type_rows :
    result_type = [2, 2, 2, 2, 3, 2, 2, 2, 2, 2, -1, -1, 1, 3, 3, 1, 3, 3,
      2, 2, 2, 2, 2, 2, 2, 2, 2, 2, 1, 1, -1, 2, 2, -1, 2, 2] := rfl

theorem sgn_neg_one : sgn (-1) = -1 := rfl

theorem sgn_one : sgn 1 = 1 := rfl

theorem sgn_zero : sgn 0 = 0 := rfl

theorem sgn_diff (a b : Nat) :
    sgn ((a : Int) - (b : Int)) = if a < b then -1 else if b < a then 1 else 0 := by
  unfold sgn
  split_ifs <;> omega

set_option maxHeartbeats 4000000 in
theorem verscmpResult_sign (B : Nat) (hB : B = S_N ∨ B = S_I ∨ B = S_F ∨ B = S_Z)
    (c1 c2 : Char) (hne : c1 ≠ c2) (p1 p2 : Str) :
    sgn (verscmpResult (B + symClass c1) c1 c2 p1 p2) =
        pairCmp (symKey B c1 (runLen p1)) (symKey B c2 (runLen p2)) ∧
      pairCmp (symKey B c1 (runLen p1)) (symKey B c2 (runLen p2)) ≠ 0 := by
  have hn : c1.toNat ≠ c2.toNat := fun h => hne (char_eq_of_toNat_eq h)
  rcases hB with rfl | rfl | rfl | rfl <;>
  rcases symClass_cases c1 with ⟨h1, k1, d1, z1⟩ | ⟨h1, k1, d1, z1⟩ | ⟨h1, h1', k1, d1, z1⟩ |
    ⟨h1, k1, d1, z1⟩ <;>
  rcases symClass_cases c2 with ⟨h2, k2, d2, z2⟩ | ⟨h2, k2, d2, z2⟩ | ⟨h2, h2', k2, d2, z2⟩ |
    ⟨h2, k2, d2, z2⟩ <;>
  simp only [verscmpResult, k1, k2, d1, d2, z1, z2, symKey, result_type_rows, S_N, S_I, S_F, S_Z,
    CMP, LEN, lenLoop_eq, pairCmp, List.getD_cons_succ, List.getD_cons_zero,
    Nat.reduceAdd, Nat.reduceMul, if_true, if_false, Nat.reduceEqDiff, Bool.false_eq_true,
    Int.reduceEq, Int.reduceNeg, Int.reduceLT, Nat.reduceLT, Nat.lt_irrefl, Nat.reduceLTLE,
    reduceIte, (show ('0' : Char).toNat = 48 from rfl), (show symClass '0' = 2 from rfl),
    (show isdigit '0' = true from rfl), apply_ite sgn, sgn_neg_one, sgn_one, sgn_zero,
    sgn_diff] <;>
  (constructor <;> first | trivial | (split_ifs <;> first | trivial | omega) | omega)


theorem pairCmp_self (a : Nat × Nat) : pairCmp a a = 0 := by
  simp [pairCmp]

theorem sgn_neg_iff (x : Int) : sgn x = -1 ↔ x < 0 := by
  unfold sgn
  split_ifs <;> constructor <;> intro _ <;> first | omega | contradiction

theorem sgn_pos_iff (x : Int) : sgn x = 1 ↔ 0 < x := by
  unfold sgn
  split_ifs <;> constructor <;> intro _ <;> first | omega | contradiction

theorem sgn_zero_iff (x : Int) : sgn x = 0 ↔ x = 0 := by
  unfold sgn
  split_ifs <;> constructor <;> intro _ <;> first | omega | contradiction

theorem nextBase_valid (B : Nat) (hB : B = S_N ∨ B = S_I ∨ B = S_F ∨ B = S_Z) (c : Char) :
    nextBase B c = S_N ∨ nextBase B c = S_I ∨ nextBase B c = S_F ∨ nextBase B c = S_Z := by
  rcases hB with rfl | rfl | rfl | rfl <;>
  rcases symClass_cases c with ⟨-, k, -⟩ | ⟨-, k, -⟩ | ⟨-, -, k, -⟩ | ⟨-, k, -⟩ <;>
  simp [nextBase, k, next_state, S_N, S_I, S_F, S_Z]

theorem symKey_same (B : Nat) (hB : B = S_N ∨ B = S_I ∨ B = S_F ∨ B = S_Z) (c : Char)
    (L1 L2 : Nat) :
    pairCmp (symKey B c L1) (symKey B c L2) = 0 ∨
      (nextBase B c = S_I ∧
        pairCmp (symKey B c L1) (symKey B c L2) =
          if L1 < L2 then -1 else if L2 < L1 then 1 else 0) := by
  rcases hB with rfl | rfl | rfl | rfl <;>
  rcases symClass_cases c with ⟨h, k, d, z⟩ | ⟨h, k, d, z⟩ | ⟨h, h', k, d, z⟩ | ⟨h, k, d, z⟩ <;>
  simp only [symKey, nextBase, k, d, z, next_state, S_N, S_I, S_F, S_Z, pairCmp,
    List.getD_cons_succ, List.getD_cons_zero, Nat.reduceAdd, if_true, if_false,
    Bool.false_eq_true, Nat.lt_irrefl, Nat.reduceEqDiff, reduceIte,
    (show ('0' : Char).toNat = 48 from rfl), (show symClass '0' = 2 from rfl),
    (show isdigit '0' = true from rfl)] <;>
  first
    | (left; trivial)
    | (right; refine ⟨trivial, ?_⟩; split_ifs <;> omega)

theorem runLen_pos_cons {p : Str} (h : 0 < runLen p) :
    ∃ d p', p = d :: p' ∧ isdigit d = true ∧ runLen p = runLen p' + 1 := by
  cases p with
  | nil => simp [runLen] at h
  | cons d p' =>
    by_cases hd : isdigit d = true
    · exact ⟨d, p', rfl, hd, by simp [runLen, hd]⟩
    · simp [runLen, hd] at h

theorem isdigit_nul : isdigit '\x00' = false := rfl

theorem nextBase_I_digit (c : Char) (h : isdigit c = true) :
    next_state.getD (S_I + symClass c) S_N = S_I := by
  rcases symClass_cases c with ⟨-, k, d, -⟩ | ⟨-, k, -⟩ | ⟨-, -, k, -⟩ | ⟨-, k, d, -⟩
  · rw [d] at h; exact Bool.noConfusion h
  · rw [k]; rfl
  · rw [k]; rfl
  · rw [d] at h; exact Bool.noConfusion h

theorem symKey_I_lt (c1 c2 : Char) (L1 L2 : Nat) (h2 : isdigit c2 = true)
    (h : isdigit c1 = false ∨ (isdigit c1 = true ∧ L1 < L2)) :
    pairCmp (symKey S_I c1 L1) (symKey S_I c2 L2) = -1 := by
  rcases symClass_cases c2 with ⟨-, -, d2, -⟩ | ⟨n2, -, -, -⟩ | ⟨n2, n2', -, -, -⟩ | ⟨-, -, d2, -⟩
  · rw [d2] at h2; exact Bool.noConfusion h2
  · rcases h with d1 | ⟨d1, hL⟩
    · simp [symKey, pairCmp, d1, h2]
    · rcases symClass_cases c1 with ⟨-, -, e1, -⟩ | ⟨n1, -, -, -⟩ | ⟨n1, n1', -, -, -⟩ |
        ⟨-, -, e1, -⟩
      · rw [e1] at d1; exact Bool.noConfusion d1
      · simp only [symKey, pairCmp, d1, h2, if_true, Nat.lt_irrefl, if_false]
        split_ifs <;> omega
      · simp only [symKey, pairCmp, d1, h2, if_true, Nat.lt_irrefl, if_false]
        split_ifs <;> omega
      · rw [e1] at d1; exact Bool.noConfusion d1
  · rcases h with d1 | ⟨d1, hL⟩
    · simp [symKey, pairCmp, d1, h2]
    · rcases symClass_cases c1 with ⟨-, -, e1, -⟩ | ⟨n1, -, -, -⟩ | ⟨n1, n1', -, -, -⟩ |
        ⟨-, -, e1, -⟩
      · rw [e1] at d1; exact Bool.noConfusion d1
      · simp only [symKey, pairCmp, d1, h2, if_true, Nat.lt_irrefl, if_false]
        split_ifs <;> omega
      · simp only [symKey, pairCmp, d1, h2, if_true, Nat.lt_irrefl, if_false]
        split_ifs <;> omega
      · rw [e1] at d1; exact Bool.noConfusion d1
  · rw [d2] at h2; exact Bool.noConfusion h2

theorem pairCmp_swap (a b : Nat × Nat) : pairCmp b a = -pairCmp a b := by
  unfold pairCmp
  split_ifs <;> omega

theorem verscmpLoop_run_lt : ∀ p1 p2 : Str, runLen p1 < runLen p2 →
    verscmpLoop (S_I + symClass (peekChar p1)) p1 p2 < 0
  | [], p2, h => by
    obtain ⟨d, p2', rfl, hd, -⟩ := runLen_pos_cons (Nat.lt_of_le_of_lt (Nat.zero_le _) h)
    have hne : '\x00' ≠ d := fun hx => by rw [← hx, isdigit_nul] at hd; exact Bool.noConfusion hd
    obtain ⟨hs, -⟩ := verscmpResult_sign S_I (Or.inr (Or.inl rfl)) '\x00' d hne [] p2'
    rw [symKey_I_lt _ _ _ _ hd (Or.inl isdigit_nul)] at hs
    simp only [verscmpLoop, peekChar, List.headD_nil]
    exact (sgn_neg_iff _).mp hs
  | c1 :: p1, p2, h => by
    obtain ⟨d, p2', rfl, hd, hL2⟩ := runLen_pos_cons (Nat.lt_of_le_of_lt (Nat.zero_le _) h)
    simp only [verscmpLoop, peekChar, List.headD_cons]
    by_cases hc : c1 = d
    · subst hc
      have hL : runLen p1 < runLen p2' := by
        simp only [runLen, hd, if_true] at h
        omega
      simp only [if_true, nextBase_I_digit c1 hd]
      exact verscmpLoop_run_lt p1 p2' hL
    · simp only [hc, if_false]
      obtain ⟨hs, -⟩ := verscmpResult_sign S_I (Or.inr (Or.inl rfl)) c1 d hc p1 p2'
      have hk : pairCmp (symKey S_I c1 (runLen p1)) (symKey S_I d (runLen p2')) = -1 := by
        apply symKey_I_lt _ _ _ _ hd
        by_cases hd1 : isdigit c1 = true
        · right
          refine ⟨hd1, ?_⟩
          simp only [runLen, hd, hd1, if_true] at h
          omega
        · left
          simpa using hd1
      rw [hk] at hs
      exact (sgn_neg_iff _).mp hs

theorem verscmpLoop_run_gt : ∀ p1 p2 : Str, runLen p2 < runLen p1 →
    0 < verscmpLoop (S_I + symClass (peekChar p1)) p1 p2
  | [], _, h => by simp [runLen] at h
  | c1 :: p1, [], h => by
    obtain ⟨d, p1', hp, hd, -⟩ := runLen_pos_cons (Nat.lt_of_le_of_lt (Nat.zero_le _) h)
    obtain ⟨rfl, rfl⟩ := List.cons.inj hp
    have hne : c1 ≠ '\x00' := fun hx => by rw [hx, isdigit_nul] at hd; exact Bool.noConfusion hd
    obtain ⟨hs, -⟩ := verscmpResult_sign S_I (Or.inr (Or.inl rfl)) c1 '\x00' hne p1 []
    have hk := symKey_I_lt '\x00' c1 (runLen ([] : Str)) (runLen p1) hd (Or.inl isdigit_nul)
    rw [pairCmp_swap, hk] at hs
    simp only [verscmpLoop, peekChar, List.headD_cons]
    exact (sgn_pos_iff _).mp hs
  | c1 :: p1, c2 :: p2, h => by
    obtain ⟨d, p1', hp, hd, -⟩ := runLen_pos_cons (Nat.lt_of_le_of_lt (Nat.zero_le _) h)
    obtain ⟨rfl, rfl⟩ := List.cons.inj hp
    simp only [verscmpLoop, peekChar, List.headD_cons]
    by_cases hc : c1 = c2
    · subst hc
      have hL : runLen p2 < runLen p1 := by
        simp only [runLen, hd, if_true] at h
        omega
      simp only [if_true, nextBase_I_digit c1 hd]
      exact verscmpLoop_run_gt p1 p2 hL
    · simp only [hc, if_false]
      obtain ⟨hs, -⟩ := verscmpResult_sign S_I (Or.inr (Or.inl rfl)) c1 c2 hc p1 p2
      have hk : pairCmp (symKey S_I c2 (runLen p2)) (symKey S_I c1 (runLen p1)) = -1 := by
        apply symKey_I_lt _ _ _ _ hd
        by_cases hd2 : isdigit c2 = true
        · right
          refine ⟨hd2, ?_⟩
          simp only [runLen, hd, hd2, if_true] at h
          omega
        · left
          simpa using hd2
      rw [pairCmp_swap, hk] at hs
      exact (sgn_pos_iff _).mp hs


theorem verscmpLoop_sign : ∀ (p1 p2 : Str) (B : Nat),
    (B = S_N ∨ B = S_I ∨ B = S_F ∨ B = S_Z) →
    (∀ c ∈ p1, c ≠ '\x00') → (∀ c ∈ p2, c ≠ '\x00') →
    sgn (verscmpLoop (B + symClass (peekChar p1)) p1 p2) = keyCmp (keys B p1) (keys B p2)
  | [], [], B, _, _, _ => by
    simp [verscmpLoop, keys, keyCmp, pairCmp_self, sgn]
  | [], c2 :: p2, B, hB, _, h2 => by
    have hne : '\x00' ≠ c2 := fun h => h2 c2 (List.mem_cons_self _ _) h.symm
    obtain ⟨hs, hnz⟩ := verscmpResult_sign B hB '\x00' c2 hne [] p2
    rw [show runLen ([] : Str) = 0 from rfl] at hs hnz
    simp only [verscmpLoop, keys, keyCmp, peekChar, List.headD_nil]
    rw [if_neg hnz]
    exact hs
  | c1 :: p1, [], B, hB, h1, _ => by
    have hne : c1 ≠ '\x00' := h1 c1 (List.mem_cons_self _ _)
    obtain ⟨hs, hnz⟩ := verscmpResult_sign B hB c1 '\x00' hne p1 []
    rw [show runLen ([] : Str) = 0 from rfl] at hs hnz
    simp only [verscmpLoop, keys, keyCmp, peekChar, List.headD_cons]
    rw [if_neg hnz]
    exact hs
  | c1 :: p1, c2 :: p2, B, hB, h1, h2 => by
    by_cases hc : c1 = c2
    · subst hc
      have ih := verscmpLoop_sign p1 p2 (nextBase B c1) (nextBase_valid B hB c1)
        (fun c hx => h1 c (List.mem_cons_of_mem _ hx))
        (fun c hx => h2 c (List.mem_cons_of_mem _ hx))
      simp only [verscmpLoop, if_true, peekChar, List.headD_cons, keys, keyCmp]
      rcases symKey_same B hB c1 (runLen p1) (runLen p2) with h0 | ⟨hI, hcmp⟩
      · rw [if_pos h0]
        exact ih
      · by_cases h0 : pairCmp (symKey B c1 (runLen p1)) (symKey B c1 (runLen p2)) = 0
        · rw [if_pos h0]
          exact ih
        · rw [if_neg h0, hcmp]
          have hI2 : next_state.getD (B + symClass c1) S_N = S_I := hI
          rw [hI2]
          rw [hcmp] at h0
          by_cases hlt : runLen p1 < runLen p2
          · rw [if_pos hlt]
            exact (sgn_neg_iff _).mpr (verscmpLoop_run_lt p1 p2 hlt)
          · have hgt : runLen p2 < runLen p1 := by
              by_contra hge
              apply h0
              rw [if_neg hlt, if_neg hge]
            rw [if_neg hlt, if_pos hgt]
            exact (sgn_pos_iff _).mpr (verscmpLoop_run_gt p1 p2 hgt)
    · obtain ⟨hs, hnz⟩ := verscmpResult_sign B hB c1 c2 hc p1 p2
      simp only [verscmpLoop, hc, if_false, peekChar, List.headD_cons, keys, keyCmp]
      rw [if_neg hnz]
      exact hs

theorem c_str_no_nul (s : Str) : ∀ c ∈ c_str s, c ≠ '\x00' := by
  intro c hc
  have := List.mem_takeWhile_imp hc
  simpa using this

theorem strverscmp_sign (s t : Str) :
    sgn (strverscmp s t) = keyCmp (chromKey s) (chromKey t) :=
  verscmpLoop_sign (c_str s) (c_str t) S_N (Or.inl rfl) (c_str_no_nul s) (c_str_no_nul t)

theorem pairCmp_eq_zero {a b : Nat × Nat} (h : pairCmp a b = 0) : a = b := by
  unfold pairCmp at h
  split_ifs at h
  all_goals first
    | omega
    | exact Prod.ext (by omega) (by omega)

theorem pairCmp_trans {a b c : Nat × Nat} (h1 : pairCmp a b = -1) (h2 : pairCmp b c = -1) :
    pairCmp a c = -1 := by
  unfold pairCmp at h1 h2 ⊢
  split_ifs at h1 h2 ⊢ <;> omega

theorem pairCmp_range (a b : Nat × Nat) :
    pairCmp a b = -1 ∨ pairCmp a b = 0 ∨ pairCmp a b = 1 := by
  unfold pairCmp
  split_ifs <;> simp

theorem keyCmp_range : ∀ a b : List (Nat × Nat),
    keyCmp a b = -1 ∨ keyCmp a b = 0 ∨ keyCmp a b = 1
  | [], [] => by simp [keyCmp]
  | [], _ :: _ => by simp [keyCmp]
  | _ :: _, [] => by simp [keyCmp]
  | a :: as, b :: bs => by
    simp only [keyCmp]
    split_ifs with h
    · exact keyCmp_range as bs
    · exact pairCmp_range a b

theorem keyCmp_swap : ∀ a b : List (Nat × Nat), keyCmp b a = -keyCmp a b
  | [], [] => by simp [keyCmp]
  | [], _ :: _ => by simp [keyCmp]
  | _ :: _, [] => by simp [keyCmp]
  | a :: as, b :: bs => by
    simp only [keyCmp, pairCmp_swap a b, keyCmp_swap as bs]
    split_ifs <;> first | rfl | omega

theorem keyCmp_eq_zero : ∀ {a b : List (Nat × Nat)}, keyCmp a b = 0 → a = b
  | [], [], _ => rfl
  | [], _ :: _, h => by simp [keyCmp] at h
  | _ :: _, [], h => by simp [keyCmp] at h
  | a :: as, b :: bs, h => by
    simp only [keyCmp] at h
    split_ifs at h with h0
    · rw [pairCmp_eq_zero h0, keyCmp_eq_zero h]
    · exact absurd h h0

theorem keyCmp_self : ∀ a : List (Nat × Nat), keyCmp a a = 0
  | [] => rfl
  | a :: as => by simp [keyCmp, pairCmp_self, keyCmp_self as]

theorem keyCmp_trans : ∀ {a b c : List (Nat × Nat)}, keyCmp a b = -1 → keyCmp b c = -1 →
    keyCmp a c = -1
  | [], [], _, h, _ => by simp [keyCmp] at h
  | [], _ :: _, [], _, h => by simp [keyCmp] at h
  | [], _ :: _, _ :: _, _, _ => by simp [keyCmp]
  | _ :: _, [], _, h, _ => by simp [keyCmp] at h
  | _ :: _, _ :: _, [], _, h => by simp [keyCmp] at h
  | a :: as, b :: bs, c :: cs, h1, h2 => by
    simp only [keyCmp] at h1 h2 ⊢
    by_cases hab : pairCmp a b = 0
    · rw [if_pos hab] at h1
      have := pairCmp_eq_zero hab
      subst this
      by_cases hbc : pairCmp a c = 0
      · rw [if_pos hbc] at h2 ⊢
        exact keyCmp_trans h1 h2
      · rw [if_neg hbc] at h2 ⊢
        exact h2
    · rw [if_neg hab] at h1
      by_cases hbc : pairCmp b c = 0
      · have := pairCmp_eq_zero hbc
        subst this
        rw [if_neg hab]
        exact h1
      · rw [if_neg hbc] at h2
        have hac := pairCmp_trans h1 h2
        rw [if_neg (by rw [hac]; decide)]
        exact hac


theorem sign_eq_sgn (x : Int) : Int.sign x = sgn x := by
  unfold sgn
  split_ifs with h1 h2
  · exact Int.sign_eq_neg_one_of_neg h1
  · exact Int.sign_eq_one_of_pos h2
  · have : x = 0 := by omega
    rw [this]
    rfl

theorem sgn_range (x : Int) : sgn x = -1 ∨ sgn x = 0 ∨ sgn x = 1 := by
  unfold sgn
  split_ifs <;> simp

/-- Order facts about `strverscmp` on three strings: the result of the
swapped call has the opposite sign, "less" is transitive, and a string that
compares equal to another takes its place in every comparison. -/
theorem strverscmp_order (s t u : Str) :
    (strverscmp s t < 0 ↔ 0 < strverscmp t s) ∧
    (strverscmp s t = 0 ↔ strverscmp t s = 0) ∧
    (strverscmp s t < 0 → strverscmp t u < 0 → strverscmp s u < 0) ∧
    (strverscmp s t = 0 →
      (strverscmp s u < 0 ↔ strverscmp t u < 0) ∧ (strverscmp s u = 0 ↔ strverscmp t u = 0)) ∧
    (strverscmp t u = 0 →
      (strverscmp s u < 0 ↔ strverscmp s t < 0) ∧ (strverscmp s u = 0 ↔ strverscmp s t = 0)) := by
  have hst := strverscmp_sign s t
  have hts := strverscmp_sign t s
  have htu := strverscmp_sign t u
  have hsu := strverscmp_sign s u
  have hswap := keyCmp_swap (chromKey s) (chromKey t)
  have n1 := sgn_neg_iff (strverscmp s t)
  have n2 := sgn_neg_iff (strverscmp t u)
  have n3 := sgn_neg_iff (strverscmp s u)
  have z1 := sgn_zero_iff (strverscmp s t)
  have z2 := sgn_zero_iff (strverscmp t u)
  have z3 := sgn_zero_iff (strverscmp s u)
  have z4 := sgn_zero_iff (strverscmp t s)
  have p4 := sgn_pos_iff (strverscmp t s)
  refine ⟨?_, ?_, ?_, ?_, ?_⟩
  · rw [← n1, ← p4, hst, hts, hswap]
    constructor <;> intro h <;> omega
  · rw [← z1, ← z4, hst, hts, hswap]
    constructor <;> intro h <;> omega
  · intro h1 h2
    rw [← n1, hst] at h1
    rw [← n2, htu] at h2
    rw [← n3, hsu]
    exact keyCmp_trans h1 h2
  · intro h
    rw [← z1, hst] at h
    have hk := keyCmp_eq_zero h
    rw [← n3, ← n2, ← z3, ← z2, hsu, htu, hk]
    exact ⟨Iff.rfl, Iff.rfl⟩
  · intro h
    rw [← z2, htu] at h
    have hk := keyCmp_eq_zero h
    rw [← n3, ← n1, ← z3, ← z1, hsu, hst, hk]
    exact ⟨Iff.rfl, Iff.rfl⟩

theorem lex_sgn_swap {A A' ta ta' : Int} (f1 : A < 0 ↔ 0 < A') (f2 : A = 0 ↔ A' = 0)
    (ht : sgn ta = -sgn ta') :
    sgn (if A ≠ 0 then A else ta) = -sgn (if A' ≠ 0 then A' else ta') := by
  by_cases hA : A = 0
  · have hA' : A' = 0 := f2.mp hA
    simp only [hA, hA', ne_eq, not_true_eq_false, if_false]
    exact ht
  · have hA' : A' ≠ 0 := fun h => hA (f2.mpr h)
    simp only [hA, hA', ne_eq, not_false_eq_true, if_true]
    unfold sgn
    split_ifs <;> omega

theorem lex_le_trans {A B C ta tb tc : Int} (f3 : A < 0 → B < 0 → C < 0)
    (f4 : A = 0 → (C < 0 ↔ B < 0) ∧ (C = 0 ↔ B = 0))
    (f5 : B = 0 → (C < 0 ↔ A < 0) ∧ (C = 0 ↔ A = 0))
    (ht : ta ≤ 0 → tb ≤ 0 → tc ≤ 0)
    (h1 : (if A ≠ 0 then A else ta) ≤ 0) (h2 : (if B ≠ 0 then B else tb) ≤ 0) :
    (if C ≠ 0 then C else tc) ≤ 0 := by
  by_cases hA : A = 0
  · obtain ⟨g1, g2⟩ := f4 hA
    simp only [hA, ne_eq, not_true_eq_false, if_false] at h1
    by_cases hB : B = 0
    · simp only [hB, ne_eq, not_true_eq_false, if_false] at h2
      simp only [g2.mpr hB, ne_eq, not_true_eq_false, if_false]
      exact ht h1 h2
    · simp only [hB, ne_eq, not_false_eq_true, if_true] at h2
      have hC : C < 0 := g1.mpr (by omega)
      have hC0 : C ≠ 0 := by omega
      simp only [hC0, ne_eq, not_false_eq_true, if_true]
      omega
  · simp only [hA, ne_eq, not_false_eq_true, if_true] at h1
    have hA1 : A < 0 := by omega
    by_cases hB : B = 0
    · obtain ⟨g1, g2⟩ := f5 hB
      have hC : C < 0 := g1.mpr hA1
      have hC0 : C ≠ 0 := by omega
      simp only [hC0, ne_eq, not_false_eq_true, if_true]
      omega
    · simp only [hB, ne_eq, not_false_eq_true, if_true] at h2
      have hC : C < 0 := f3 hA1 (by omega)
      have hC0 : C ≠ 0 := by omega
      simp only [hC0, ne_eq, not_false_eq_true, if_true]
      omega

theorem lex_lt_trans {A B C ta tb tc : Int} (f3 : A < 0 → B < 0 → C < 0)
    (f4 : A = 0 → (C < 0 ↔ B < 0) ∧ (C = 0 ↔ B = 0))
    (f5 : B = 0 → (C < 0 ↔ A < 0) ∧ (C = 0 ↔ A = 0))
    (ht : ta < 0 → tb < 0 → tc < 0)
    (h1 : (if A ≠ 0 then A else ta) < 0) (h2 : (if B ≠ 0 then B else tb) < 0) :
    (if C ≠ 0 then C else tc) < 0 := by
  by_cases hA : A = 0
  · obtain ⟨g1, g2⟩ := f4 hA
    simp only [hA, ne_eq, not_true_eq_false, if_false] at h1
    by_cases hB : B = 0
    · simp only [hB, ne_eq, not_true_eq_false, if_false] at h2
      simp only [g2.mpr hB, ne_eq, not_true_eq_false, if_false]
      exact ht h1 h2
    · simp only [hB, ne_eq, not_false_eq_true, if_true] at h2
      have hC : C < 0 := g1.mpr h2
      have hC0 : C ≠ 0 := by omega
      simp only [hC0, ne_eq, not_false_eq_true, if_true]
      exact hC
  · simp only [hA, ne_eq, not_false_eq_true, if_true] at h1
    by_cases hB : B = 0
    · obtain ⟨g1, g2⟩ := f5 hB
      have hC : C < 0 := g1.mpr h1
      have hC0 : C ≠ 0 := by omega
      simp only [hC0, ne_eq, not_false_eq_true, if_true]
      exact hC
    · simp only [hB, ne_eq, not_false_eq_true, if_true] at h2
      have hC : C < 0 := f3 h1 h2
      have hC0 : C ≠ 0 := by omega
      simp only [hC0, ne_eq, not_false_eq_true, if_true]
      exact hC

theorem step_sgn_swap (p q : Int) {t t' : Int} (ht : sgn t = -sgn t') :
    sgn (if p < q then -1 else if q < p then 1 else t) =
      -sgn (if q < p then -1 else if p < q then 1 else t') := by
  rcases lt_trichotomy p q with h | h | h
  · have h' : ¬ q < p := by omega
    simp only [h, h', if_true, if_false]
    rfl
  · subst h
    simp only [lt_irrefl, if_false]
    exact ht
  · have h' : ¬ p < q := by omega
    simp only [h, h', if_true, if_false]
    rfl

theorem step_le_trans (p q r : Int) {ta tb tc : Int} (ht : ta ≤ 0 → tb ≤ 0 → tc ≤ 0)
    (h1 : (if p < q then -1 else if q < p then 1 else ta) ≤ 0)
    (h2 : (if q < r then -1 else if r < q then 1 else tb) ≤ 0) :
    (if p < r then -1 else if r < p then 1 else tc) ≤ 0 := by
  split_ifs at h1 h2 ⊢
  all_goals omega

theorem step_lt_trans (p q r : Int) {ta tb tc : Int} (ht : ta < 0 → tb < 0 → tc < 0)
    (h1 : (if p < q then -1 else if q < p then 1 else ta) < 0)
    (h2 : (if q < r then -1 else if r < q then 1 else tb) < 0) :
    (if p < r then -1 else if r < p then 1 else tc) < 0 := by
  split_ifs at h1 h2 ⊢
  all_goals omega

theorem posCmp_order (p q r : Int) :
    sgn (if p < q then -1 else if q < p then 1 else 0) =
      -sgn (if q < p then -1 else if p < q then 1 else 0) ∧
    ((if p < q then (-1 : Int) else if q < p then 1 else 0) ≤ 0 →
      (if q < r then (-1 : Int) else if r < q then 1 else 0) ≤ 0 →
      (if p < r then (-1 : Int) else if r < p then 1 else 0) ≤ 0) ∧
    ((if p < q then (-1 : Int) else if q < p then 1 else 0) < 0 →
      (if q < r then (-1 : Int) else if r < q then 1 else 0) < 0 →
      (if p < r then (-1 : Int) else if r < p then 1 else 0) < 0) :=
  ⟨step_sgn_swap p q rfl, step_le_trans p q r (fun _ _ => le_refl _),
    step_lt_trans p q r (fun h _ => h)⟩

theorem entry_cmp_order (a b c : Entry) :
    sgn (a.cmp b) = -sgn (b.cmp a) ∧
    (a.cmp b ≤ 0 → b.cmp c ≤ 0 → a.cmp c ≤ 0) ∧
    (a.cmp b < 0 → b.cmp c < 0 → a.cmp c < 0) := by
  obtain ⟨f1, f2, f3, f4, f5⟩ := strverscmp_order a.chrom b.chrom c.chrom
  obtain ⟨t1, t2, t3⟩ := posCmp_order a.pos b.pos c.pos
  simp only [Entry.cmp]
  exact ⟨lex_sgn_swap f1 f2 t1, lex_le_trans f3 f4 f5 t2, lex_lt_trans f3 f4 f5 t3⟩

end Vcf

theorem bed_cmp_order (a b c : Bed) :
    Vcf.sgn (a.cmp b) = -Vcf.sgn (b.cmp a) ∧
    (a.cmp b ≤ 0 → b.cmp c ≤ 0 → a.cmp c ≤ 0) ∧
    (a.cmp b < 0 → b.cmp c < 0 → a.cmp c < 0) := by
  obtain ⟨f1, f2, f3, f4, f5⟩ := Vcf.strverscmp_order a.chrom b.chrom c.chrom
  obtain ⟨t1, t2, t3⟩ := Vcf.posCmp_order a.end_ b.end_ c.end_
  simp only [Bed.cmp]
  exact ⟨Vcf.lex_sgn_swap f1 f2 (Vcf.step_sgn_swap a.start b.start t1),
    Vcf.lex_le_trans f3 f4 f5 (Vcf.step_le_trans a.start b.start c.start t2),
    Vcf.lex_lt_trans f3 f4 f5 (Vcf.step_lt_trans a.start b.start c.start t3)⟩

namespace Vcf

theorem Entry.less_strictWeakOrder : StrictWeakOrder Entry.less where
  irrefl a := by
    have h := (entry_cmp_order a a a).1
    have hr := sgn_range (a.cmp a)
    have hz := sgn_zero_iff (a.cmp a)
    have : a.cmp a = 0 := hz.mp (by omega)
    simp [Entry.less, this]
  trans a b c hab hbc := by
    simp only [Entry.less, decide_eq_true_eq] at hab hbc ⊢
    exact (entry_cmp_order a b c).2.2 hab hbc
  equiv_trans a b c hab hba hbc hcb := by
    simp only [Entry.less, decide_eq_false_iff_not, not_lt] at hab hba hbc hcb ⊢
    have h1 := (entry_cmp_order a b c).2.1
    have h2 := (entry_cmp_order c b a).2.1
    have s1 := (entry_cmp_order a b c).1
    have s2 := (entry_cmp_order b c a).1
    have s3 := (entry_cmp_order a c b).1
    simp only [sgn] at s1 s2 s3
    have hab0 : a.cmp b ≤ 0 := by split_ifs at s1 <;> omega
    have hbc0 : b.cmp c ≤ 0 := by split_ifs at s2 <;> omega
    have hac := h1 hab0 hbc0
    have hcb0 : c.cmp b ≤ 0 := by split_ifs at s2 <;> omega
    have hba0 : b.cmp a ≤ 0 := by split_ifs at s1 <;> omega
    have hca := h2 hcb0 hba0
    constructor
    · split_ifs at s3 <;> omega
    · split_ifs at s3 <;> omega

/-- C19: the comparators are total orders on their sort keys. For all records
`a`, `b`, `c` of `Entry::cmp` and of `Bed::cmp`, and for all strings of
`strverscmp` (names with leading-zero digit runs included), the sign of the
swapped comparison is the opposite sign, and `cmp(a,b) <= 0` with
`cmp(b,c) <= 0` gives `cmp(a,c) <= 0`; the order `*a < *b` that
`SortBuffer::cmp` hands to the sort is a strict weak ordering. The names
"chr001", "chr01", "chr010", "chr09", "chr1" are in ascending order. -/
theorem cmp_total_order (a b c : Entry) (x y z : Bed) (s t u : Str) :
    (Int.sign (a.cmp b) = -Int.sign (b.cmp a) ∧
      (a.cmp b ≤ 0 → b.cmp c ≤ 0 → a.cmp c ≤ 0)) ∧
    (Int.sign (x.cmp y) = -Int.sign (y.cmp x) ∧
      (x.cmp y ≤ 0 → y.cmp z ≤ 0 → x.cmp z ≤ 0)) ∧
    (Int.sign (strverscmp s t) = -Int.sign (strverscmp t s) ∧
      (strverscmp s t ≤ 0 → strverscmp t u ≤ 0 → strverscmp s u ≤ 0)) ∧
    StrictWeakOrder Entry.less ∧
    (strverscmp "chr001".toList "chr01".toList < 0 ∧
      strverscmp "chr01".toList "chr010".toList < 0 ∧
      strverscmp "chr010".toList "chr09".toList < 0 ∧
      strverscmp "chr09".toList "chr1".toList < 0 ∧
      strverscmp "chr001".toList "chr1".toList < 0 ∧
      0 < strverscmp "chr1".toList "chr001".toList) := by
  refine ⟨⟨?_, (entry_cmp_order a b c).2.1⟩, ⟨?_, (bed_cmp_order x y z).2.1⟩, ⟨?_, ?_⟩,
    Entry.less_strictWeakOrder, by decide⟩
  · rw [sign_eq_sgn, sign_eq_sgn]
    exact (entry_cmp_order a b c).1
  · rw [sign_eq_sgn, sign_eq_sgn]
    exact (bed_cmp_order x y z).1
  · obtain ⟨f1, f2, -⟩ := strverscmp_order s t u
    rw [sign_eq_sgn, sign_eq_sgn]
    simp only [sgn]
    split_ifs <;> omega
  · obtain ⟨f1, f2, f3, f4, f5⟩ := strverscmp_order s t u
    intro h1 h2
    omega

theorem cmp_total_order_witness :
    Entry.cmp { exampleRecord with chrom := "chr01".toList, pos := 9 }
        { exampleRecord with chrom := "chr1".toList, pos := 5 } ≤ 0 ∧
    Entry.cmp { exampleRecord with chrom := "chr1".toList, pos := 5 }
        { exampleRecord with chrom := "chr1".toList, pos := 7 } ≤ 0 ∧
    Entry.cmp { exampleRecord with chrom := "chr01".toList, pos := 9 }
        { exampleRecord with chrom := "chr1".toList, pos := 7 } ≤ 0 :=
  ⟨by decide, by decide,
    (cmp_total_order { exampleRecord with chrom := "chr01".toList, pos := 9 }
      { exampleRecord with chrom := "chr1".toList, pos := 5 }
      { exampleRecord with chrom := "chr1".toList, pos := 7 }
      ⟨[], 0, 0, [], [], []⟩ ⟨[], 0, 0, [], [], []⟩ ⟨[], 0, 0, [], [], []⟩ [] [] []).1.2
      (by decide) (by decide)⟩

end Vcf

/-! ### Natural order and `Entry::cmp` -/

namespace Vcf

theorem natOfDigits_foldl (l : Str) : ∀ v : Nat,
    l.foldl (fun v c => 10 * v + (c.toNat - 48)) v = v * 10 ^ l.length + natOfDigits l := by
  induction l with
  | nil => intro v; simp [natOfDigits]
  | cons c p ih =>
    intro v
    simp only [List.foldl_cons, natOfDigits, List.length_cons]
    rw [ih, ih (10 * 0 + (c.toNat - 48))]
    ring

theorem natOfDigits_cons (c : Char) (p : Str) :
    natOfDigits (c :: p) = (c.toNat - 48) * 10 ^ p.length + natOfDigits p := by
  have := natOfDigits_foldl p (10 * 0 + (c.toNat - 48))
  simp only [natOfDigits, List.foldl_cons] at this ⊢
  rw [this]
  simp [natOfDigits]

theorem natOfDigits_lt : ∀ p : Str, (∀ c ∈ p, isdigit c = true) → natOfDigits p < 10 ^ p.length
  | [], _ => by simp [natOfDigits]
  | c :: p, h => by
    rw [natOfDigits_cons, List.length_cons, pow_succ]
    have ih := natOfDigits_lt p (fun d hd => h d (List.mem_cons_of_mem _ hd))
    have hc := h c (List.mem_cons_self _ _)
    simp only [isdigit, Bool.and_eq_true, decide_eq_true_eq] at hc
    have : (c.toNat - 48) ≤ 9 := by omega
    nlinarith

theorem digitRun_length (p : Str) : (digitRun p).length = runLen p := by
  induction p with
  | nil => rfl
  | cons c p ih =>
    by_cases h : isdigit c = true
    · simp [digitRun, runLen, h, List.takeWhile_cons] at ih ⊢
      exact ih
    · simp [digitRun, runLen, h, List.takeWhile_cons]

theorem digitRun_digits (p : Str) : ∀ c ∈ digitRun p, isdigit c = true := by
  intro c hc
  exact List.mem_takeWhile_imp hc

theorem digitRun_cons (c : Char) (p : Str) (h : isdigit c = true) :
    digitRun (c :: p) = c :: digitRun p := by
  simp [digitRun, List.takeWhile_cons, h]

theorem afterRun_cons (c : Char) (p : Str) (h : isdigit c = true) :
    afterRun (c :: p) = afterRun p := by
  simp [afterRun, List.dropWhile_cons, h]

theorem afterRun_of_not_digit (p : Str) (h : isdigit (peekChar p) = false) : afterRun p = p := by
  cases p with
  | nil => rfl
  | cons c p =>
    simp only [peekChar, List.headD_cons] at h
    simp [afterRun, List.dropWhile_cons, h]

theorem digitRun_of_not_digit (p : Str) (h : isdigit (peekChar p) = false) : digitRun p = [] := by
  cases p with
  | nil => rfl
  | cons c p =>
    simp only [peekChar, List.headD_cons] at h
    simp [digitRun, List.takeWhile_cons, h]

theorem afterRun_length_le (p : Str) : (afterRun p).length ≤ p.length := by
  induction p with
  | nil => simp [afterRun]
  | cons c p ih =>
    by_cases h : isdigit c = true
    · rw [afterRun_cons c p h]; simp; omega
    · simp [afterRun, List.dropWhile_cons, h]

theorem afterRun_head (p : Str) : isdigit (peekChar (afterRun p)) = false := by
  induction p with
  | nil => rfl
  | cons c p ih =>
    by_cases h : isdigit c = true
    · rw [afterRun_cons c p h]; exact ih
    · simp only [afterRun, List.dropWhile_cons, h]
      simpa [peekChar] using h

theorem afterRun_mem (p : Str) : ∀ c ∈ afterRun p, c ∈ p := by
  intro c hc
  exact (List.dropWhile_suffix _).subset hc

theorem noLeadingZeroFrom_afterRun : ∀ (p : Str) (b b' : Bool),
    noLeadingZeroFrom b p = true → noLeadingZeroFrom b' (afterRun p) = true
  | [], _, _, _ => rfl
  | c :: p, b, b', h => by
    by_cases hd : isdigit c = true
    · rw [afterRun_cons c p hd]
      simp only [noLeadingZeroFrom, Bool.and_eq_true] at h
      rw [hd] at h
      exact noLeadingZeroFrom_afterRun p true b' h.2
    · have hc : c ≠ '0' := by
        intro h0; subst h0; exact hd rfl
      simp only [afterRun, List.dropWhile_cons, hd]
      simp only [noLeadingZeroFrom, Bool.and_eq_true] at h ⊢
      refine ⟨?_, h.2⟩
      simp [hc]

theorem isdigit_iff (c : Char) : isdigit c = true ↔ 48 ≤ c.toNat ∧ c.toNat ≤ 57 := by
  simp [isdigit]

theorem isdigit_false_iff (c : Char) : isdigit c = false ↔ c.toNat < 48 ∨ 57 < c.toNat := by
  rw [← Bool.not_eq_true, isdigit_iff]; omega

theorem char_zero_iff (c : Char) : c = '0' ↔ c.toNat = 48 :=
  ⟨fun h => by rw [h]; rfl, fun h => char_eq_of_toNat_eq (by rw [h]; rfl)⟩

theorem symKey_N_other (c : Char) (L : Nat) (h : isdigit c = false) :
    symKey S_N c L = (if c.toNat < 48 then 0 else 3, c.toNat) := by
  simp only [symKey, h, S_N, S_I, S_F, S_Z, if_false, Bool.false_eq_true, Nat.reduceEqDiff,
    reduceIte]
  split_ifs <;> rfl

theorem symKey_other (B : Nat) (hB : B = S_I ∨ B = S_F ∨ B = S_Z) (c : Char) (L : Nat)
    (h : isdigit c = false) :
    symKey B c L = (if B = S_Z then 1 else 0, c.toNat) := by
  rcases hB with rfl | rfl | rfl <;>
    simp only [symKey, h, S_N, S_I, S_F, S_Z, if_true, if_false, Bool.false_eq_true,
      Nat.reduceEqDiff, reduceIte]

theorem symKey_N_digit (c : Char) (L : Nat) (h : isdigit c = true) :
    symKey S_N c L = if c.toNat = 48 then (1, 0) else (2, L * 16 + c.toNat) := by
  simp only [symKey, h, S_N, S_I, S_F, S_Z, if_true, Nat.reduceEqDiff, reduceIte, char_zero_iff]

theorem symKey_I_digit (c : Char) (L : Nat) (h : isdigit c = true) :
    symKey S_I c L = (1, L * 16 + c.toNat) := by
  simp only [symKey, h, if_true]

theorem pairCmp_mk (a b x y : Nat) :
    pairCmp (a, x) (b, y) =
      if a < b then -1 else if b < a then 1 else if x < y then -1 else if y < x then 1 else 0 :=
  rfl

theorem symKey_bytes (B : Nat) (hB : B = S_N ∨ B = S_I ∨ B = S_F ∨ B = S_Z) (c1 c2 : Char)
    (L1 L2 : Nat)
    (h : (isdigit c1 = false ∧ isdigit c2 = false) ∨
      (B = S_N ∧ ¬ (isdigit c1 = true ∧ isdigit c2 = true))) :
    pairCmp (symKey B c1 L1) (symKey B c2 L2) =
      if c1.toNat < c2.toNat then -1 else if c2.toNat < c1.toNat then 1 else 0 := by
  by_cases d1 : isdigit c1 = true
  · by_cases d2 : isdigit c2 = true
    · rcases h with ⟨h, -⟩ | ⟨-, h⟩
      · rw [d1] at h; exact Bool.noConfusion h
      · exact absurd ⟨d1, d2⟩ h
    · have hN : B = S_N := by
        rcases h with ⟨h, -⟩ | ⟨h, -⟩
        · rw [d1] at h; exact Bool.noConfusion h
        · exact h
      subst hN
      have d2f : isdigit c2 = false := by simpa using d2
      rw [symKey_N_digit c1 L1 d1, symKey_N_other c2 L2 d2f]
      have k1 := (isdigit_iff c1).mp d1
      have k2 := (isdigit_false_iff c2).mp d2f
      by_cases e1 : c1.toNat = 48 <;> by_cases e2 : c2.toNat < 48 <;>
        simp only [e1, e2, if_true, if_false, pairCmp_mk] <;>
        split_ifs <;> first | rfl | omega
  · have d1f : isdigit c1 = false := by simpa using d1
    have k1 := (isdigit_false_iff c1).mp d1f
    by_cases d2 : isdigit c2 = true
    · have hN : B = S_N := by
        rcases h with ⟨-, h⟩ | ⟨h, -⟩
        · rw [d2] at h; exact Bool.noConfusion h
        · exact h
      subst hN
      rw [symKey_N_digit c2 L2 d2, symKey_N_other c1 L1 d1f]
      have k2 := (isdigit_iff c2).mp d2
      by_cases e1 : c2.toNat = 48 <;> by_cases e2 : c1.toNat < 48 <;>
        simp only [e1, e2, if_true, if_false, pairCmp_mk] <;>
        split_ifs <;> first | rfl | omega
    · have d2f : isdigit c2 = false := by simpa using d2
      have k2 := (isdigit_false_iff c2).mp d2f
      rcases hB with rfl | hB
      · rw [symKey_N_other c1 L1 d1f, symKey_N_other c2 L2 d2f]
        by_cases e1 : c1.toNat < 48 <;> by_cases e2 : c2.toNat < 48 <;>
          simp only [e1, e2, if_true, if_false, pairCmp_mk] <;>
          split_ifs <;> first | rfl | omega
      · rw [symKey_other B hB c1 L1 d1f, symKey_other B hB c2 L2 d2f]
        simp only [pairCmp_mk, Nat.lt_irrefl, if_false]

theorem nextBase_other (B : Nat) (hB : B = S_N ∨ B = S_I ∨ B = S_F ∨ B = S_Z) (c : Char)
    (h : isdigit c = false) : nextBase B c = S_N := by
  rcases symClass_cases c with ⟨-, k, -, -⟩ | ⟨-, -, d, -⟩ | ⟨-, -, -, d, -⟩ | ⟨-, k, -, -⟩
  · rcases hB with rfl | rfl | rfl | rfl <;> simp [nextBase, k, next_state, S_N, S_I, S_F, S_Z]
  · rw [d] at h; exact Bool.noConfusion h
  · rw [d] at h; exact Bool.noConfusion h
  · rcases hB with rfl | rfl | rfl | rfl <;> simp [nextBase, k, next_state, S_N, S_I, S_F, S_Z]

theorem nextBase_N_digit (c : Char) (h : isdigit c = true) :
    nextBase S_N c = if c.toNat = 48 then S_Z else S_I := by
  rcases symClass_cases c with ⟨-, -, d, -⟩ | ⟨n, k, -, -⟩ | ⟨n, -, k, -, -⟩ | ⟨-, -, d, -⟩
  · rw [d] at h; exact Bool.noConfusion h
  · simp [nextBase, k, n, next_state, S_N, S_I, S_F, S_Z]
  · have : c.toNat ≠ 48 := by omega
    simp [nextBase, k, this, next_state, S_N, S_I, S_F, S_Z]
  · rw [d] at h; exact Bool.noConfusion h

theorem runValue_cons (c : Char) (p : Str) (h : isdigit c = true) :
    natOfDigits (digitRun (c :: p)) =
      (c.toNat - 48) * 10 ^ runLen p + natOfDigits (digitRun p) := by
  rw [digitRun_cons c p h, natOfDigits_cons, digitRun_length]

theorem runValue_lt (p : Str) : natOfDigits (digitRun p) < 10 ^ runLen p := by
  rw [← digitRun_length]
  exact natOfDigits_lt _ (digitRun_digits p)

theorem runLen_cons_digit (c : Char) (p : Str) (h : isdigit c = true) :
    runLen (c :: p) = runLen p + 1 := by
  simp [runLen, h]

theorem runLen_of_not_digit (p : Str) (h : isdigit (peekChar p) = false) : runLen p = 0 := by
  cases p with
  | nil => rfl
  | cons c p =>
    simp only [peekChar, List.headD_cons] at h
    simp [runLen, h]

theorem runLen_zero (p : Str) (h : runLen p = 0) : isdigit (peekChar p) = false := by
  cases p with
  | nil => rfl
  | cons c p =>
    by_cases hd : isdigit c = true
    · simp [runLen, hd] at h
    · simpa [peekChar] using hd

/-- Of two runs of the same length the one with the smaller first digit has
the smaller value. -/
theorem runValue_head_lt (c1 c2 : Char) (q1 q2 : Str) (d1 : isdigit c1 = true)
    (d2 : isdigit c2 = true) (hq : runLen q1 = runLen q2) (hlt : c1.toNat < c2.toNat) :
    natOfDigits (digitRun (c1 :: q1)) < natOfDigits (digitRun (c2 :: q2)) := by
  rw [runValue_cons c1 q1 d1, runValue_cons c2 q2 d2, ← hq]
  have v1 := runValue_lt q1
  have k1 := (isdigit_iff c1).mp d1
  have e1 : (c1.toNat - 48) + 1 ≤ c2.toNat - 48 := by omega
  have := Nat.mul_le_mul_right (10 ^ runLen q1) e1
  rw [Nat.add_mul, Nat.one_mul] at this
  omega

/-- A run that is shorter than a run with a first digit other than 0 has the
smaller value. -/
theorem runValue_shorter_lt (p1 : Str) (c2 : Char) (q2 : Str) (d2 : isdigit c2 = true)
    (hz : c2.toNat ≠ 48) (hl : runLen p1 ≤ runLen q2) :
    natOfDigits (digitRun p1) < natOfDigits (digitRun (c2 :: q2)) := by
  rw [runValue_cons c2 q2 d2]
  have v1 := runValue_lt p1
  have k2 := (isdigit_iff c2).mp d2
  have e1 : 1 ≤ c2.toNat - 48 := by omega
  have h1 := Nat.mul_le_mul_right (10 ^ runLen q2) e1
  have h2 : 10 ^ runLen p1 ≤ 10 ^ runLen q2 := Nat.pow_le_pow_right (by decide) hl
  rw [Nat.one_mul] at h1
  omega

theorem runValue_tail_lt_iff (c : Char) (q1 q2 : Str) (d : isdigit c = true)
    (hq : runLen q1 = runLen q2) :
    (natOfDigits (digitRun (c :: q1)) < natOfDigits (digitRun (c :: q2)) ↔
      natOfDigits (digitRun q1) < natOfDigits (digitRun q2)) := by
  rw [runValue_cons c q1 d, runValue_cons c q2 d, ← hq]
  omega

/-- In the integral part, two runs of the same length are ranked by value. -/
theorem keyCmp_run_I : ∀ p1 p2 : Str, runLen p1 = runLen p2 →
    keyCmp (keys S_I p1) (keys S_I p2) =
      if natOfDigits (digitRun p1) < natOfDigits (digitRun p2) then -1
      else if natOfDigits (digitRun p2) < natOfDigits (digitRun p1) then 1
      else keyCmp (keys S_I (afterRun p1)) (keys S_I (afterRun p2))
  | [], p2, h => by
    have h2 := runLen_zero p2 h.symm
    rw [digitRun_of_not_digit p2 h2, afterRun_of_not_digit p2 h2]
    simp [digitRun, afterRun]
  | c1 :: q1, p2, h => by
    by_cases d1 : isdigit c1 = true
    · rw [runLen_cons_digit c1 q1 d1] at h
      obtain ⟨c2, q2, rfl, d2, hl⟩ := runLen_pos_cons (p := p2) (by omega)
      have hq : runLen q1 = runLen q2 := by omega
      have ih := keyCmp_run_I q1 q2 hq
      have nb1 : nextBase S_I c1 = S_I := nextBase_I_digit c1 d1
      have nb2 : nextBase S_I c2 = S_I := nextBase_I_digit c2 d2
      rw [afterRun_cons c1 q1 d1, afterRun_cons c2 q2 d2]
      simp only [keys, keyCmp, symKey_I_digit c1 _ d1, symKey_I_digit c2 _ d2, nb1, nb2, hq,
        pairCmp_mk, Nat.lt_irrefl, if_false]
      rcases Nat.lt_trichotomy c1.toNat c2.toNat with hlt | heq | hgt
      · have hv := runValue_head_lt c1 c2 q1 q2 d1 d2 hq hlt
        rw [if_pos hv]
        have : runLen q2 * 16 + c1.toNat < runLen q2 * 16 + c2.toNat := by omega
        simp [this]
      · have hc := char_eq_of_toNat_eq heq
        subst hc
        simp only [Nat.lt_irrefl, if_false, if_true, ih, runValue_tail_lt_iff c1 q1 q2 d1 hq,
          runValue_tail_lt_iff c1 q2 q1 d1 hq.symm]
      · have hv := runValue_head_lt c2 c1 q2 q1 d2 d1 hq.symm hgt
        have hnv : ¬ natOfDigits (digitRun (c1 :: q1)) < natOfDigits (digitRun (c2 :: q2)) := by
          omega
        have h1 : ¬ runLen q2 * 16 + c1.toNat < runLen q2 * 16 + c2.toNat := by omega
        have h2 : runLen q2 * 16 + c2.toNat < runLen q2 * 16 + c1.toNat := by omega
        simp [h1, h2, hnv, hv]
    · have d1f : isdigit c1 = false := by simpa using d1
      have h1 : isdigit (peekChar (c1 :: q1)) = false := d1f
      have h2 := runLen_zero p2 (by rw [← h, runLen_of_not_digit _ h1])
      rw [digitRun_of_not_digit p2 h2, afterRun_of_not_digit p2 h2,
        digitRun_of_not_digit _ h1, afterRun_of_not_digit _ h1]
      simp [natOfDigits]

theorem noLeadingZeroFrom_zero (p : Str) (h : noLeadingZeroFrom false ('0' :: p) = true) :
    isdigit (peekChar p) = false := by
  simp only [noLeadingZeroFrom, Bool.and_eq_true] at h
  simpa using h.1

theorem noLeadingZeroFrom_tail (b : Bool) (c : Char) (p : Str)
    (h : noLeadingZeroFrom b (c :: p) = true) : noLeadingZeroFrom (isdigit c) p = true := by
  simp only [noLeadingZeroFrom, Bool.and_eq_true] at h
  exact h.2

theorem toNat_pos_of_ne_nul (c : Char) (h : c ≠ '\x00') : 0 < c.toNat := by
  rcases Nat.eq_zero_or_pos c.toNat with h0 | h0
  · exact absurd (char_eq_of_toNat_eq (by rw [h0]; rfl)) h
  · exact h0

theorem keyCmp_cons (a b : Nat × Nat) (as bs : List (Nat × Nat)) :
    keyCmp (a :: as) (b :: bs) = if pairCmp a b = 0 then keyCmp as bs else pairCmp a b := rfl

/-- The comparison of the rank lists is the natural order of the
specification, for strings without a leading zero in a numeric run that are
read from the state `S_N`, or from any state when neither starts with a
digit. -/
theorem keyCmp_natural : ∀ (n : Nat) (s t : Str) (B : Nat), s.length < n →
    (B = S_N ∨ B = S_I ∨ B = S_F ∨ B = S_Z) →
    (B = S_N ∨ (isdigit (peekChar s) = false ∧ isdigit (peekChar t) = false)) →
    (∀ c ∈ s, c ≠ '\x00') → (∀ c ∈ t, c ≠ '\x00') →
    noLeadingZeroFrom false s = true → noLeadingZeroFrom false t = true →
    keyCmp (keys B s) (keys B t) = specNaturalCmpFuel n s t
  | 0, _, _, _, hn, _, _, _, _, _, _ => absurd hn (Nat.not_lt_zero _)
  | n + 1, [], [], B, _, _, _, _, _, _, _ => by
    simp [keys, keyCmp, specNaturalCmpFuel, pairCmp_self]
  | n + 1, [], c2 :: p2, B, _, hB, hinv, _, h2, _, _ => by
    have hc2 := toNat_pos_of_ne_nul c2 (h2 c2 (List.mem_cons_self _ _))
    have hb := symKey_bytes B hB '\x00' c2 0 (runLen p2) (by
      rcases hinv with h | ⟨-, h⟩
      · exact Or.inr ⟨h, fun hh => Bool.noConfusion (isdigit_nul.symm.trans hh.1)⟩
      · exact Or.inl ⟨isdigit_nul, h⟩)
    have h0 : ('\x00' : Char).toNat = 0 := rfl
    rw [h0, if_pos hc2] at hb
    simp [keys, keyCmp, specNaturalCmpFuel, hb]
  | n + 1, c1 :: p1, [], B, _, hB, hinv, h1, _, _, _ => by
    have hc1 := toNat_pos_of_ne_nul c1 (h1 c1 (List.mem_cons_self _ _))
    have hb := symKey_bytes B hB c1 '\x00' (runLen p1) 0 (by
      rcases hinv with h | ⟨h, -⟩
      · exact Or.inr ⟨h, fun hh => Bool.noConfusion (isdigit_nul.symm.trans hh.2)⟩
      · exact Or.inl ⟨h, isdigit_nul⟩)
    have h0 : ('\x00' : Char).toNat = 0 := rfl
    rw [h0, if_neg (Nat.not_lt_zero _), if_pos hc1] at hb
    simp [keys, keyCmp, specNaturalCmpFuel, hb]
  | n + 1, c1 :: p1, c2 :: p2, B, hn, hB, hinv, h1, h2, hz1, hz2 => by
    have ih := keyCmp_natural n
    have hn1 : p1.length < n := by simpa using hn
    have n1 : ∀ c ∈ p1, c ≠ '\x00' := fun c hc => h1 c (List.mem_cons_of_mem _ hc)
    have n2 : ∀ c ∈ p2, c ≠ '\x00' := fun c hc => h2 c (List.mem_cons_of_mem _ hc)
    have t1 := noLeadingZeroFrom_tail _ _ _ hz1
    have t2 := noLeadingZeroFrom_tail _ _ _ hz2
    have a1 : noLeadingZeroFrom false (afterRun p1) = true :=
      noLeadingZeroFrom_afterRun p1 _ false t1
    have a2 : noLeadingZeroFrom false (afterRun p2) = true :=
      noLeadingZeroFrom_afterRun p2 _ false t2
    have an1 : ∀ c ∈ afterRun p1, c ≠ '\x00' := fun c hc => n1 c (afterRun_mem p1 c hc)
    have an2 : ∀ c ∈ afterRun p2, c ≠ '\x00' := fun c hc => n2 c (afterRun_mem p2 c hc)
    have al1 : (afterRun p1).length < n := Nat.lt_of_le_of_lt (afterRun_length_le p1) hn1
    have ihRun := fun B hB => ih (afterRun p1) (afterRun p2) B al1 hB
      (Or.inr ⟨afterRun_head p1, afterRun_head p2⟩) an1 an2 a1 a2
    rw [specNaturalCmpFuel]
    simp only [keys, keyCmp_cons]
    by_cases hd : isdigit c1 = true ∧ isdigit c2 = true
    · obtain ⟨d1, d2⟩ := hd
      have hBN : B = S_N := by
        rcases hinv with h | ⟨h, -⟩
        · exact h
        · rw [show peekChar (c1 :: p1) = c1 from rfl, d1] at h; exact Bool.noConfusion h
      subst hBN
      rw [if_pos (show isdigit c1 = true ∧ isdigit c2 = true from ⟨d1, d2⟩), symKey_N_digit c1 _ d1, symKey_N_digit c2 _ d2,
        nextBase_N_digit c1 d1, nextBase_N_digit c2 d2]
      have k1 := (isdigit_iff c1).mp d1
      have k2 := (isdigit_iff c2).mp d2
      by_cases z1 : c1.toNat = 48
      · have e1 := (char_zero_iff c1).mpr z1
        subst e1
        have hp1 := noLeadingZeroFrom_zero p1 hz1
        have v1 : natOfDigits (digitRun ('0' :: p1)) = 0 := by
          rw [runValue_cons _ _ d1, digitRun_of_not_digit p1 hp1, z1]; simp [natOfDigits]
        by_cases z2 : c2.toNat = 48
        · have e2 := (char_zero_iff c2).mpr z2
          subst e2
          have hp2 := noLeadingZeroFrom_zero p2 hz2
          have v2 : natOfDigits (digitRun ('0' :: p2)) = 0 := by
            rw [runValue_cons _ _ d2, digitRun_of_not_digit p2 hp2, z2]; simp [natOfDigits]
          rw [v1, v2]
          simp only [z1, if_true, pairCmp_self, Nat.lt_irrefl, if_false]
          have hr := ihRun S_Z (Or.inr (Or.inr (Or.inr rfl)))
          rw [afterRun_of_not_digit p1 hp1, afterRun_of_not_digit p2 hp2] at hr ⊢
          exact hr
        · have hv := runValue_shorter_lt [] c2 p2 d2 z2 (Nat.zero_le _)
          have hv0 : natOfDigits (digitRun ('0' :: p1)) < natOfDigits (digitRun (c2 :: p2)) := by
            rw [v1]; exact Nat.lt_of_le_of_lt (Nat.zero_le _) hv
          rw [if_pos hv0]
          simp only [z1, z2, if_true, if_false, pairCmp_mk]
          simp
      · by_cases z2 : c2.toNat = 48
        · have e2 := (char_zero_iff c2).mpr z2
          subst e2
          have hp2 := noLeadingZeroFrom_zero p2 hz2
          have v2 : natOfDigits (digitRun ('0' :: p2)) = 0 := by
            rw [runValue_cons _ _ d2, digitRun_of_not_digit p2 hp2, z2]; simp [natOfDigits]
          have hv := runValue_shorter_lt [] c1 p1 d1 z1 (Nat.zero_le _)
          have hv0 : natOfDigits (digitRun ('0' :: p2)) < natOfDigits (digitRun (c1 :: p1)) := by
            rw [v2]; exact Nat.lt_of_le_of_lt (Nat.zero_le _) hv
          have hnv : ¬ natOfDigits (digitRun (c1 :: p1)) < natOfDigits (digitRun ('0' :: p2)) := by
            omega
          rw [if_neg hnv, if_pos hv0]
          simp only [z1, z2, if_true, if_false, pairCmp_mk]
          simp
        · simp only [z1, z2, if_false, pairCmp_mk, Nat.lt_irrefl]
          rcases Nat.lt_trichotomy (runLen p1) (runLen p2) with hl | hl | hl
          · have hv : natOfDigits (digitRun (c1 :: p1)) < natOfDigits (digitRun (c2 :: p2)) := by
              have := runValue_shorter_lt (c1 :: p1) c2 p2 d2 z2
                (by rw [runLen_cons_digit c1 p1 d1]; omega)
              exact this
            have hk : runLen p1 * 16 + c1.toNat < runLen p2 * 16 + c2.toNat := by omega
            simp [hv, hk]
          · rcases Nat.lt_trichotomy c1.toNat c2.toNat with hc | hc | hc
            · have hv := runValue_head_lt c1 c2 p1 p2 d1 d2 hl hc
              have hk : runLen p1 * 16 + c1.toNat < runLen p2 * 16 + c2.toNat := by omega
              simp [hv, hk]
            · have hc1 := char_eq_of_toNat_eq hc
              subst hc1
              rw [hl]
              simp only [Nat.lt_irrefl, if_false, if_true, keyCmp_run_I p1 p2 hl,
                runValue_tail_lt_iff c1 p1 p2 d1 hl, runValue_tail_lt_iff c1 p2 p1 d1 hl.symm,
                ihRun S_I (Or.inr (Or.inl rfl))]
            · have hv := runValue_head_lt c2 c1 p2 p1 d2 d1 hl.symm hc
              have hnv : ¬ natOfDigits (digitRun (c1 :: p1)) < natOfDigits (digitRun (c2 :: p2)) := by
                omega
              have hk : runLen p2 * 16 + c2.toNat < runLen p1 * 16 + c1.toNat := by omega
              have hnk : ¬ runLen p1 * 16 + c1.toNat < runLen p2 * 16 + c2.toNat := by omega
              simp [hv, hnv, hk, hnk]
          · have hv : natOfDigits (digitRun (c2 :: p2)) < natOfDigits (digitRun (c1 :: p1)) :=
              runValue_shorter_lt (c2 :: p2) c1 p1 d1 z1
                (by rw [runLen_cons_digit c2 p2 d2]; omega)
            have hnv : ¬ natOfDigits (digitRun (c1 :: p1)) < natOfDigits (digitRun (c2 :: p2)) := by
              omega
            have hk : runLen p2 * 16 + c2.toNat < runLen p1 * 16 + c1.toNat := by omega
            have hnk : ¬ runLen p1 * 16 + c1.toNat < runLen p2 * 16 + c2.toNat := by omega
            simp [hv, hnv, hk, hnk]
    · have hb := symKey_bytes B hB c1 c2 (runLen p1) (runLen p2) (by
        rcases hinv with h | h
        · exact Or.inr ⟨h, hd⟩
        · exact Or.inl h)
      rw [if_neg hd, hb]
      rcases Nat.lt_trichotomy c1.toNat c2.toNat with hc | hc | hc
      · simp [hc]
      · have hc1 := char_eq_of_toNat_eq hc
        subst hc1
        have d1 : isdigit c1 = false := by
          cases hh : isdigit c1 with
          | false => rfl
          | true => exact absurd ⟨hh, hh⟩ hd
        rw [d1] at t1 t2
        simp only [Nat.lt_irrefl, if_false, if_true, nextBase_other B hB c1 d1]
        exact ih p1 p2 S_N hn1 (Or.inl rfl) (Or.inl rfl) n1 n2 t1 t2
      · have hnc : ¬ c1.toNat < c2.toNat := by omega
        simp [hc, hnc]

/-- On names without a leading zero in a numeric run, the sign of
`strverscmp` is the natural order of the specification. -/
theorem strverscmp_natural (s t : Str) (hs : noLeadingZero (c_str s) = true)
    (ht : noLeadingZero (c_str t) = true) :
    sgn (strverscmp s t) = specNaturalCmp (c_str s) (c_str t) := by
  rw [strverscmp_sign]
  exact keyCmp_natural _ _ _ S_N (Nat.lt_succ_self _) (Or.inl rfl) (Or.inl rfl) (c_str_no_nul s)
    (c_str_no_nul t) hs ht

/-- The natural order does not depend on the bound on the steps once the
bound is above the length of the first string. -/
theorem specNaturalCmpFuel_enough : ∀ (n m : Nat) (s t : Str), s.length < n → s.length < m →
    specNaturalCmpFuel n s t = specNaturalCmpFuel m s t
  | 0, _, _, _, hn, _ => absurd hn (Nat.not_lt_zero _)
  | _ + 1, 0, _, _, _, hm => absurd hm (Nat.not_lt_zero _)
  | n + 1, m + 1, [], [], _, _ => rfl
  | n + 1, m + 1, [], _ :: _, _, _ => rfl
  | n + 1, m + 1, _ :: _, [], _, _ => rfl
  | n + 1, m + 1, c1 :: p1, c2 :: p2, hn, hm => by
    have hn1 : p1.length < n := by simpa using hn
    have hm1 : p1.length < m := by simpa using hm
    have al := afterRun_length_le p1
    simp only [specNaturalCmpFuel]
    rw [specNaturalCmpFuel_enough n m p1 p2 hn1 hm1,
      specNaturalCmpFuel_enough n m (afterRun p1) (afterRun p2) (by omega) (by omega)]

theorem keys_eq_of_keyCmp : ∀ (s t : Str) (B : Nat),
    (B = S_N ∨ B = S_I ∨ B = S_F ∨ B = S_Z) →
    (∀ c ∈ s, c ≠ '\x00') → (∀ c ∈ t, c ≠ '\x00') →
    keyCmp (keys B s) (keys B t) = 0 → s = t
  | [], [], _, _, _, _, _ => rfl
  | [], c2 :: p2, B, hB, _, h2, h => by
    have hne : '\x00' ≠ c2 := fun e => h2 c2 (List.mem_cons_self _ _) e.symm
    have hp := (verscmpResult_sign B hB '\x00' c2 hne [] p2).2
    simp only [keys, keyCmp_cons, runLen] at h hp
    rw [if_neg hp] at h
    exact absurd h hp
  | c1 :: p1, [], B, hB, h1, _, h => by
    have hne : c1 ≠ '\x00' := h1 c1 (List.mem_cons_self _ _)
    have hp := (verscmpResult_sign B hB c1 '\x00' hne p1 []).2
    simp only [keys, keyCmp_cons, runLen] at h hp
    rw [if_neg hp] at h
    exact absurd h hp
  | c1 :: p1, c2 :: p2, B, hB, h1, h2, h => by
    simp only [keys, keyCmp_cons] at h
    by_cases hp : pairCmp (symKey B c1 (runLen p1)) (symKey B c2 (runLen p2)) = 0
    · rw [if_pos hp] at h
      by_cases hc : c1 = c2
      · subst hc
        rw [keys_eq_of_keyCmp p1 p2 (nextBase B c1) (nextBase_valid B hB c1)
          (fun c hm => h1 c (List.mem_cons_of_mem _ hm))
          (fun c hm => h2 c (List.mem_cons_of_mem _ hm)) h]
      · exact absurd hp (verscmpResult_sign B hB c1 c2 hc p1 p2).2
    · rw [if_neg hp] at h
      exact absurd h hp

/-- The result of `strverscmp` is 0 exactly for two equal strings. -/
theorem strverscmp_eq_zero_iff (s t : Str) : strverscmp s t = 0 ↔ c_str s = c_str t := by
  constructor
  · intro h
    have hs := strverscmp_sign s t
    rw [h] at hs
    exact keys_eq_of_keyCmp _ _ S_N (Or.inl rfl) (c_str_no_nul s) (c_str_no_nul t) hs.symm
  · intro h
    unfold strverscmp
    rw [h]
    exact verscmpLoop_self _ _

/-- C2 (as stated, refuted): the digit runs "09" and "010" have the values 9
and 10, so "chr09" precedes "chr010" in the order in which numeric runs
compare by value, yet `Entry::cmp` puts the record on "chr010" first:
`strverscmp` returns -8 for "chr010" against "chr09", because it reads a run
that starts with a zero as a fractional part. In the same way "chr2" precedes
"chr010" by value and `Entry::cmp` puts "chr010" first. -/
theorem cmp_leading_zeros_not_by_value :
    natOfDigits (digitRun "09".toList) = 9 ∧ natOfDigits (digitRun "010".toList) = 10 ∧
    specNaturalCmp "chr09".toList "chr010".toList < 0 ∧
    0 < Entry.cmp { exampleRecord with chrom := "chr09".toList }
      { exampleRecord with chrom := "chr010".toList } ∧
    Entry.cmp { exampleRecord with chrom := "chr010".toList }
      { exampleRecord with chrom := "chr09".toList } < 0 ∧
    strverscmp "chr010".toList "chr09".toList = -8 ∧
    specNaturalCmp "chr2".toList "chr010".toList < 0 ∧
    0 < Entry.cmp { exampleRecord with chrom := "chr2".toList }
      { exampleRecord with chrom := "chr010".toList } ∧
    strverscmp "chr2".toList "chr010".toList = 2 :=
  ⟨by decide, by decide, by decide, by decide, by decide, by decide, by decide, by decide,
    by decide⟩

/-- C2 (amended): for records whose chromosome names, as `c_str()` hands them
to `strverscmp`, have no digit run with a leading zero (a '0' that starts a
run and is followed by a digit), `Entry::cmp` compares the names in the
natural order first and the positions second. The sign of `strverscmp` is the
comparison `specNaturalCmp`, in which numeric runs compare by value and other
bytes by byte; `cmp(a,b) < 0` exactly when the name of `a` precedes the name
of `b` in that order, or the names compare equal and `pos(a) < pos(b)`;
`cmp(a,b) = 0` exactly when the names compare equal and the positions are
equal; `cmp(a,b) > 0` in the remaining case; two such names compare equal
exactly when they are the same. A record on "chr2" is less than a record on
"chr10" for every pair of positions, although "chr10" is the smaller string
byte by byte, and every record compares equal to itself. -/
theorem cmp_natural_then_pos (a b : Entry)
    (ha : noLeadingZero (c_str a.chrom) = true) (hb : noLeadingZero (c_str b.chrom) = true) :
    sgn (strverscmp a.chrom b.chrom) = specNaturalCmp (c_str a.chrom) (c_str b.chrom) ∧
    (a.cmp b < 0 ↔
      specNaturalCmp (c_str a.chrom) (c_str b.chrom) < 0 ∨
        (specNaturalCmp (c_str a.chrom) (c_str b.chrom) = 0 ∧ a.pos < b.pos)) ∧
    (a.cmp b = 0 ↔ specNaturalCmp (c_str a.chrom) (c_str b.chrom) = 0 ∧ a.pos = b.pos) ∧
    (0 < a.cmp b ↔
      0 < specNaturalCmp (c_str a.chrom) (c_str b.chrom) ∨
        (specNaturalCmp (c_str a.chrom) (c_str b.chrom) = 0 ∧ b.pos < a.pos)) ∧
    (specNaturalCmp (c_str a.chrom) (c_str b.chrom) = 0 ↔ c_str a.chrom = c_str b.chrom) ∧
    (∀ x y : Entry, x.chrom = "chr2".toList → y.chrom = "chr10".toList →
      x.cmp y < 0 ∧ 0 < y.cmp x) ∧
    strLess "chr10".toList "chr2".toList = true ∧
    (∀ x : Entry, x.cmp x = 0) := by
  have hc : ∀ x y : Entry, x.cmp y =
      if strverscmp x.chrom y.chrom ≠ 0 then strverscmp x.chrom y.chrom
      else if x.pos < y.pos then -1 else if y.pos < x.pos then 1 else 0 := fun _ _ => rfl
  have hs := strverscmp_natural a.chrom b.chrom ha hb
  have hn :
      (strverscmp a.chrom b.chrom < 0 ↔
        specNaturalCmp (c_str a.chrom) (c_str b.chrom) < 0) ∧
      (strverscmp a.chrom b.chrom = 0 ↔
        specNaturalCmp (c_str a.chrom) (c_str b.chrom) = 0) := by
    have r := sgn_range (strverscmp a.chrom b.chrom)
    have n1 := sgn_neg_iff (strverscmp a.chrom b.chrom)
    have n0 := sgn_zero_iff (strverscmp a.chrom b.chrom)
    rw [hs] at r n1 n0
    refine ⟨⟨fun h => ?_, fun h => ?_⟩, ⟨fun h => ?_, fun h => ?_⟩⟩
    · have := n1.mpr h; omega
    · exact n1.mp (by omega)
    · have := n0.mpr h; omega
    · exact n0.mp h
  obtain ⟨hn1, hn0⟩ := hn
  refine ⟨hs, ?_, ?_, ?_, ?_, ?_, by decide, ?_⟩
  · rw [hc, ← hn1, ← hn0]
    split_ifs <;> constructor <;> intro hh <;> omega
  · rw [hc, ← hn0]
    split_ifs <;> constructor <;> intro hh <;> first | omega | contradiction
  · have hp : 0 < specNaturalCmp (c_str a.chrom) (c_str b.chrom) ↔
        0 < strverscmp a.chrom b.chrom := by
      have r := sgn_range (strverscmp a.chrom b.chrom)
      have np := sgn_pos_iff (strverscmp a.chrom b.chrom)
      rw [hs] at r np
      exact ⟨fun h => np.mp (by omega), fun h => by have := np.mpr h; omega⟩
    rw [hc, hp, ← hn0]
    split_ifs <;> constructor <;> intro hh <;> omega
  · rw [← hn0]
    exact strverscmp_eq_zero_iff a.chrom b.chrom
  · intro x y hx hy
    have h1 : strverscmp "chr2".toList "chr10".toList = -1 := by decide
    have h2 : strverscmp "chr10".toList "chr2".toList = 1 := by decide
    rw [hc, hc, hx, hy, h1, h2]
    simp
  · intro x
    rw [hc, strverscmp_self]; simp

/-- Instance of the amended C2: "chr19" and "chr100" have no leading zero, 19
is below 100, `strverscmp` returns -1 for them, and the record on "chr19" at
position 5 is less than the record on "chr100" at position 3. -/
theorem cmp_natural_then_pos_witness :
    noLeadingZero (c_str "chr19".toList) = true ∧
    noLeadingZero (c_str "chr100".toList) = true ∧
    specNaturalCmp (c_str "chr19".toList) (c_str "chr100".toList) < 0 ∧
    strverscmp "chr19".toList "chr100".toList = -1 ∧
    Entry.cmp { exampleRecord with chrom := "chr19".toList, pos := 5 }
      { exampleRecord with chrom := "chr100".toList, pos := 3 } < 0 :=
  ⟨by decide, by decide, by decide, by decide,
    (cmp_natural_then_pos { exampleRecord with chrom := "chr19".toList, pos := 5 }
      { exampleRecord with chrom := "chr100".toList, pos := 3 }
      (by decide) (by decide)).2.1.mpr (Or.inl (by decide))⟩

end Vcf

/-! ### `removeLowDepthGenotypes` twice, and `samplesWithData` -/

namespace Vcf

theorem specDropLowDepth_cases (t k : Nat) (s : List CustomValue) :
    specDropLowDepth t k s = [] ∨ specDropLowDepth t k s = s := by
  unfold specDropLowDepth
  split
  · left; rfl
  · split
    · left; rfl
    · split_ifs
      · left; rfl
      · right; rfl
    · left; rfl

theorem specDropLowDepth_nil (t k : Nat) : specDropLowDepth t k [] = [] := by
  simp [specDropLowDepth]

theorem specDropLowDepth_idem (t k : Nat) (s : List CustomValue) :
    specDropLowDepth t k (specDropLowDepth t k s) = specDropLowDepth t k s := by
  rcases specDropLowDepth_cases t k s with h | h
  · rw [h, specDropLowDepth_nil]
  · rw [h, h]

theorem withData_cons (s : List CustomValue) (l : List (List CustomValue)) :
    withData (s :: l) = (if s.length ≠ 0 then 1 else 0) + withData l := by
  cases s with
  | nil => simp [withData]
  | cons x xs => simp [withData, Nat.add_comm]

theorem withData_map_le (t k : Nat) : ∀ l : List (List CustomValue),
    withData (l.map (specDropLowDepth t k)) ≤ withData l
  | [] => le_refl _
  | s :: rest => by
    have ih := withData_map_le t k rest
    rw [List.map_cons, withData_cons, withData_cons]
    rcases specDropLowDepth_cases t k s with h | h
    · rw [h]
      simp only [List.length_nil, ne_eq, not_true_eq_false, if_false]
      omega
    · rw [h]
      omega

theorem samplesWithDataLoop_eq : ∀ (l : List (List CustomValue)) (rv : Nat),
    rv < 4294967296 → samplesWithDataLoop rv l = (rv + withData l) % 4294967296
  | [], rv, h => by
    simp only [samplesWithDataLoop, withData, List.filter_nil, List.length_nil, Nat.add_zero]
    exact (Nat.mod_eq_of_lt h).symm
  | s :: rest, rv, h => by
    rw [samplesWithDataLoop, withData_cons]
    split_ifs with hs
    · rw [samplesWithDataLoop_eq rest _ (Nat.mod_lt _ (by decide))]
      omega
    · rw [samplesWithDataLoop_eq rest rv h]
      omega

theorem samplesWithData_eq (e : Entry) :
    e.samplesWithData = withData e.genotypeData % 4294967296 := by
  rw [Entry.samplesWithData, samplesWithDataLoop_eq _ 0 (by decide), Nat.zero_add]

theorem removeLowDepthGenotypes_eq_map (t : Nat) (e : Entry) :
    (findIndex "DP".toList e.formatDescription = none ∧ e.removeLowDepthGenotypes t = .ok e) ∨
    (∃ k, findIndex "DP".toList e.formatDescription = some k ∧
      ((∀ s ∈ e.genotypeData, s = [] ∨ k < s.length) →
        e.removeLowDepthGenotypes t =
          .ok { e with genotypeData := e.genotypeData.map (specDropLowDepth t k) })) := by
  cases hk : findIndex "DP".toList e.formatDescription with
  | none =>
    left
    exact ⟨rfl, by simp only [Entry.removeLowDepthGenotypes, hk]⟩
  | some k =>
    right
    refine ⟨k, rfl, fun hdata => ?_⟩
    simp only [Entry.removeLowDepthGenotypes, hk, removeLowDepthLoop_eq_map t k _ hdata]


theorem removeLowDepthGenotypes_twice (t : Nat) (e : Entry)
    (hdata : ∀ k, findIndex "DP".toList e.formatDescription = some k →
      ∀ s ∈ e.genotypeData, s = [] ∨ k < s.length) :
    ∃ e1, e.removeLowDepthGenotypes t = .ok e1 ∧
      e1.removeLowDepthGenotypes t = .ok e1 ∧
      withData e1.genotypeData ≤ withData e.genotypeData := by
  rcases removeLowDepthGenotypes_eq_map t e with ⟨-, h0⟩ | ⟨k, hk, hmap⟩
  · exact ⟨e, h0, h0, le_refl _⟩
  · have h1 := hmap (hdata k hk)
    refine ⟨_, h1, ?_, withData_map_le t k _⟩
    have hk1 : findIndex "DP".toList
        ({ e with genotypeData := e.genotypeData.map (specDropLowDepth t k) } :
          Entry).formatDescription = some k := hk
    have hdata1 : ∀ s ∈ e.genotypeData.map (specDropLowDepth t k), s = [] ∨ k < s.length := by
      intro s hs
      obtain ⟨s0, hs0, rfl⟩ := List.mem_map.mp hs
      rcases specDropLowDepth_cases t k s0 with h | h
      · left; exact h
      · rw [h]; exact hdata k hk s0 hs0
    simp only [Entry.removeLowDepthGenotypes, hk, removeLowDepthLoop_eq_map t k _ hdata1,
      List.map_map]
    congr 2
    apply List.map_congr_left
    intro s _
    exact specDropLowDepth_idem t k s

theorem withData_replicate (v : CustomValue) : ∀ n : Nat,
    withData (List.replicate n [v]) = n
  | 0 => rfl
  | n + 1 => by
    rw [List.replicate_succ, withData_cons, withData_replicate v n]
    simp only [List.length_singleton, ne_eq, one_ne_zero, not_false_eq_true, if_true]
    omega

theorem manySamples_counts (n : Nat) :
    (∀ k, findIndex "DP".toList (manySamples n).formatDescription = some k →
      ∀ s ∈ (manySamples n).genotypeData, s = [] ∨ k < s.length) ∧
    (manySamples n).removeLowDepthGenotypes 10 =
      .ok { manySamples n with genotypeData := [] :: List.replicate n [depthValue 15] } ∧
    (manySamples n).samplesWithData = (n + 1) % 4294967296 ∧
    Entry.samplesWithData
      { manySamples n with genotypeData := [] :: List.replicate n [depthValue 15] } =
      n % 4294967296 := by
  have hk : findIndex "DP".toList (manySamples n).formatDescription = some 0 := rfl
  have hdata : ∀ s ∈ (manySamples n).genotypeData, s = [] ∨ 0 < s.length := by
    intro s hs
    right
    have hs' : s ∈ [depthValue 5] :: List.replicate n [depthValue 15] := hs
    rcases List.mem_cons.mp hs' with h | h
    · rw [h]; exact Nat.zero_lt_one
    · rw [List.eq_of_mem_replicate h]; exact Nat.zero_lt_one
  refine ⟨?_, ?_, ?_, ?_⟩
  · intro k hk' s hs
    rw [hk] at hk'
    rw [← Option.some.inj hk']
    exact hdata s hs
  · rcases removeLowDepthGenotypes_eq_map 10 (manySamples n) with ⟨h0, -⟩ | ⟨k, hk', hmap⟩
    · rw [hk] at h0
      exact Option.noConfusion h0
    · rw [hk] at hk'
      have hk0 : k = 0 := (Option.some.inj hk').symm
      subst hk0
      rw [hmap hdata]
      have h5 : specDropLowDepth 10 0 [depthValue 5] = [] := by decide
      have h15 : specDropLowDepth 10 0 [depthValue 15] = [depthValue 15] := by decide
      have hg : (manySamples n).genotypeData =
          [depthValue 5] :: List.replicate n [depthValue 15] := rfl
      rw [hg, List.map_cons, List.map_replicate, h5, h15]
  · rw [samplesWithData_eq]
    have hg : (manySamples n).genotypeData =
        [depthValue 5] :: List.replicate n [depthValue 15] := rfl
    rw [hg, withData_cons, withData_replicate]
    simp only [List.length_singleton, ne_eq, one_ne_zero, not_false_eq_true, if_true]
    rw [Nat.add_comm]
  · rw [samplesWithData_eq]
    show withData ([] :: List.replicate n [depthValue 15]) % 4294967296 = n % 4294967296
    rw [withData_cons, withData_replicate]
    simp only [List.length_nil, ne_eq, not_true_eq_false, if_false, Nat.zero_add]

/-- C23, counterexample: in the record with one sample of depth 5 and
`2^32 - 1` samples of depth 15 every sample has a value at the position of
"DP". `samplesWithData()` counts in a `uint32_t`: it returns 0 for the `2^32`
samples with data before `removeLowDepthGenotypes(10)`, and `2^32 - 1` after
the call has cleared the first sample. -/
theorem samplesWithData_wraps :
    (∀ k, findIndex "DP".toList (manySamples 4294967295).formatDescription = some k →
      ∀ s ∈ (manySamples 4294967295).genotypeData, s = [] ∨ k < s.length) ∧
    ∃ e1, (manySamples 4294967295).removeLowDepthGenotypes 10 = .ok e1 ∧
      (manySamples 4294967295).samplesWithData = 0 ∧
      e1.samplesWithData = 4294967295 ∧
      ¬ (e1.samplesWithData ≤ (manySamples 4294967295).samplesWithData) := by
  obtain ⟨h1, h2, h3, h4⟩ := manySamples_counts 4294967295
  have h3' : (manySamples 4294967295).samplesWithData = 0 := by
    rw [h3]
  have h4' : Entry.samplesWithData
      { manySamples 4294967295 with
        genotypeData := [] :: List.replicate 4294967295 [depthValue 15] } = 4294967295 := by
    rw [h4]
  refine ⟨h1, _, h2, h3', h4', ?_⟩
  rw [h3', h4']
  decide

/-- C23 (amended): for every record in which each sample with data has a
value at the position of "DP", and every threshold `t`,
`removeLowDepthGenotypes(t)` applied to its own result gives that result
again, and the result has at most as many samples with data as the record.
`samplesWithData()` is that number modulo `2^32`; so, when the record has
fewer than `2^32` samples with data, `samplesWithData()` after the call is at
most `samplesWithData()` before it. -/
theorem removeLowDepthGenotypes_idempotent (t : Nat) (e : Entry)
    (hdata : ∀ k, findIndex "DP".toList e.formatDescription = some k →
      ∀ s ∈ e.genotypeData, s = [] ∨ k < s.length) :
    ∃ e1, e.removeLowDepthGenotypes t = .ok e1 ∧
      e1.removeLowDepthGenotypes t = .ok e1 ∧
      withData e1.genotypeData ≤ withData e.genotypeData ∧
      e.samplesWithData = withData e.genotypeData % 4294967296 ∧
      e1.samplesWithData = withData e1.genotypeData % 4294967296 ∧
      (withData e.genotypeData < 4294967296 → e1.samplesWithData ≤ e.samplesWithData) := by
  obtain ⟨e1, h1, h2, h3⟩ := removeLowDepthGenotypes_twice t e hdata
  refine ⟨e1, h1, h2, h3, samplesWithData_eq e, samplesWithData_eq e1, ?_⟩
  intro hlt
  rw [samplesWithData_eq, samplesWithData_eq]
  omega

theorem removeLowDepthGenotypes_idempotent_witness :
    (∀ k, findIndex "DP".toList (depthRecord 5).formatDescription = some k →
      ∀ s ∈ (depthRecord 5).genotypeData, s = [] ∨ k < s.length) ∧
    (depthRecord 5).removeLowDepthGenotypes 10 =
      .ok { depthRecord 5 with genotypeData := [[]] } ∧
    Entry.removeLowDepthGenotypes 10 { depthRecord 5 with genotypeData := [[]] } =
      .ok { depthRecord 5 with genotypeData := [[]] } ∧
    (depthRecord 5).samplesWithData = 1 ∧
    Entry.samplesWithData { depthRecord 5 with genotypeData := [[]] } = 0 ∧
    ∃ e1, (depthRecord 5).removeLowDepthGenotypes 10 = .ok e1 ∧
      e1.removeLowDepthGenotypes 10 = .ok e1 ∧
      withData e1.genotypeData ≤ withData (depthRecord 5).genotypeData ∧
      (depthRecord 5).samplesWithData = withData (depthRecord 5).genotypeData % 4294967296 ∧
      e1.samplesWithData = withData e1.genotypeData % 4294967296 ∧
      (withData (depthRecord 5).genotypeData < 4294967296 →
        e1.samplesWithData ≤ (depthRecord 5).samplesWithData) :=
  ⟨by decide, by decide, by decide, by decide, by decide,
    removeLowDepthGenotypes_idempotent 10 (depthRecord 5) (by decide)⟩

end Vcf

/-! ### `parse` on an entry that holds data -/

namespace Vcf

/-- What `parse` keeps of the entry it is called on: the result is that of
the parsing constructor, except that on a line of exactly eight columns the
format description and the per-sample data of the entry stay. -/
theorem parse_eq_ofLine (c : TextConv) (e : Entry) (h : Option Header) (s : Str) :
    Entry.parse c e h s =
      match Entry.ofLine c h s with
      | .error msg => .error msg
      | .ok r =>
        .ok (if (s.splitOn '\t').length = 8 then
            { r with formatDescription := e.formatDescription, genotypeData := e.genotypeData }
          else r) := by
  unfold Entry.ofLine Entry.parse
  simp only [Tokenizer.new, Tokenizer.extract, Tokenizer.extractPos]
  generalize s.splitOn '\t' = l
  rcases l with _ | ⟨chrom, _ | ⟨posTxt, l⟩⟩
  · rfl
  · rfl
  · simp only []
    cases hpos : parsePos posTxt with
    | none => rfl
    | some pos =>
      simp only [Option.map_some']
      rcases l with _ | ⟨ids, _ | ⟨ref, _ | ⟨alt, _ | ⟨qualstr, l⟩⟩⟩⟩
      · rfl
      · rfl
      · rfl
      · rfl
      · simp only []
        cases hq : (if qualstr = ['.'] then some MISSING_QUALITY else c.readDouble qualstr) with
        | none => rfl
        | some qual =>
          simp only []
          rcases l with _ | ⟨filt, _ | ⟨info, rest⟩⟩
          · rfl
          · rfl
          · simp only []
            cases hi : parseInfo c h (extractList info listDelim) [] with
            | error msg => rfl
            | ok infoMap =>
              simp only []
              cases rest with
              | nil =>
                simp only [Entry.setPositions, List.length_cons, List.length_nil]
                cases hl : setPositionsLoop pos ref (extractList alt ',')
                    (toInt64 pos, toInt64 pos) with
                | error msg => rfl
                | ok st => rfl
              | cons fmt samples =>
                simp only []
                cases hcf : checkFormat h (extractList fmt ':') with
                | error msg => rfl
                | ok u =>
                  simp only []
                  cases hps : parseSamples c h (extractList fmt ':') samples with
                  | error msg => rfl
                  | ok gd =>
                    simp only [Entry.setPositions, List.length_cons]
                    cases hl : setPositionsLoop pos ref (extractList alt ',')
                        (toInt64 pos, toInt64 pos) with
                    | error msg => rfl
                    | ok st =>
                      simp only []
                      rw [if_neg (show ¬ (samples.length + 1 + 1 + 1 + 1 + 1 + 1 + 1 + 1 + 1 = 8) by
                        omega)]

/-- C21: `parse` on an entry that holds data is not the parsing constructor.
On every line the result is that of the constructor `Entry(h, s)` except
that, when the line has exactly eight columns, `_formatDescription` and
`_genotypeData` keep what the entry held before the call. The entry parsed
from a line with the format "GT:DP" and one sample, on which the eight-column
line of chr2:200 is parsed next, still holds that format description and
sample, and is written with them, where the constructor gives a record
without format description and samples. -/
theorem parse_keeps_stale_format (c : TextConv) (e : Entry) (h : Option Header) (s : Str) :
    (Entry.parse c e h s =
      match Entry.ofLine c h s with
      | .error msg => .error msg
      | .ok r =>
        .ok (if (s.splitOn '\t').length = 8 then
            { r with formatDescription := e.formatDescription, genotypeData := e.genotypeData }
          else r)) ∧
    ∃ e0 e1 r,
      Entry.ofLine specConv (some exampleHeader)
        "chr1\t100\t.\tA\tG\t.\tPASS\t.\tGT:DP\t0/1:5".toList = .ok e0 ∧
      Entry.parse specConv e0 (some exampleHeader)
        "chr2\t200\t.\tC\tT\t.\tPASS\t.".toList = .ok e1 ∧
      Entry.ofLine specConv (some exampleHeader)
        "chr2\t200\t.\tC\tT\t.\tPASS\t.".toList = .ok r ∧
      e1 ≠ r ∧
      r.formatDescription = [] ∧ r.genotypeData = [] ∧
      e1.formatDescription = ["GT".toList, "DP".toList] ∧
      e1.genotypeData = e0.genotypeData ∧ e1.genotypeData.length = 1 ∧
      e1.chrom = "chr2".toList ∧ e1.pos = 200 ∧ e1.start = 199 ∧ e1.stop = 200 ∧
      e1.toString specConv = "chr2\t200\t.\tC\tT\t.\tPASS\t.\tGT:DP\t0/1:5".toList ∧
      r.toString specConv = "chr2\t200\t.\tC\tT\t.\tPASS\t.\t.".toList :=
  ⟨parse_eq_ofLine c e h s,
    ⟨_, _, _, rfl, rfl, rfl, by decide, by decide, by decide, by decide, by decide, by decide,
      by decide, by decide, by decide, by decide, by decide, by decide⟩⟩

end Vcf

/-! ### `WiggleReader::next` at the end of the input -/

namespace Wiggle

/-- A run that no later line ends is not written: on `n` data lines of one
value `v`, read by a reader that has seen its declaration with step equal
to span, the loop of `next` reaches the end of the input and returns false. -/
theorem nextLoop_single_run (readInt : Str → Option Int) (v : Str)
    (h1 : "track".toList.isPrefixOf v = false)
    (h2 : "variableStep".toList.isPrefixOf v = false)
    (h3 : "fixedStep".toList.isPrefixOf v = false) :
    ∀ (n : Nat) (r : WiggleReader), r.ready = true → r.step = r.span →
      (r.last = [] ∨ r.last = v) →
      ∃ r1, nextLoop readInt r (List.replicate n v) = .ok (none, r1)
  | 0, r, _, _, _ => ⟨r, rfl⟩
  | n + 1, r, hr, hs, hl => by
    have hcond : (!r.last.isEmpty && (!(r.last == v) || decide (r.step ≠ r.span))) = false := by
      rcases hl with hl | hl
      · simp [hl]
      · simp [hl, hs]
    simp only [List.replicate_succ, nextLoop, h1, h2, h3, hr, hcond, Bool.false_eq_true,
      if_false, Bool.not_true]
    exact nextLoop_single_run readInt v h1 h2 h3 n _ rfl hs (Or.inr rfl)

/-- C22: `next()` writes the entry of a run only when a later line ends it (a
data line with another value, or a `fixedStep` or `track` line); at the end
of the input it returns false and the last run is never written. On `n` data
lines of one value, read after a declaration with step equal to span, the
loop of `next` returns false without an entry, whatever `n` is. For the
declaration `fixedStep chrom=chr1 start=1 step=1 span=1` followed by the data
line 5 the first call returns false: no entry for one data line. With start
11, step and span 2 and the data lines 7, 7, 9 the calls give the single
entry chr1 10..14 of value 7, of length 4 where the three lines cover 6: the
run of 9 is lost. When a second `fixedStep` line follows, the same three data
lines give both entries, chr1 10..14 and chr1 14..16; and when the buffer
ends with a newline, the empty last token is read as a data line and ends the
run of the line before it. -/
theorem next_loses_last_run (readInt : Str → Option Int) (v : Str) (n : Nat)
    (r0 : WiggleReader) :
    ("track".toList.isPrefixOf v = false → "variableStep".toList.isPrefixOf v = false →
      "fixedStep".toList.isPrefixOf v = false →
      r0.ready = true → r0.step = r0.span → r0.last = [] →
      ∃ r1, nextLoop readInt r0 (List.replicate n v) = .ok (none, r1)) ∧
    (∃ r, (WiggleReader.new
        "fixedStep chrom=chr1 start=1 step=1 span=1\n5".toList false).next Vcf.parseInt =
      .ok (none, r)) ∧
    drain Vcf.parseInt 5 (WiggleReader.new
        "fixedStep chrom=chr1 start=1 step=1 span=1\n5".toList false) = .ok (some []) ∧
    drain Vcf.parseInt 5 (WiggleReader.new
        "fixedStep chrom=chr1 start=11 step=2 span=2\n7\n7\n9".toList false) =
      .ok (some [{ chrom := "chr1".toList, start := 10, stop := 14,
                   extraFields := ["7".toList] }]) ∧
    coveredLength [{ chrom := "chr1".toList, start := 10, stop := 14,
                     extraFields := ["7".toList] }] = 4 ∧
    drain Vcf.parseInt 5 (WiggleReader.new
        ("fixedStep chrom=chr1 start=11 step=2 span=2\n7\n7\n9\n" ++
          "fixedStep chrom=chr1 start=101 step=2 span=2").toList false) =
      .ok (some [{ chrom := "chr1".toList, start := 10, stop := 14,
                   extraFields := ["7".toList] },
                 { chrom := "chr1".toList, start := 14, stop := 16,
                   extraFields := ["9".toList] }]) ∧
    drain Vcf.parseInt 5 (WiggleReader.new
        "fixedStep chrom=chr1 start=1 step=1 span=1\n5\n".toList false) =
      .ok (some [{ chrom := "chr1".toList, start := 0, stop := 1,
                   extraFields := ["5".toList] }]) :=
  ⟨fun h1 h2 h3 hr hs hl => nextLoop_single_run readInt v h1 h2 h3 n r0 hr hs (Or.inl hl),
    ⟨_, rfl⟩, by decide, by decide, by decide, by decide, by decide⟩

end Wiggle
